import Mathlib

/-!
# advanced-vector: `RawMemory<T>` and `Vector<T>` (vector.h)

A shallow embedding of the container of `vector.h`.

* A slot of a buffer is an `Option α`: `none` is raw (unconstructed or destroyed)
  memory, `some x` is a constructed object of value `x`.
* A `T*` into a block is the block together with an index; an iterator of a
  vector is its index from `begin()`.
* The element type `T` is described by a `Traits` record: its size, the two type
  traits the code branches on, whether it has a move constructor, the value of `T()`,
  the state a move leaves its source in, and for which values its constructions and
  assignments throw.
* `operator new` is taken to succeed. `size_t` is a 64-bit unsigned integer. The byte
  count `n * sizeof(T)` that `Allocate` passes to `operator new` (line 87) is reduced
  modulo `2 ^ 64` as the code computes it, and the block returned has room for the
  slots that fit in that many bytes. The members `size_` and `capacity_` are kept in
  `Nat`: a vector of `2 ^ 63` or more elements does not fit the address space, so
  `size_ * 2` and `size_++` do not wrap on a vector that exists.
* Every operation reports how it ends: normal return, an exception leaving the
  call, a failed `assert`, or undefined behaviour (an access to a raw slot or to a
  slot outside the block).
-/

namespace AdvancedVector

/-- Contents of a block of raw memory: one entry per element-sized slot. -/
abbrev Cells (α : Type) := List (Option α)

/-- Description of the element type `T`. -/
structure Traits (α : Type) where
  /-- The value of `sizeof(T)`, in bytes. -/
  sizeOf : Nat
  /-- An object occupies at least one byte. -/
  sizeOf_pos : 0 < sizeOf
  /-- The trait `std::is_nothrow_move_constructible_v<T>`. -/
  is_nothrow_move_constructible : Bool
  /-- The trait `std::is_copy_constructible_v<T>`. -/
  is_copy_constructible : Bool
  /-- Whether `T` has a move constructor: the constructor a construction from an
  rvalue `T(std::move(x))` selects is the move constructor when it has one and the
  copy constructor `T(const T&)` otherwise (`moveThrows` and `movedFrom` then describe
  that copy construction). -/
  has_move_constructor : Bool
  /-- The value of a value-initialised `T()`. -/
  valueInit : α
  /-- The state in which `T(std::move(x))` or an assignment from `std::move(x)` leaves
  the object of value `x` it is given. -/
  movedFrom : α → α
  /-- Whether `T()` throws. -/
  valueInitThrows : Bool
  /-- Whether `T(args...)` throws, for arguments that would build the value `x`. -/
  ctorThrows : α → Bool
  /-- Whether `T(const T&)` throws when copying from the value `x`. -/
  copyThrows : α → Bool
  /-- Whether the construction `T(std::move(x))` from an rvalue of value `x` throws. -/
  moveThrows : α → Bool
  /-- Whether `operator=(const T&)` throws when assigning from the value `x`. -/
  copyAssignThrows : α → Bool
  /-- Whether `operator=(T&&)` throws when assigning from the value `x`. -/
  moveAssignThrows : α → Bool

/-- None of the constructions, copies, moves and assignments of the element type
throws when it is given a value of `vals`. -/
def Traits.NoThrowOn {α : Type} (t : Traits α) (vals : List α) : Prop :=
  ∀ z ∈ vals, t.ctorThrows z = false ∧ t.copyThrows z = false ∧ t.moveThrows z = false ∧
    t.copyAssignThrows z = false ∧ t.moveAssignThrows z = false

instance {α : Type} (t : Traits α) (vals : List α) : Decidable (t.NoThrowOn vals) :=
  inferInstanceAs (Decidable (∀ z ∈ vals, t.ctorThrows z = false ∧ t.copyThrows z = false ∧
    t.moveThrows z = false ∧ t.copyAssignThrows z = false ∧ t.moveAssignThrows z = false))

/-- The condition of the two `if constexpr` branches (lines 157 and 326): relocate
by move when it holds, by copy otherwise. -/
def Traits.relocatesByMove {α : Type} (t : Traits α) : Bool :=
  t.is_nothrow_move_constructible || !t.is_copy_constructible

/-- The number of values of `size_t`, `2 ^ 64`: a product in `size_t` is the product
modulo this number. -/
def sizeModulus : Nat := 18446744073709551616

/-- The byte size `n * sizeof(T)` of `n` elements is a value of `size_t`. -/
def Traits.Fits {α : Type} (t : Traits α) (n : Nat) : Prop := n * t.sizeOf < sizeModulus

instance {α : Type} (t : Traits α) (n : Nat) : Decidable (t.Fits n) :=
  inferInstanceAs (Decidable (n * t.sizeOf < sizeModulus))

/-- The element type as the template parameter pack `Args = const T&` sees it:
`T(args...)` is the copy construction from the argument. -/
def Traits.copyArg {α : Type} (t : Traits α) : Traits α :=
  { t with ctorThrows := t.copyThrows }

/-- The element type as the template parameter pack `Args = T&&` sees it: `T(args...)`
is the construction from the rvalue argument. -/
def Traits.moveArg {α : Type} (t : Traits α) : Traits α :=
  { t with ctorThrows := t.moveThrows }

/-- How a standard algorithm over slots ends. -/
inductive Step (β : Type) where
  /-- Normal return with the memory it leaves. -/
  | done (b : β)
  /-- An exception leaves the algorithm with the memory in state `b`. -/
  | raised (b : β)
  /-- Undefined behaviour. -/
  | ub
  deriving DecidableEq, Repr

/-- How a member function ends. -/
inductive Outcome (α σ ρ : Type) where
  /-- Normal return: the object(s) afterwards and the returned value. -/
  | ok (st : σ) (ret : ρ)
  /-- An exception reaches the caller: the object(s) afterwards, and the contents of
  the local buffer of the call at the moment it is released (empty when the call has
  no local buffer). -/
  | throws (st : σ) (scratch : Cells α)
  /-- An `assert` of the function fails. -/
  | assertFails
  /-- Undefined behaviour. -/
  | undefined
  deriving DecidableEq, Repr

section Algorithms

variable {α : Type}

/-- Placement construction `new (buf) T(args...)` at slot `i` (line 343). -/
def Construct (t : Traits α) (c : Cells α) (i : Nat) (x : α) : Step (Cells α) :=
  if i < c.length then
    if t.ctorThrows x then .raised c else .done (c.set i (some x))
  else .ub

/-- The destructor call `buf->~T()` on slot `i` (line 347), also `std::destroy_at`. -/
def Destroy (buf : Cells α) (i : Nat) : Option (Cells α) :=
  match buf[i]? with
  | some (some _) => some (buf.set i none)
  | _ => none

/-- The algorithm `std::destroy_n(first, n)`. -/
def destroy_n : Cells α → Nat → Nat → Option (Cells α)
  | c, _, 0 => some c
  | c, first, n + 1 =>
    match Destroy c first with
    | some c1 => destroy_n c1 (first + 1) n
    | none => none

/-- The construction loop of `std::uninitialized_copy_n`: returns the destination
and the position `current` it reached. -/
def uninitialized_copy_loop (t : Traits α) (src : Cells α) :
    Nat → Cells α → Nat → Nat → Step (Cells α × Nat)
  | _, dst, current, 0 => .done (dst, current)
  | first, dst, current, n + 1 =>
    match src[first]? with
    | some (some x) =>
      if current < dst.length then
        if t.copyThrows x then .raised (dst, current)
        else uninitialized_copy_loop t src (first + 1) (dst.set current (some x)) (current + 1) n
      else .ub
    | _ => .ub

/-- The algorithm `std::uninitialized_copy_n(first, n, d_first)` from the block `src`
into the block `dst`: on an exception the objects built so far are destroyed. -/
def uninitialized_copy_n (t : Traits α) (src : Cells α) (first n : Nat) (dst : Cells α)
    (d_first : Nat) : Step (Cells α) :=
  match uninitialized_copy_loop t src first dst d_first n with
  | .done (c, _) => .done c
  | .raised (c, current) =>
    match destroy_n c d_first (current - d_first) with
    | some c1 => .raised c1
    | none => .ub
  | .ub => .ub

/-- The construction loop of `std::uninitialized_move_n`: returns the source, the
destination and the position `current` it reached. -/
def uninitialized_move_loop (t : Traits α) :
    Cells α → Nat → Cells α → Nat → Nat → Step (Cells α × Cells α × Nat)
  | src, _, dst, current, 0 => .done (src, dst, current)
  | src, first, dst, current, n + 1 =>
    match src[first]? with
    | some (some x) =>
      if current < dst.length then
        if t.moveThrows x then .raised (src, dst, current)
        else uninitialized_move_loop t (src.set first (some (t.movedFrom x))) (first + 1)
          (dst.set current (some x)) (current + 1) n
      else .ub
    | _ => .ub

/-- The algorithm `std::uninitialized_move_n(first, n, d_first)` from the block `src`
into the block `dst`; returns both blocks. -/
def uninitialized_move_n (t : Traits α) (src : Cells α) (first n : Nat) (dst : Cells α)
    (d_first : Nat) : Step (Cells α × Cells α) :=
  match uninitialized_move_loop t src first dst d_first n with
  | .done (s, c, _) => .done (s, c)
  | .raised (s, c, current) =>
    match destroy_n c d_first (current - d_first) with
    | some c1 => .raised (s, c1)
    | none => .ub
  | .ub => .ub

/-- The construction loop of `std::uninitialized_value_construct_n`. -/
def uninitialized_value_construct_loop (t : Traits α) :
    Cells α → Nat → Nat → Step (Cells α × Nat)
  | c, current, 0 => .done (c, current)
  | c, current, n + 1 =>
    if current < c.length then
      if t.valueInitThrows then .raised (c, current)
      else uninitialized_value_construct_loop t (c.set current (some t.valueInit)) (current + 1) n
    else .ub

/-- The algorithm `std::uninitialized_value_construct_n(first, n)`. -/
def uninitialized_value_construct_n (t : Traits α) (c : Cells α) (first n : Nat) :
    Step (Cells α) :=
  match uninitialized_value_construct_loop t c first n with
  | .done (c1, _) => .done c1
  | .raised (c1, current) =>
    match destroy_n c1 first (current - first) with
    | some c2 => .raised c2
    | none => .ub
  | .ub => .ub

/-- The loop of `std::copy`: `n` copy-assignments `*d_first++ = *first++` from the
block `src` into the block `dst`. -/
def copy_loop (t : Traits α) (src : Cells α) : Nat → Cells α → Nat → Nat → Step (Cells α)
  | _, dst, _, 0 => .done dst
  | first, dst, d_first, n + 1 =>
    match src[first]?, dst[d_first]? with
    | some (some x), some (some _) =>
      if t.copyAssignThrows x then .raised dst
      else copy_loop t src (first + 1) (dst.set d_first (some x)) (d_first + 1) n
    | _, _ => .ub

/-- The algorithm `std::copy(first, last, d_first)` between two blocks. -/
def copy (t : Traits α) (src : Cells α) (first last : Nat) (dst : Cells α) (d_first : Nat) :
    Step (Cells α) :=
  copy_loop t src first dst d_first (last - first)

/-- One move-assignment `*(buf + d) = std::move(*(buf + s))` inside a block. -/
def moveAssign (t : Traits α) (buf : Cells α) (d s : Nat) : Step (Cells α) :=
  match buf[s]?, buf[d]? with
  | some (some x), some (some _) =>
    if t.moveAssignThrows x then .raised buf
    else .done ((buf.set s (some (t.movedFrom x))).set d (some x))
  | _, _ => .ub

/-- The loop of `std::move_backward` run for `n` steps:
`*(--d_last) = std::move(*(--last))`. -/
def move_backward_loop (t : Traits α) : Cells α → Nat → Nat → Nat → Step (Cells α)
  | c, _, _, 0 => .done c
  | c, last, d_last, n + 1 =>
    match moveAssign t c (d_last - 1) (last - 1) with
    | .done c1 => move_backward_loop t c1 (last - 1) (d_last - 1) n
    | .raised c1 => .raised c1
    | .ub => .ub

/-- The algorithm `std::move_backward(first, last, d_last)` inside a block. -/
def move_backward (t : Traits α) (c : Cells α) (first last d_last : Nat) : Step (Cells α) :=
  move_backward_loop t c last d_last (last - first)

end Algorithms

/-! ## RawMemory -/

/-- The class `RawMemory<T>`: `buffer_` is `none` for `nullptr`, otherwise the block
it points to. -/
structure RawMemory (α : Type) where
  buffer_ : Option (Cells α) := none
  capacity_ : Nat := 0
  deriving DecidableEq, Repr

namespace RawMemory

variable {α : Type}

/-- The function `Allocate(n)` (line 86): `nullptr` for `n == 0`, otherwise the block
`operator new(n * sizeof(T))` returns. The product is computed in `size_t`, and the
block is as many raw slots as fit in that many bytes: `n` slots when the product does
not wrap, fewer when it does. -/
def Allocate (t : Traits α) (n : Nat) : Option (Cells α) :=
  if n ≠ 0 then some (List.replicate (n * t.sizeOf % sizeModulus / t.sizeOf) none) else none

/-- The constructor `RawMemory(size_t capacity)` (line 14). -/
def create (t : Traits α) (capacity : Nat) : RawMemory α :=
  { buffer_ := Allocate t capacity, capacity_ := capacity }

/-- The slots reachable through `GetAddress()`: none through `nullptr`. -/
def cells (m : RawMemory α) : Cells α := m.buffer_.getD []

/-- Writing the slots behind `GetAddress()`; the pointer itself does not change. -/
def store (m : RawMemory α) (c : Cells α) : RawMemory α :=
  { buffer_ := m.buffer_.map fun _ => c, capacity_ := m.capacity_ }

/-- The member `Capacity()` (line 80). -/
def Capacity (m : RawMemory α) : Nat := m.capacity_

/-- The member `Swap` (line 67): returns `(*this, other)` afterwards. -/
def Swap (self other : RawMemory α) : RawMemory α × RawMemory α :=
  ({ buffer_ := other.buffer_, capacity_ := other.capacity_ },
   { buffer_ := self.buffer_, capacity_ := self.capacity_ })

/-- The move constructor (line 33): the members start from their default
initialisers, are reset, then swapped with `other`. Returns `(*this, other)`. -/
def moveConstruct (other : RawMemory α) : RawMemory α × RawMemory α :=
  let self : RawMemory α := {}
  let self : RawMemory α := { self with buffer_ := none, capacity_ := 0 }
  Swap self other

/-- The move assignment (line 43): the block of `*this` is released, the members are
reset, then swapped with `rhs`. Returns `(*this, rhs)`. -/
def moveAssign (_self rhs : RawMemory α) : RawMemory α × RawMemory α :=
  let self : RawMemory α := { buffer_ := none, capacity_ := 0 }
  Swap self rhs

/-- The call `std::swap(a, b)` on two `RawMemory` objects: a move construction and two
move assignments. Returns `(a, b)`. -/
def stdSwap (a b : RawMemory α) : RawMemory α × RawMemory α :=
  let (tmp, a) := moveConstruct a
  let (a, b) := moveAssign a b
  let (b, _) := moveAssign b tmp
  (a, b)

end RawMemory

/-! ## Vector -/

/-- The class `Vector<T>`. -/
structure Vector (α : Type) where
  data_ : RawMemory α := {}
  size_ : Nat := 0
  deriving DecidableEq, Repr

namespace Vector

variable {α : Type}

/-- The member `Size()` (line 298). -/
def Size (v : Vector α) : Nat := v.size_

/-- The member `Capacity()` (line 302). -/
def Capacity (v : Vector α) : Nat := v.data_.Capacity

/-- The constructor `Vector(size_t size)` (line 135). -/
def create (t : Traits α) (size : Nat) : Outcome α Unit (Vector α) :=
  let data : RawMemory α := RawMemory.create t size
  match uninitialized_value_construct_n t data.cells 0 size with
  | .done buf => .ok () { data_ := data.store buf, size_ := size }
  | .raised buf => .throws () buf
  | .ub => .undefined

/-- The copy constructor `Vector(const Vector& other)` (line 139). -/
def copyConstruct (t : Traits α) (other : Vector α) : Outcome α Unit (Vector α) :=
  let data : RawMemory α := RawMemory.create t other.size_
  match uninitialized_copy_n t other.data_.cells 0 other.Size data.cells 0 with
  | .done buf => .ok () { data_ := data.store buf, size_ := other.size_ }
  | .raised buf => .throws () buf
  | .ub => .undefined

/-- The move constructor `Vector(Vector&& other)` (line 143): returns the new vector
and `other` afterwards. -/
def moveConstruct (other : Vector α) : Vector α × Vector α :=
  let (data, otherData) := RawMemory.moveConstruct other.data_
  ({ data_ := data, size_ := other.size_ }, { data_ := otherData, size_ := 0 })

/-- The call `Construct(end(), std::move(*(end() - 1)))` of line 187: move-construct
slot `d` from the object in slot `s` of the same block. -/
def ConstructFrom (t : Traits α) (buf : Cells α) (d s : Nat) : Step (Cells α) :=
  match buf[s]? with
  | some (some y) =>
    if d < buf.length then
      if t.moveThrows y then .raised buf
      else .done ((buf.set s (some (t.movedFrom y))).set d (some y))
    else .ub
  | _ => .ub

/-- The statement `*(begin() + itpos) = std::move(temp)` of line 194, `temp` holding
the value `x`. -/
def assignTemp (t : Traits α) (buf : Cells α) (itpos : Nat) (x : α) : Step (Cells α) :=
  match buf[itpos]? with
  | some (some _) => if t.moveAssignThrows x then .raised buf else .done (buf.set itpos (some x))
  | _ => .ub

/-- The member `Emplace(pos, args...)` (line 148). `pos` is the index of the iterator
from `begin()`, `x` the value `T(args...)` builds; the returned iterator is an index. -/
def Emplace (t : Traits α) (v : Vector α) (pos : Nat) (x : α) : Outcome α (Vector α) Nat :=
  if pos ≤ v.size_ then
    if v.size_ = v.Capacity then
      let itpos := pos
      let newmemory : RawMemory α := RawMemory.create t (if v.size_ = 0 then 1 else v.size_ * 2)
      match Construct t newmemory.cells itpos x with
      | .ub => .undefined
      | .raised buf => .throws v buf
      | .done buf =>
        let relocated : Step (Cells α × Cells α) :=
          if t.is_nothrow_move_constructible || !t.is_copy_constructible then
            match uninitialized_move_n t v.data_.cells 0 itpos buf 0 with
            | .done (old, buf1) =>
              uninitialized_move_n t old itpos (v.size_ - pos) buf1 (itpos + 1)
            | .raised r => .raised r
            | .ub => .ub
          else
            match uninitialized_copy_n t v.data_.cells 0 itpos buf 0 with
            | .done buf1 =>
              match uninitialized_copy_n t v.data_.cells itpos (v.size_ - pos) buf1 (itpos + 1) with
              | .done buf2 => .done (v.data_.cells, buf2)
              | .raised buf2 => .raised (v.data_.cells, buf2)
              | .ub => .ub
            | .raised buf1 => .raised (v.data_.cells, buf1)
            | .ub => .ub
        match relocated with
        | .ub => .undefined
        | .raised (old, buf1) =>
          match Destroy buf1 itpos with
          | none => .undefined
          | some buf2 =>
            match destroy_n old 0 v.size_ with
            | none => .undefined
            | some old1 => .throws { data_ := v.data_.store old1, size_ := v.size_ } buf2
        | .done (old, buf1) =>
          let (data, newmemory) := RawMemory.Swap (v.data_.store old) (newmemory.store buf1)
          match destroy_n newmemory.cells 0 v.size_ with
          | none => .undefined
          | some _ => .ok { data_ := data, size_ := v.size_ + 1 } itpos
    else
      let itpos := pos
      if pos = v.size_ then
        match Construct t v.data_.cells v.size_ x with
        | .ub => .undefined
        | .raised buf => .throws { data_ := v.data_.store buf, size_ := v.size_ } []
        | .done buf => .ok { data_ := v.data_.store buf, size_ := v.size_ + 1 } pos
      else
        if t.ctorThrows x then .throws v []
        else
          match ConstructFrom t v.data_.cells v.size_ (v.size_ - 1) with
          | .ub => .undefined
          | .raised buf => .throws { data_ := v.data_.store buf, size_ := v.size_ } []
          | .done buf =>
            let shifted : Option (Cells α) :=
              match move_backward t buf pos (v.size_ - 1) v.size_ with
              | .done buf1 => some buf1
              | .raised buf1 => Destroy buf1 v.size_
              | .ub => none
            match shifted with
            | none => .undefined
            | some buf1 =>
              match assignTemp t buf1 itpos x with
              | .ub => .undefined
              | .raised buf2 => .throws { data_ := v.data_.store buf2, size_ := v.size_ } []
              | .done buf2 => .ok { data_ := v.data_.store buf2, size_ := v.size_ + 1 } pos
  else .assertFails

/-- The member `PopBack()` (line 292). -/
def PopBack (v : Vector α) : Outcome α (Vector α) Unit :=
  if 0 < v.size_ then
    match Destroy v.data_.cells (v.size_ - 1) with
    | some buf => .ok { data_ := v.data_.store buf, size_ := v.size_ - 1 } ()
    | none => .undefined
  else .assertFails

/-- The loop of `Erase` (line 204): `for (it = pos; it != end() - 1; it++)
*it = std::move(*(it + 1))`. The test `it != end() - 1` is written `it + 1 != end()`.
The loop either stops, or leaves the block within `fuel = length + 1` steps. -/
def Erase_loop (t : Traits α) (size : Nat) : Cells α → Nat → Nat → Step (Cells α)
  | _, _, 0 => .ub
  | buf, it, fuel + 1 =>
    if it + 1 = size then .done buf
    else
      match moveAssign t buf it (it + 1) with
      | .done buf1 => Erase_loop t size buf1 (it + 1) fuel
      | .raised buf1 => .raised buf1
      | .ub => .ub

/-- The member `Erase(pos)` (line 201). -/
def Erase (t : Traits α) (v : Vector α) (pos : Nat) : Outcome α (Vector α) Nat :=
  if pos ≤ v.size_ then
    match Erase_loop t v.size_ v.data_.cells pos (v.data_.cells.length + 1) with
    | .ub => .undefined
    | .raised buf => .throws { data_ := v.data_.store buf, size_ := v.size_ } []
    | .done buf =>
      match PopBack { data_ := v.data_.store buf, size_ := v.size_ } with
      | .ok v1 _ => .ok v1 pos
      | .throws v1 s => .throws v1 s
      | .assertFails => .assertFails
      | .undefined => .undefined
  else .assertFails

/-- The overload `Insert(pos, const T& value)` (line 213): `Emplace(pos, value)`, which
builds the new element by the copy constructor. -/
def Insert (t : Traits α) (v : Vector α) (pos : Nat) (value : α) : Outcome α (Vector α) Nat :=
  Emplace t.copyArg v pos value

/-- The overload `Insert(pos, T&& value)` (line 217): `Emplace(pos, std::move(value))`,
which builds the new element from the rvalue. -/
def InsertRvalue (t : Traits α) (v : Vector α) (pos : Nat) (value : α) :
    Outcome α (Vector α) Nat :=
  Emplace t.moveArg v pos value

/-- The member `Swap` (line 250): returns `(*this, other)` afterwards. -/
def Swap (self other : Vector α) : Vector α × Vector α :=
  let (d, od) := RawMemory.Swap self.data_ other.data_
  ({ data_ := d, size_ := other.size_ }, { data_ := od, size_ := self.size_ })

/-- The copy assignment `*this = rhs` (line 221) for `this != &rhs`. -/
def copyAssign (t : Traits α) (self rhs : Vector α) : Outcome α (Vector α) Unit :=
  if rhs.size_ > self.data_.Capacity then
    match copyConstruct t rhs with
    | .ok _ temp =>
      let (self1, temp1) := Swap self temp
      match destroy_n temp1.data_.cells 0 temp1.size_ with
      | some _ => .ok self1 ()
      | none => .undefined
    | .throws _ buf => .throws self buf
    | .assertFails => .assertFails
    | .undefined => .undefined
  else
    let assigned : Step (Cells α) :=
      if self.Size > rhs.Size then
        match copy t rhs.data_.cells 0 rhs.Size self.data_.cells 0 with
        | .done buf =>
          match destroy_n buf rhs.Size (self.Size - rhs.Size) with
          | some buf1 => .done buf1
          | none => .ub
        | r => r
      else
        match copy t rhs.data_.cells 0 self.Size self.data_.cells 0 with
        | .done buf =>
          uninitialized_copy_n t rhs.data_.cells self.Size (rhs.Size - self.Size) buf 0
        | r => r
    match assigned with
    | .done buf => .ok { data_ := self.data_.store buf, size_ := rhs.Size } ()
    | .raised buf => .throws { data_ := self.data_.store buf, size_ := self.size_ } []
    | .ub => .undefined

/-- The move assignment `*this = std::move(rhs)` (line 241): returns `(*this, rhs)`
afterwards. -/
def moveAssign (self rhs : Vector α) : Vector α × Vector α :=
  let (d, rd) := RawMemory.stdSwap self.data_ rhs.data_
  ({ data_ := d, size_ := rhs.size_ }, { data_ := rd, size_ := 0 })

/-- The member `CreateCopy(capacity)` (line 323): returns the new buffer; `*this` is
returned too since relocation by move changes its elements. -/
def CreateCopy (t : Traits α) (v : Vector α) (capacity : Nat) :
    Outcome α (Vector α) (RawMemory α) :=
  let new_data : RawMemory α := RawMemory.create t capacity
  if t.is_nothrow_move_constructible || !t.is_copy_constructible then
    match uninitialized_move_n t v.data_.cells 0 v.Size new_data.cells 0 with
    | .done (old, buf) => .ok { data_ := v.data_.store old, size_ := v.size_ } (new_data.store buf)
    | .raised (old, buf) => .throws { data_ := v.data_.store old, size_ := v.size_ } buf
    | .ub => .undefined
  else
    match uninitialized_copy_n t v.data_.cells 0 v.Size new_data.cells 0 with
    | .done buf => .ok v (new_data.store buf)
    | .raised buf => .throws v buf
    | .ub => .undefined

/-- The member `Reserve(new_capacity)` (line 256). -/
def Reserve (t : Traits α) (v : Vector α) (new_capacity : Nat) : Outcome α (Vector α) Unit :=
  if new_capacity ≤ v.data_.Capacity then .ok v ()
  else
    match CreateCopy t v new_capacity with
    | .ok v1 new_data =>
      let (data, new_data1) := RawMemory.Swap v1.data_ new_data
      match destroy_n new_data1.cells 0 v1.Size with
      | some _ => .ok { data_ := data, size_ := v1.size_ } ()
      | none => .undefined
    | .throws v1 buf => .throws v1 buf
    | .assertFails => .assertFails
    | .undefined => .undefined

/-- The member `Resize(new_size)` (line 265). -/
def Resize (t : Traits α) (v : Vector α) (new_size : Nat) : Outcome α (Vector α) Unit :=
  if new_size > v.size_ then
    let old_size := v.size_
    match Reserve t v new_size with
    | .ok v1 _ =>
      match uninitialized_value_construct_n t v1.data_.cells old_size (new_size - old_size) with
      | .done buf => .ok { data_ := v1.data_.store buf, size_ := new_size } ()
      | .raised buf => .throws { data_ := v1.data_.store buf, size_ := v1.size_ } []
      | .ub => .undefined
    | r => r
  else
    match destroy_n v.data_.cells new_size (v.size_ - new_size) with
    | some buf => .ok { data_ := v.data_.store buf, size_ := new_size } ()
    | none => .undefined

/-- The member `EmplaceBack(args...)` (line 287): `*Emplace(end(), args...)`; the
returned reference is given as the index of the element. -/
def EmplaceBack (t : Traits α) (v : Vector α) (x : α) : Outcome α (Vector α) Nat :=
  Emplace t v v.size_ x

/-- The overload `PushBack(const T& value)` (line 277): `EmplaceBack(value)`, which
builds the new element by the copy constructor. -/
def PushBack (t : Traits α) (v : Vector α) (value : α) : Outcome α (Vector α) Unit :=
  match EmplaceBack t.copyArg v value with
  | .ok v1 _ => .ok v1 ()
  | .throws v1 s => .throws v1 s
  | .assertFails => .assertFails
  | .undefined => .undefined

/-- The overload `PushBack(T&& value)` (line 281): `EmplaceBack(std::move(value))`,
which builds the new element from the rvalue. -/
def PushBackRvalue (t : Traits α) (v : Vector α) (value : α) : Outcome α (Vector α) Unit :=
  match EmplaceBack t.moveArg v value with
  | .ok v1 _ => .ok v1 ()
  | .throws v1 s => .throws v1 s
  | .assertFails => .assertFails
  | .undefined => .undefined

/-- The vector whose slots `[0, size)` hold the elements `s`, whose slots
`[size, capacity)` are raw, with capacity `cap` and a null buffer exactly when
`cap = 0`. -/
def withElems (s : List α) (cap : Nat) : Vector α :=
  ⟨⟨if cap = 0 then none else some (s.map some ++ List.replicate (cap - s.length) none), cap⟩,
    s.length⟩

/-- The vector `v` is in a state of the data model, with element sequence `s`:
`size_` is the number of elements and is at most the capacity, the buffer is null
exactly when the capacity is 0, the slots `[0, size)` are constructed and hold `s` in
order, and the slots `[size, capacity)` are raw. -/
structure Holds (v : Vector α) (s : List α) : Prop where
  size_eq : v.size_ = s.length
  size_le : s.length ≤ v.data_.capacity_
  null_iff : v.data_.buffer_ = none ↔ v.data_.capacity_ = 0
  cells_eq : v.data_.cells = s.map some ++ List.replicate (v.data_.capacity_ - s.length) none

instance [DecidableEq α] (v : Vector α) (s : List α) : Decidable (v.Holds s) :=
  decidable_of_iff
    (v.size_ = s.length ∧ s.length ≤ v.data_.capacity_ ∧
      (v.data_.buffer_ = none ↔ v.data_.capacity_ = 0) ∧
      v.data_.cells = s.map some ++ List.replicate (v.data_.capacity_ - s.length) none)
    ⟨fun h => ⟨h.1, h.2.1, h.2.2.1, h.2.2.2⟩, fun h => ⟨h.1, h.2, h.3, h.4⟩⟩

end Vector

/-- An element type like `int`: nothing throws, a move leaves its source as it is. -/
def plainTraits : Traits Nat :=
  { sizeOf := 4, sizeOf_pos := by decide, has_move_constructor := true,
    is_nothrow_move_constructible := true, is_copy_constructible := true,
    valueInit := 0, movedFrom := fun x => x, valueInitThrows := false,
    ctorThrows := fun _ => false, copyThrows := fun _ => false, moveThrows := fun _ => false,
    copyAssignThrows := fun _ => false, moveAssignThrows := fun _ => false }

/-- An element type that is copy-constructible and whose move constructor is not
`noexcept`, so that it is relocated by copy; copying the value 13 throws. -/
def throwingCopy : Traits Nat :=
  { sizeOf := 4, sizeOf_pos := by decide, has_move_constructor := true,
    is_nothrow_move_constructible := false, is_copy_constructible := true,
    valueInit := 0, movedFrom := fun x => x, valueInitThrows := false,
    ctorThrows := fun _ => false, copyThrows := fun x => x == 13, moveThrows := fun _ => false,
    copyAssignThrows := fun _ => false, moveAssignThrows := fun _ => false }

/-- Whether relocating the value `x` into a new buffer throws: the element is built
from an rvalue (`std::uninitialized_move_n`) when `relocatesByMove`, by the copy
constructor (`std::uninitialized_copy_n`) otherwise. -/
def Traits.relocationThrows {α : Type} (t : Traits α) (x : α) : Bool :=
  if t.relocatesByMove then t.moveThrows x else t.copyThrows x

/-- A call of `PushBack(x)` or of `PopBack()`. -/
inductive Op (α : Type) where
  | push (x : α)
  | pop
  deriving DecidableEq, Repr

/-- Running a sequence of `PushBack` / `PopBack` calls on a vector; the run stops at
the first call that does not return normally. -/
def runOps {α : Type} (t : Traits α) : Vector α → List (Op α) → Outcome α (Vector α) Unit
  | v, [] => .ok v ()
  | v, .push x :: ops =>
    match Vector.PushBack t v x with
    | .ok v1 _ => runOps t v1 ops
    | r => r
  | v, .pop :: ops =>
    match Vector.PopBack v with
    | .ok v1 _ => runOps t v1 ops
    | r => r

/-- The same calls on a plain list: append at the end, drop the last element. -/
def applyOps {α : Type} : List α → List (Op α) → List α
  | l, [] => l
  | l, .push x :: ops => applyOps (l ++ [x]) ops
  | l, .pop :: ops => applyOps l.dropLast ops

/-- The values pushed by a sequence of calls. -/
def pushed {α : Type} : List (Op α) → List α
  | [] => []
  | .push x :: ops => x :: pushed ops
  | .pop :: ops => pushed ops

/-- Number of `PushBack` calls in a sequence. -/
def pushes {α : Type} : List (Op α) → Nat
  | [] => 0
  | .push _ :: ops => pushes ops + 1
  | .pop :: ops => pushes ops

/-- Number of `PopBack` calls in a sequence. -/
def pops {α : Type} : List (Op α) → Nat
  | [] => 0
  | .push _ :: ops => pops ops
  | .pop :: ops => pops ops + 1

/-- No `PopBack` of the sequence is called on an empty container, `n` being the
number of elements before the sequence. -/
def popsAllowed {α : Type} : Nat → List (Op α) → Bool
  | _, [] => true
  | n, .push _ :: ops => popsAllowed (n + 1) ops
  | n, .pop :: ops => decide (0 < n) && popsAllowed (n - 1) ops

/-- An element type whose move assignment throws when it assigns from the value 13;
its other operations do not throw and a move leaves its source as it is. -/
def throwingMoveAssign : Traits Nat :=
  { sizeOf := 4, sizeOf_pos := by decide, has_move_constructor := true,
    is_nothrow_move_constructible := true, is_copy_constructible := true,
    valueInit := 0, movedFrom := fun x => x, valueInitThrows := false,
    ctorThrows := fun _ => false, copyThrows := fun _ => false, moveThrows := fun _ => false,
    copyAssignThrows := fun _ => false, moveAssignThrows := fun x => x == 13 }

/-- The invariant of the Raw Buffer: the address is null exactly when the capacity
is 0. -/
def RawMemory.Inv {α : Type} (m : RawMemory α) : Prop :=
  m.buffer_ = none ↔ m.capacity_ = 0

instance {α : Type} (m : RawMemory α) : Decidable m.Inv :=
  decidable_of_iff (m.buffer_.isNone = true ↔ m.capacity_ = 0) (by
    unfold RawMemory.Inv
    cases m.buffer_ <;> simp)

/-- The size bound of the Dynamic Array: `0 ≤ size ≤ capacity`. -/
def Vector.SizeOk {α : Type} (v : Vector α) : Prop := v.size_ ≤ v.Capacity

instance {α : Type} (v : Vector α) : Decidable v.SizeOk :=
  inferInstanceAs (Decidable (v.size_ ≤ v.Capacity))

/-- Whether slot `i` of the buffer of `v` holds a constructed object. -/
def Vector.constructed {α : Type} (v : Vector α) (i : Nat) : Bool :=
  match v.data_.cells[i]? with
  | some (some _) => true
  | _ => false

/-- The slot-liveness invariant: among the slots `[0, capacity)`, exactly those at
the indices `[0, size)` are constructed, the others are raw. -/
def Vector.Liveness {α : Type} (v : Vector α) : Prop :=
  ∀ i, i < v.Capacity → v.constructed i = decide (i < v.size_)

instance {α : Type} (v : Vector α) : Decidable v.Liveness :=
  inferInstanceAs (Decidable (∀ i, i < v.Capacity → v.constructed i = decide (i < v.size_)))

/-- The property `P` holds of the object an operation leaves behind, whether it
returns normally or an exception leaves it. -/
def Outcome.leaves {α σ ρ : Type} (P : σ → Prop) : Outcome α σ ρ → Prop
  | .ok st _ => P st
  | .throws st _ => P st
  | .assertFails => True
  | .undefined => True

/-- The property `P` holds of the vector a constructor builds. -/
def Outcome.builds {α σ ρ : Type} (P : ρ → Prop) : Outcome α σ ρ → Prop
  | .ok _ r => P r
  | .throws _ _ => True
  | .assertFails => True
  | .undefined => True

/-- What a counting probe of the element type records while an operation runs: how
many objects were built from an existing element of the vector by the move constructor
of `T`, and how many by its copy constructor. -/
structure Tally where
  moves : Nat
  copies : Nat
  deriving DecidableEq, Repr

/-- The sum of two tallies. -/
def Tally.add (a b : Tally) : Tally := ⟨a.moves + b.moves, a.copies + b.copies⟩

/-- The tally of one construction from an rvalue, `T(std::move(x))`: the move
constructor builds the object when `T` has one, the copy constructor otherwise. -/
def Traits.rvalueTally {α : Type} (t : Traits α) : Tally :=
  if t.has_move_constructor then ⟨1, 0⟩ else ⟨0, 1⟩

/-- The result of a run together with the tally of the probe for that run. -/
structure Counted (β : Type) where
  result : β
  tally : Tally
  deriving DecidableEq, Repr

/-- The loop of `std::uninitialized_copy_n` run on the probe: each iteration that
builds an object calls the copy constructor once. -/
def uninitialized_copy_loop_counted {α : Type} (t : Traits α) (src : Cells α) :
    Nat → Cells α → Nat → Nat → Counted (Step (Cells α × Nat))
  | _, dst, current, 0 => ⟨.done (dst, current), ⟨0, 0⟩⟩
  | first, dst, current, n + 1 =>
    match src[first]? with
    | some (some x) =>
      if current < dst.length then
        if t.copyThrows x then ⟨.raised (dst, current), ⟨0, 0⟩⟩
        else
          let rest := uninitialized_copy_loop_counted t src (first + 1)
            (dst.set current (some x)) (current + 1) n
          ⟨rest.result, Tally.add ⟨0, 1⟩ rest.tally⟩
      else ⟨.ub, ⟨0, 0⟩⟩
    | _ => ⟨.ub, ⟨0, 0⟩⟩

/-- The algorithm `std::uninitialized_copy_n` run on the probe. -/
def uninitialized_copy_n_counted {α : Type} (t : Traits α) (src : Cells α) (first n : Nat)
    (dst : Cells α) (d_first : Nat) : Counted (Step (Cells α)) :=
  let run := uninitialized_copy_loop_counted t src first dst d_first n
  ⟨(match run.result with
    | .done (c, _) => .done c
    | .raised (c, current) =>
      match destroy_n c d_first (current - d_first) with
      | some c1 => .raised c1
      | none => .ub
    | .ub => .ub), run.tally⟩

/-- The loop of `std::uninitialized_move_n` run on the probe: each iteration that
builds an object does so from an rvalue of the source element. -/
def uninitialized_move_loop_counted {α : Type} (t : Traits α) :
    Cells α → Nat → Cells α → Nat → Nat → Counted (Step (Cells α × Cells α × Nat))
  | src, _, dst, current, 0 => ⟨.done (src, dst, current), ⟨0, 0⟩⟩
  | src, first, dst, current, n + 1 =>
    match src[first]? with
    | some (some x) =>
      if current < dst.length then
        if t.moveThrows x then ⟨.raised (src, dst, current), ⟨0, 0⟩⟩
        else
          let rest := uninitialized_move_loop_counted t (src.set first (some (t.movedFrom x)))
            (first + 1) (dst.set current (some x)) (current + 1) n
          ⟨rest.result, Tally.add t.rvalueTally rest.tally⟩
      else ⟨.ub, ⟨0, 0⟩⟩
    | _ => ⟨.ub, ⟨0, 0⟩⟩

/-- The algorithm `std::uninitialized_move_n` run on the probe. -/
def uninitialized_move_n_counted {α : Type} (t : Traits α) (src : Cells α) (first n : Nat)
    (dst : Cells α) (d_first : Nat) : Counted (Step (Cells α × Cells α)) :=
  let run := uninitialized_move_loop_counted t src first dst d_first n
  ⟨(match run.result with
    | .done (s, c, _) => .done (s, c)
    | .raised (s, c, current) =>
      match destroy_n c d_first (current - d_first) with
      | some c1 => .raised (s, c1)
      | none => .ub
    | .ub => .ub), run.tally⟩

/-- The member `CreateCopy(capacity)` (line 323) run on the probe. -/
def Vector.CreateCopy_counted {α : Type} (t : Traits α) (v : Vector α) (capacity : Nat) :
    Counted (Outcome α (Vector α) (RawMemory α)) :=
  let new_data : RawMemory α := RawMemory.create t capacity
  if t.is_nothrow_move_constructible || !t.is_copy_constructible then
    let run := uninitialized_move_n_counted t v.data_.cells 0 v.Size new_data.cells 0
    ⟨(match run.result with
      | .done (old, buf) =>
        .ok ⟨v.data_.store old, v.size_⟩ (new_data.store buf)
      | .raised (old, buf) => .throws ⟨v.data_.store old, v.size_⟩ buf
      | .ub => .undefined), run.tally⟩
  else
    let run := uninitialized_copy_n_counted t v.data_.cells 0 v.Size new_data.cells 0
    ⟨(match run.result with
      | .done buf => .ok v (new_data.store buf)
      | .raised buf => .throws v buf
      | .ub => .undefined), run.tally⟩

/-- The member `Reserve(new_capacity)` (line 256) run on the probe. -/
def Vector.Reserve_counted {α : Type} (t : Traits α) (v : Vector α) (new_capacity : Nat) :
    Counted (Outcome α (Vector α) Unit) :=
  if new_capacity ≤ v.data_.Capacity then ⟨.ok v (), ⟨0, 0⟩⟩
  else
    let run := Vector.CreateCopy_counted t v new_capacity
    ⟨(match run.result with
      | .ok v1 new_data =>
        let (data, new_data1) := RawMemory.Swap v1.data_ new_data
        match destroy_n new_data1.cells 0 v1.Size with
        | some _ => .ok ⟨data, v1.size_⟩ ()
        | none => .undefined
      | .throws v1 buf => .throws v1 buf
      | .assertFails => .assertFails
      | .undefined => .undefined), run.tally⟩

/-- The member `Emplace(pos, args...)` (line 148) run on the probe. The construction of
the new element from `args...` is not a construction from an existing element and is
not tallied. -/
def Vector.Emplace_counted {α : Type} (t : Traits α) (v : Vector α) (pos : Nat) (x : α) :
    Counted (Outcome α (Vector α) Nat) :=
  if pos ≤ v.size_ then
    if v.size_ = v.Capacity then
      let itpos := pos
      let newmemory : RawMemory α := RawMemory.create t (if v.size_ = 0 then 1 else v.size_ * 2)
      match Construct t newmemory.cells itpos x with
      | .ub => ⟨.undefined, ⟨0, 0⟩⟩
      | .raised buf => ⟨.throws v buf, ⟨0, 0⟩⟩
      | .done buf =>
        let relocated : Counted (Step (Cells α × Cells α)) :=
          if t.is_nothrow_move_constructible || !t.is_copy_constructible then
            let head := uninitialized_move_n_counted t v.data_.cells 0 itpos buf 0
            match head.result with
            | .done (old, buf1) =>
              let tail := uninitialized_move_n_counted t old itpos (v.size_ - pos) buf1
                (itpos + 1)
              ⟨tail.result, head.tally.add tail.tally⟩
            | .raised r => ⟨.raised r, head.tally⟩
            | .ub => ⟨.ub, head.tally⟩
          else
            let head := uninitialized_copy_n_counted t v.data_.cells 0 itpos buf 0
            match head.result with
            | .done buf1 =>
              let tail := uninitialized_copy_n_counted t v.data_.cells itpos (v.size_ - pos)
                buf1 (itpos + 1)
              ⟨(match tail.result with
                | .done buf2 => .done (v.data_.cells, buf2)
                | .raised buf2 => .raised (v.data_.cells, buf2)
                | .ub => .ub), head.tally.add tail.tally⟩
            | .raised buf1 => ⟨.raised (v.data_.cells, buf1), head.tally⟩
            | .ub => ⟨.ub, head.tally⟩
        ⟨(match relocated.result with
          | .ub => .undefined
          | .raised (old, buf1) =>
            match Destroy buf1 itpos with
            | none => .undefined
            | some buf2 =>
              match destroy_n old 0 v.size_ with
              | none => .undefined
              | some old1 => .throws ⟨v.data_.store old1, v.size_⟩ buf2
          | .done (old, buf1) =>
            let (data, newmemory) := RawMemory.Swap (v.data_.store old) (newmemory.store buf1)
            match destroy_n newmemory.cells 0 v.size_ with
            | none => .undefined
            | some _ => .ok ⟨data, v.size_ + 1⟩ itpos), relocated.tally⟩
    else
      let itpos := pos
      if pos = v.size_ then
        ⟨(match Construct t v.data_.cells v.size_ x with
          | .ub => .undefined
          | .raised buf => .throws ⟨v.data_.store buf, v.size_⟩ []
          | .done buf => .ok ⟨v.data_.store buf, v.size_ + 1⟩ pos), ⟨0, 0⟩⟩
      else
        if t.ctorThrows x then ⟨.throws v [], ⟨0, 0⟩⟩
        else
          match ConstructFrom t v.data_.cells v.size_ (v.size_ - 1) with
          | .ub => ⟨.undefined, ⟨0, 0⟩⟩
          | .raised buf => ⟨.throws ⟨v.data_.store buf, v.size_⟩ [], ⟨0, 0⟩⟩
          | .done buf =>
            let shifted : Option (Cells α) :=
              match move_backward t buf pos (v.size_ - 1) v.size_ with
              | .done buf1 => some buf1
              | .raised buf1 => Destroy buf1 v.size_
              | .ub => none
            ⟨(match shifted with
              | none => .undefined
              | some buf1 =>
                match assignTemp t buf1 itpos x with
                | .ub => .undefined
                | .raised buf2 => .throws ⟨v.data_.store buf2, v.size_⟩ []
                | .done buf2 => .ok ⟨v.data_.store buf2, v.size_ + 1⟩ pos), t.rvalueTally⟩
  else ⟨.assertFails, ⟨0, 0⟩⟩

/-- An element type with a `noexcept` copy constructor and no move constructor (like
a class that declares only `T(const T&) noexcept`): it is nothrow-move-constructible,
since `T(std::move(x))` is well-formed and cannot throw, and that construction calls
the copy constructor and leaves its argument as it is. -/
def copyOnlyNoexcept : Traits Nat :=
  { sizeOf := 4, sizeOf_pos := by decide, has_move_constructor := false,
    is_nothrow_move_constructible := true, is_copy_constructible := true,
    valueInit := 0, movedFrom := fun x => x, valueInitThrows := false,
    ctorThrows := fun _ => false, copyThrows := fun _ => false, moveThrows := fun _ => false,
    copyAssignThrows := fun _ => false, moveAssignThrows := fun _ => false }

/-! ## Lemmas on the algorithms and on the member functions -/

section Lemmas

variable {α : Type}

theorem Traits.NoThrowOn.mono {t : Traits α} {vals sub : List α} (h : t.NoThrowOn vals)
    (hsub : ∀ z ∈ sub, z ∈ vals) : t.NoThrowOn sub :=
  fun z hz => h z (hsub z hz)

theorem Traits.NoThrowOn.ctor {t : Traits α} {vals : List α} (h : t.NoThrowOn vals) :
    ∀ z ∈ vals, t.ctorThrows z = false := fun z hz => (h z hz).1

theorem Traits.NoThrowOn.copy {t : Traits α} {vals : List α} (h : t.NoThrowOn vals) :
    ∀ z ∈ vals, t.copyThrows z = false := fun z hz => (h z hz).2.1

theorem Traits.NoThrowOn.move {t : Traits α} {vals : List α} (h : t.NoThrowOn vals) :
    ∀ z ∈ vals, t.moveThrows z = false := fun z hz => (h z hz).2.2.1

theorem Traits.NoThrowOn.moveAssign {t : Traits α} {vals : List α} (h : t.NoThrowOn vals) :
    ∀ z ∈ vals, t.moveAssignThrows z = false := fun z hz => (h z hz).2.2.2.2

theorem Traits.NoThrowOn.copyArg {t : Traits α} {vals : List α} (h : t.NoThrowOn vals) :
    t.copyArg.NoThrowOn vals :=
  fun z hz => ⟨(h z hz).2.1, (h z hz).2.1, (h z hz).2.2.1, (h z hz).2.2.2.1, (h z hz).2.2.2.2⟩

theorem Traits.NoThrowOn.moveArg {t : Traits α} {vals : List α} (h : t.NoThrowOn vals) :
    t.moveArg.NoThrowOn vals :=
  fun z hz => ⟨(h z hz).2.2.1, (h z hz).2.1, (h z hz).2.2.1, (h z hz).2.2.2.1, (h z hz).2.2.2.2⟩

theorem Traits.Fits.of_le {t : Traits α} {n m : Nat} (h : t.Fits n) (hm : m ≤ n) : t.Fits m :=
  Nat.lt_of_le_of_lt (Nat.mul_le_mul_right _ hm) h

theorem Traits.Fits.double {t : Traits α} {n : Nat} (h : t.Fits (max 1 (2 * n))) :
    t.Fits (if n = 0 then 1 else n * 2) :=
  h.of_le (by split <;> omega)

theorem RawMemory.Allocate_of_fits (t : Traits α) (n : Nat) (h : t.Fits n) :
    RawMemory.Allocate t n = if n ≠ 0 then some (List.replicate n none) else none := by
  have h1 : n * t.sizeOf < sizeModulus := h
  simp only [RawMemory.Allocate, Nat.mod_eq_of_lt h1, Nat.mul_div_cancel _ t.sizeOf_pos]

theorem relocation_cases (t : Traits α) (vals : List α)
    (h : ∀ z ∈ vals, t.relocationThrows z = false) :
    (t.relocatesByMove = true ∧ ∀ z ∈ vals, t.moveThrows z = false) ∨
    (t.relocatesByMove = false ∧ ∀ z ∈ vals, t.copyThrows z = false) := by
  cases hrel : t.relocatesByMove
  · right
    refine ⟨rfl, fun z hz => ?_⟩
    have := h z hz
    simpa [Traits.relocationThrows, hrel] using this
  · left
    refine ⟨rfl, fun z hz => ?_⟩
    have := h z hz
    simpa [Traits.relocationThrows, hrel] using this

theorem Traits.NoThrowOn.relocation {t : Traits α} {vals : List α} (h : t.NoThrowOn vals) :
    ∀ z ∈ vals, t.relocationThrows z = false := by
  intro z hz
  unfold Traits.relocationThrows
  split
  · exact h.move z hz
  · exact h.copy z hz

theorem getElem?_mid {β : Type} (p : List β) (a : β) (q : List β) :
    (p ++ a :: q)[p.length]? = some a := by
  rw [List.getElem?_append_right (Nat.le_refl _)]; simp

theorem set_mid {β : Type} (p : List β) (a b : β) (q : List β) :
    (p ++ a :: q).set p.length b = p ++ b :: q := by simp

theorem Destroy_mid (p : Cells α) (x : α) (q : Cells α) :
    Destroy (p ++ some x :: q) p.length = some (p ++ none :: q) := by
  simp only [Destroy, getElem?_mid, set_mid]

theorem destroy_n_live (xs : List α) : ∀ (p q : Cells α),
    destroy_n (p ++ (xs.map some ++ q)) p.length xs.length
      = some (p ++ (List.replicate xs.length none ++ q)) := by
  induction xs with
  | nil => intro p q; simp [destroy_n]
  | cons x xs ih =>
    intro p q
    have h := ih (p ++ [none]) q
    simp only [List.length_append, List.length_singleton, List.append_assoc,
      List.singleton_append] at h
    simp only [List.map_cons, List.cons_append, List.length_cons, destroy_n, Destroy_mid, h,
      List.replicate_succ]

theorem uninitialized_copy_loop_ok (t : Traits α) (xs : List α)
    (hxs : ∀ x ∈ xs, t.copyThrows x = false) :
    ∀ (sp ss dp dm ds : Cells α), dm.length = xs.length →
      uninitialized_copy_loop t (sp ++ (xs.map some ++ ss)) sp.length
          (dp ++ (dm ++ ds)) dp.length xs.length
        = .done (dp ++ (xs.map some ++ ds), dp.length + xs.length) := by
  induction xs with
  | nil =>
    intro sp ss dp dm ds hdm
    have : dm = [] := List.length_eq_zero.mp hdm
    subst this
    simp [uninitialized_copy_loop]
  | cons x xs ih =>
    intro sp ss dp dm ds hdm
    cases dm with
    | nil => simp at hdm
    | cons m dm =>
      have hx : t.copyThrows x = false := hxs x (List.mem_cons_self _ _)
      have h := ih (fun z hz => hxs z (List.mem_cons_of_mem _ hz)) (sp ++ [some x]) ss
        (dp ++ [some x]) dm ds (by simpa using hdm)
      simp only [List.length_append, List.length_singleton, List.append_assoc,
        List.singleton_append] at h
      simp only [List.map_cons, List.cons_append, List.length_cons, uninitialized_copy_loop,
        getElem?_mid, set_mid, hx, h]
      simp [Nat.add_assoc, Nat.add_comm 1]

theorem uninitialized_copy_n_ok (t : Traits α) (xs : List α)
    (hxs : ∀ x ∈ xs, t.copyThrows x = false) (sp ss dp dm ds : Cells α)
    (hdm : dm.length = xs.length) :
    uninitialized_copy_n t (sp ++ (xs.map some ++ ss)) sp.length xs.length
        (dp ++ (dm ++ ds)) dp.length
      = .done (dp ++ (xs.map some ++ ds)) := by
  simp only [uninitialized_copy_n, uninitialized_copy_loop_ok t xs hxs sp ss dp dm ds hdm]

theorem uninitialized_move_loop_ok (t : Traits α) (xs : List α)
    (hxs : ∀ x ∈ xs, t.moveThrows x = false) :
    ∀ (sp ss dp dm ds : Cells α), dm.length = xs.length →
      uninitialized_move_loop t (sp ++ (xs.map some ++ ss)) sp.length
          (dp ++ (dm ++ ds)) dp.length xs.length
        = .done (sp ++ (xs.map (fun x => some (t.movedFrom x)) ++ ss),
            dp ++ (xs.map some ++ ds), dp.length + xs.length) := by
  induction xs with
  | nil =>
    intro sp ss dp dm ds hdm
    have : dm = [] := List.length_eq_zero.mp hdm
    subst this
    simp [uninitialized_move_loop]
  | cons x xs ih =>
    intro sp ss dp dm ds hdm
    cases dm with
    | nil => simp at hdm
    | cons m dm =>
      have hx : t.moveThrows x = false := hxs x (List.mem_cons_self _ _)
      have h := ih (fun z hz => hxs z (List.mem_cons_of_mem _ hz))
        (sp ++ [some (t.movedFrom x)]) ss (dp ++ [some x]) dm ds (by simpa using hdm)
      simp only [List.length_append, List.length_singleton, List.append_assoc,
        List.singleton_append] at h
      simp only [List.map_cons, List.cons_append, List.length_cons, uninitialized_move_loop,
        getElem?_mid, set_mid, hx, h]
      simp [Nat.add_assoc, Nat.add_comm 1]

theorem uninitialized_move_n_ok (t : Traits α) (xs : List α)
    (hxs : ∀ x ∈ xs, t.moveThrows x = false) (sp ss dp dm ds : Cells α)
    (hdm : dm.length = xs.length) :
    uninitialized_move_n t (sp ++ (xs.map some ++ ss)) sp.length xs.length
        (dp ++ (dm ++ ds)) dp.length
      = .done (sp ++ (xs.map (fun x => some (t.movedFrom x)) ++ ss),
          dp ++ (xs.map some ++ ds)) := by
  simp only [uninitialized_move_n, uninitialized_move_loop_ok t xs hxs sp ss dp dm ds hdm]

theorem replicate_split {β : Type} (z : β) (i j N : Nat) (h : i + 1 + j ≤ N) :
    List.replicate N z
      = List.replicate i z ++ (z :: (List.replicate j z ++ List.replicate (N - (i + 1 + j)) z)) := by
  have : N = i + ((j + (N - (i + 1 + j))) + 1) := by omega
  conv_lhs => rw [this]
  rw [List.replicate_add, List.replicate_succ, List.replicate_add]

theorem Construct_mid (t : Traits α) (x : α) (hx : t.ctorThrows x = false) (p : Cells α)
    (a : Option α) (q : Cells α) :
    Construct t (p ++ a :: q) p.length x = .done (p ++ some x :: q) := by
  simp [Construct, hx]

theorem Emplace_full (t : Traits α) (a b : List α) (x : α)
    (hctor : t.ctorThrows x = false) (hrel : ∀ z ∈ a ++ b, t.relocationThrows z = false)
    (hfit : t.Fits (if (a ++ b).length = 0 then 1 else (a ++ b).length * 2)) :
    Vector.Emplace t ⟨⟨some ((a ++ b).map some), (a ++ b).length⟩, (a ++ b).length⟩ a.length x
      = .ok ⟨⟨some ((a ++ x :: b).map some ++
              List.replicate ((if (a ++ b).length = 0 then 1 else (a ++ b).length * 2)
                - ((a ++ b).length + 1)) none),
            if (a ++ b).length = 0 then 1 else (a ++ b).length * 2⟩,
          (a ++ b).length + 1⟩ a.length := by
  simp only [List.length_append] at hfit
  simp only [Vector.Emplace, Vector.Capacity, RawMemory.Capacity, RawMemory.create,
    RawMemory.Allocate_of_fits t _ hfit, RawMemory.cells, RawMemory.store, RawMemory.Swap,
    List.length_append, Nat.le_add_right, if_true, Option.getD_some, Option.map_some']
  have hN : a.length + 1 + b.length
      ≤ (if a.length + b.length = 0 then 1 else (a.length + b.length) * 2) := by
    split <;> omega
  generalize (if a.length + b.length = 0 then 1 else (a.length + b.length) * 2) = N at hN ⊢
  have hpos : N ≠ 0 := by omega
  have hla : (List.replicate a.length (none : Option α)).length = a.length := by simp
  have hc := Construct_mid t x hctor (List.replicate a.length none) none
    (List.replicate b.length none ++ List.replicate (N - (a.length + 1 + b.length)) none)
  rw [hla] at hc
  have hd := destroy_n_live (a ++ b) ([] : Cells α) []
  have hd2 := destroy_n_live (List.map t.movedFrom (a ++ b)) ([] : Cells α) []
  simp only [List.length_append, List.length_map, List.length_cons, List.length_nil,
    List.append_nil, List.nil_append, List.append_assoc, List.singleton_append, List.map_append,
    List.map_map, Nat.zero_add, List.length_singleton] at hd hd2
  have hsub : N - (a.length + b.length + 1) = N - (a.length + 1 + b.length) := by omega
  simp only [hpos, ne_eq, not_false_eq_true, if_true, Option.getD_some, hsub,
    replicate_split (none : Option α) a.length b.length N hN, hc, List.map_append]
  rcases relocation_cases t (a ++ b) hrel with ⟨hby, hmove⟩ | ⟨hby, hcopy⟩
  · have hby1 : (t.is_nothrow_move_constructible || !t.is_copy_constructible) = true := hby
    have hm1 := uninitialized_move_n_ok t a (fun z hz => hmove z (by simp [hz])) []
      (b.map some ++ []) [] (List.replicate a.length none)
      (some x :: (List.replicate b.length none ++
        List.replicate (N - (a.length + 1 + b.length)) none)) (by simp)
    have hm2 := uninitialized_move_n_ok t b (fun z hz => hmove z (by simp [hz]))
      (a.map (fun z => some (t.movedFrom z))) [] (a.map some ++ [some x])
      (List.replicate b.length none)
      (List.replicate (N - (a.length + 1 + b.length)) none) (by simp)
    simp only [List.length_append, List.length_map, List.length_cons, List.length_nil,
      List.append_nil, List.nil_append, List.append_assoc, List.singleton_append,
      List.map_append, List.map_map, Nat.zero_add, List.length_singleton] at hm1 hm2
    simp only [Function.comp_def] at hd2
    simp only [hby1, hm1, hm2, hd2, if_true, Nat.add_sub_cancel_left, Option.map_some']
    simp
  · have hby1 : (t.is_nothrow_move_constructible || !t.is_copy_constructible) = false := hby
    have hc1 := uninitialized_copy_n_ok t a (fun z hz => hcopy z (by simp [hz])) []
      (b.map some ++ []) [] (List.replicate a.length none)
      (some x :: (List.replicate b.length none ++
        List.replicate (N - (a.length + 1 + b.length)) none)) (by simp)
    have hc2 := uninitialized_copy_n_ok t b (fun z hz => hcopy z (by simp [hz]))
      (a.map some) [] (a.map some ++ [some x])
      (List.replicate b.length none)
      (List.replicate (N - (a.length + 1 + b.length)) none) (by simp)
    simp only [List.length_append, List.length_map, List.length_cons, List.length_nil,
      List.append_nil, List.nil_append, List.append_assoc, List.singleton_append,
      List.map_append, List.map_map, Nat.zero_add, List.length_singleton] at hc1 hc2
    simp only [hby1, hc1, hc2, hd, Bool.false_eq_true, if_false, Nat.add_sub_cancel_left,
      Option.map_some']
    simp

theorem getElem?_mid_succ {β : Type} (p : List β) (a b : β) (q : List β) :
    (p ++ a :: b :: q)[p.length + 1]? = some b := by
  have := getElem?_mid (p ++ [a]) b q
  simpa using this

theorem set_mid_succ {β : Type} (p : List β) (a b c : β) (q : List β) :
    (p ++ a :: b :: q).set (p.length + 1) c = p ++ a :: c :: q := by
  have h := set_mid (p ++ [a]) b c q
  simp only [List.length_append, List.length_singleton, List.append_assoc,
    List.singleton_append] at h
  exact h

theorem moveAssign_up (t : Traits α) (z : α) (hz : t.moveAssignThrows z = false) (y : α)
    (p q : Cells α) :
    moveAssign t (p ++ some z :: some y :: q) (p.length + 1) p.length
      = .done (p ++ some (t.movedFrom z) :: some z :: q) := by
  simp only [moveAssign, getElem?_mid, getElem?_mid_succ, hz, set_mid, set_mid_succ,
    Bool.false_eq_true, if_false]

theorem moveAssign_down (t : Traits α) (z : α) (hz : t.moveAssignThrows z = false) (y : α)
    (p q : Cells α) :
    moveAssign t (p ++ some y :: some z :: q) p.length (p.length + 1)
      = .done (p ++ some z :: some (t.movedFrom z) :: q) := by
  simp only [moveAssign, getElem?_mid, getElem?_mid_succ, hz, set_mid, set_mid_succ,
    Bool.false_eq_true, if_false]

theorem move_backward_loop_ok (t : Traits α) (xs : List α)
    (hxs : ∀ x ∈ xs, t.moveAssignThrows x = false) :
    ∀ (p q : Cells α) (y : α),
      move_backward_loop t (p ++ (xs.map some ++ some y :: q)) (p.length + xs.length)
          (p.length + xs.length + 1) xs.length
        = .done (p ++ (some ((xs.head?.map t.movedFrom).getD y) :: (xs.map some ++ q))) := by
  induction xs using List.reverseRecOn with
  | nil => intro p q y; simp [move_backward_loop]
  | append_singleton xs z ih =>
    intro p q y
    have hz : t.moveAssignThrows z = false := hxs z (by simp)
    have hm := moveAssign_up t z hz y (p ++ xs.map some) q
    have h := ih (fun w hw => hxs w (by simp [hw])) p (some z :: q) (t.movedFrom z)
    simp only [List.length_append, List.length_map, List.append_assoc] at hm
    simp only [List.map_append, List.map_cons, List.map_nil, List.length_append,
      List.length_singleton, List.append_assoc, List.singleton_append, move_backward_loop,
      Nat.add_sub_cancel, ← Nat.add_assoc, hm, h]
    cases xs <;> simp

theorem Erase_loop_ok (t : Traits α) (xs : List α)
    (hxs : ∀ x ∈ xs, t.moveAssignThrows x = false) :
    ∀ (p q : Cells α) (y : α) (fuel : Nat), xs.length < fuel →
      Vector.Erase_loop t (p.length + 1 + xs.length) (p ++ (some y :: (xs.map some ++ q)))
          p.length fuel
        = .done (p ++ (xs.map some ++
            some ((xs.getLast?.map t.movedFrom).getD y) :: q)) := by
  induction xs with
  | nil =>
    intro p q y fuel hf
    cases fuel with
    | zero => omega
    | succ fuel => simp [Vector.Erase_loop]
  | cons x xs ih =>
    intro p q y fuel hf
    cases fuel with
    | zero => omega
    | succ fuel =>
      have hx : t.moveAssignThrows x = false := hxs x (List.mem_cons_self _ _)
      have hm := moveAssign_down t x hx y p (xs.map some ++ q)
      have h := ih (fun w hw => hxs w (List.mem_cons_of_mem _ hw)) (p ++ [some x]) q
        (t.movedFrom x) fuel (by simpa using hf)
      simp only [List.length_append, List.length_singleton, List.append_assoc,
        List.singleton_append] at h
      have hsz : p.length + 1 + 1 + xs.length = p.length + 1 + (xs.length + 1) := by omega
      rw [hsz] at h
      have hne : ¬ (p.length + 1 = p.length + 1 + (xs.length + 1)) := by omega
      simp only [List.map_cons, List.cons_append, List.length_cons, Vector.Erase_loop, hne,
        if_false, hm, h]
      rcases xs with _ | ⟨w, ws⟩
      · simp
      · have hl : (w :: ws).getLast? = some ((w :: ws).getLast (by simp)) :=
          List.getLast?_eq_getLast _ _
        simp [hl]

theorem Vector.Holds.eq_withElems {v : Vector α} {s : List α} (h : v.Holds s) :
    v = Vector.withElems s v.data_.capacity_ := by
  obtain ⟨⟨b, cap⟩, n⟩ := v
  obtain ⟨h1, h2, h3, h4⟩ := h
  simp only at h1 h2 h3 h4
  subst h1
  cases b with
  | none =>
    have hc : cap = 0 := h3.mp rfl
    subst hc
    simp [Vector.withElems]
  | some c =>
    have hc : cap ≠ 0 := fun hc => by simpa using h3.mpr hc
    simp only [RawMemory.cells, Option.getD_some] at h4
    simp [Vector.withElems, hc, h4]

theorem Vector.holds_withElems (s : List α) (cap : Nat) (h : s.length ≤ cap) :
    (Vector.withElems s cap).Holds s := by
  refine ⟨rfl, h, ?_, ?_⟩
  · simp [Vector.withElems]
  · by_cases hc : cap = 0
    · subst hc
      have : s = [] := List.length_eq_zero.mp (Nat.le_zero.mp h)
      subst this
      simp [Vector.withElems, RawMemory.cells]
    · simp [Vector.withElems, RawMemory.cells, hc]

theorem Emplace_null (t : Traits α) (x : α) (hctor : t.ctorThrows x = false)
    (hfit : t.Fits 1) :
    Vector.Emplace t ⟨⟨none, 0⟩, 0⟩ 0 x = .ok ⟨⟨some [some x], 1⟩, 1⟩ 0 := by
  cases hrel : (t.is_nothrow_move_constructible || !t.is_copy_constructible) <;>
  simp [Vector.Emplace, Vector.Capacity, RawMemory.Capacity, RawMemory.create,
    RawMemory.Allocate_of_fits t 1 hfit, RawMemory.cells, RawMemory.store, RawMemory.Swap, Construct, hctor,
    uninitialized_move_n, uninitialized_move_loop, uninitialized_copy_n,
    uninitialized_copy_loop, destroy_n, hrel]

theorem Emplace_end (t : Traits α) (s : List α) (q : Cells α) (cap : Nat)
    (x : α) (hctor : t.ctorThrows x = false) (hcap : s.length ≠ cap) :
    Vector.Emplace t ⟨⟨some (s.map some ++ none :: q), cap⟩, s.length⟩ s.length x
      = .ok ⟨⟨some (s.map some ++ some x :: q), cap⟩, s.length + 1⟩ s.length := by
  have hc := Construct_mid t x hctor (s.map some) none q
  simp only [List.length_map] at hc
  simp [Vector.Emplace, Vector.Capacity, RawMemory.Capacity, RawMemory.cells, RawMemory.store,
    hcap, hc]

theorem ConstructFrom_last (t : Traits α) (y : α) (hy : t.moveThrows y = false)
    (p : Cells α) (a : Option α) (q : Cells α) :
    Vector.ConstructFrom t (p ++ some y :: a :: q) (p.length + 1) p.length
      = .done (p ++ some (t.movedFrom y) :: some y :: q) := by
  simp only [Vector.ConstructFrom, getElem?_mid, hy, set_mid, set_mid_succ,
    Bool.false_eq_true, if_false]
  simp

theorem assignTemp_mid (t : Traits α) (x : α) (hx : t.moveAssignThrows x = false)
    (p : Cells α) (a : α) (q : Cells α) :
    Vector.assignTemp t (p ++ some a :: q) p.length x = .done (p ++ some x :: q) := by
  simp only [Vector.assignTemp, getElem?_mid, hx, set_mid, Bool.false_eq_true, if_false]

theorem Emplace_shift (t : Traits α) (a b : List α) (y : α) (q : Cells α)
    (cap : Nat) (x : α) (ht : t.NoThrowOn (x :: (a ++ (b ++ [y]))))
    (hcap : a.length + b.length + 1 ≠ cap) :
    Vector.Emplace t ⟨⟨some (a.map some ++ (b.map some ++ some y :: none :: q)), cap⟩,
        a.length + b.length + 1⟩ a.length x
      = .ok ⟨⟨some (a.map some ++ some x :: (b.map some ++ some y :: q)), cap⟩,
          a.length + b.length + 1 + 1⟩ a.length := by
  have hctor : t.ctorThrows x = false := ht.ctor x (List.mem_cons_self _ _)
  have hmx : t.moveAssignThrows x = false := ht.moveAssign x (List.mem_cons_self _ _)
  have hmy : t.moveThrows y = false := ht.move y (by simp)
  have hmb : ∀ z ∈ b, t.moveAssignThrows z = false :=
    fun z hz => ht.moveAssign z (by simp [hz])
  have h1 := ConstructFrom_last t y hmy (a.map some ++ b.map some) none q
  have h2 := move_backward_loop_ok t b hmb (a.map some) (some y :: q)
    (t.movedFrom y)
  have h3 := assignTemp_mid t x hmx (a.map some)
    ((b.head?.map t.movedFrom).getD (t.movedFrom y)) (b.map some ++ some y :: q)
  simp only [List.length_append, List.length_map, List.append_assoc] at h1 h2 h3
  have hle : a.length ≤ a.length + b.length + 1 := by omega
  have hne : ¬ (a.length = a.length + b.length + 1) := by omega
  simp only [Vector.Emplace, Vector.Capacity, RawMemory.Capacity, RawMemory.cells,
    RawMemory.store, hcap, hle, hne, if_true, if_false, hctor, Bool.false_eq_true,
    Option.getD_some, Nat.add_sub_cancel, h1, move_backward, Nat.add_sub_cancel_left, h2, h3,
    Option.map_some']

theorem replicate_succ_sub {β : Type} (z : β) (cap n : Nat) (h : n < cap) :
    List.replicate (cap - n) z = z :: List.replicate (cap - (n + 1)) z := by
  have : cap - n = (cap - (n + 1)) + 1 := by omega
  rw [this, List.replicate_succ]

theorem split_at {β : Type} (s : List β) (i : Nat) (hi : i ≤ s.length) :
    ∃ a b, s = a ++ b ∧ i = a.length :=
  ⟨s.take i, s.drop i, (List.take_append_drop i s).symm, by simp [hi]⟩

theorem Emplace_withElems (t : Traits α) (s : List α) (cap : Nat)
    (hs : s.length ≤ cap) (i : Nat) (hi : i ≤ s.length) (x : α) (ht : t.NoThrowOn (x :: s))
    (hfit : s.length = cap → t.Fits (if s.length = 0 then 1 else s.length * 2)) :
    Vector.Emplace t (Vector.withElems s cap) i x
      = .ok (Vector.withElems (s.take i ++ x :: s.drop i)
          (if s.length = cap then (if s.length = 0 then 1 else s.length * 2) else cap)) i := by
  obtain ⟨a, b, rfl, rfl⟩ := split_at s i hi
  simp only [List.take_left', List.drop_left']
  by_cases hc : cap = 0
  · subst hc
    have hab : a ++ b = [] := List.length_eq_zero.mp (Nat.le_zero.mp hs)
    obtain ⟨rfl, rfl⟩ := List.append_eq_nil.mp hab
    simpa [Vector.withElems] using Emplace_null t x (ht.ctor x (List.mem_cons_self _ _))
      (hfit rfl)
  · by_cases hfull : (a ++ b).length = cap
    · subst hfull
      have h := Emplace_full t a b x (ht.ctor x (List.mem_cons_self _ _))
        (fun z hz => ht.relocation z (List.mem_cons_of_mem _ hz)) (hfit rfl)
      have hN : (if (a ++ b).length = 0 then 1 else (a ++ b).length * 2) ≠ 0 := by
        split <;> omega
      simp only [List.length_append] at hc hN h
      simpa [Vector.withElems, hc, hN] using h
    · have hlt : (a ++ b).length < cap := lt_of_le_of_ne hs hfull
      rcases List.eq_nil_or_concat b with rfl | ⟨b, y, rfl⟩
      · have h := Emplace_end t a (List.replicate (cap - (a.length + 1)) none) cap x
          (ht.ctor x (List.mem_cons_self _ _)) (by simpa using hfull)
        simp only [List.append_nil] at hlt hfull ⊢
        simp only [Vector.withElems, hc, hfull, if_false, List.length_append, List.length_cons,
          List.length_nil, replicate_succ_sub (none : Option α) cap a.length hlt, h]
        simp
      · simp only [List.concat_eq_append] at hs hi hlt hfull ht ⊢
        simp only [List.length_append, List.length_cons, List.length_nil, ← Nat.add_assoc,
          Nat.add_zero] at hlt hfull
        have h := Emplace_shift t a b y
          (List.replicate (cap - (a.length + b.length + 1 + 1)) none) cap x ht hfull
        simp only [Vector.withElems, hc, List.length_append, List.length_cons, List.length_nil,
          ← Nat.add_assoc, Nat.add_zero, hfull, if_false, List.map_append, List.map_cons,
          List.map_nil, List.append_assoc, List.singleton_append, List.cons_append,
          replicate_succ_sub (none : Option α) cap (a.length + b.length + 1) hlt]
        simpa [Nat.add_assoc] using h

theorem PopBack_withElems (s : List α) (y : α) (cap : Nat) (hs : s.length + 1 ≤ cap) :
    Vector.PopBack (Vector.withElems (s ++ [y]) cap) = .ok (Vector.withElems s cap) () := by
  have hc : cap ≠ 0 := by omega
  have hd := Destroy_mid (s.map some) y (List.replicate (cap - (s.length + 1)) none)
  simp only [List.length_map] at hd
  simp only [Vector.PopBack, Vector.withElems, hc, if_false, List.length_append,
    List.length_singleton, Nat.add_sub_cancel, Nat.succ_pos, if_true, RawMemory.cells,
    RawMemory.store, Option.getD_some, List.map_append, List.map_cons, List.map_nil,
    List.append_assoc, List.singleton_append, hd, Option.map_some',
    replicate_succ_sub (none : Option α) cap s.length (by omega)]

theorem Erase_withElems (t : Traits α) (a b : List α) (y : α) (cap : Nat)
    (hma : ∀ z ∈ b, t.moveAssignThrows z = false) (hs : (a ++ y :: b).length ≤ cap) :
    Vector.Erase t (Vector.withElems (a ++ y :: b) cap) a.length
      = .ok (Vector.withElems (a ++ b) cap) a.length := by
  simp only [List.length_append, List.length_cons] at hs
  have hc : cap ≠ 0 := by omega
  simp only [Vector.Erase]
  generalize hF : (Vector.withElems (a ++ y :: b) cap).data_.cells.length + 1 = F
  have hFb : b.length < F := by
    simp [Vector.withElems, hc, RawMemory.cells] at hF
    omega
  have hl := Erase_loop_ok t b hma (a.map some)
    (List.replicate (cap - (a.length + (b.length + 1))) none) y F hFb
  have hd := Destroy_mid (a.map some ++ b.map some) ((b.getLast?.map t.movedFrom).getD y)
    (List.replicate (cap - (a.length + (b.length + 1))) none)
  have hsz : a.length + 1 + b.length = a.length + (b.length + 1) := by omega
  simp only [List.length_map, List.length_append, List.append_assoc, hsz] at hl hd
  have hle : a.length ≤ a.length + (b.length + 1) := by omega
  have hpos : 0 < a.length + (b.length + 1) := by omega
  have hpred : a.length + (b.length + 1) - 1 = a.length + b.length := by omega
  have hsub : cap - (a.length + b.length + 1) = cap - (a.length + (b.length + 1)) := by omega
  simp only [Vector.PopBack, Vector.withElems, hc, if_false, List.length_append,
    List.length_cons, hle, if_true, RawMemory.cells, RawMemory.store, Option.getD_some,
    List.map_append, List.map_cons, List.append_assoc, List.cons_append,
    hl, Option.map_some', hpos, hpred, hd, hsub,
    replicate_succ_sub (none : Option α) cap (a.length + b.length) (by omega)]

theorem eraseIdx_mid {β : Type} (a : List β) (y : β) (b : List β) :
    (a ++ y :: b).eraseIdx a.length = a ++ b := by
  induction a with
  | nil => rfl
  | cons x a ih => simp [List.eraseIdx, ih]

theorem split_at_lt {β : Type} (s : List β) (i : Nat) (hi : i < s.length) :
    ∃ a y b, s = a ++ y :: b ∧ i = a.length :=
  ⟨s.take i, s[i], s.drop (i + 1), by simp, by simp [Nat.le_of_lt hi]⟩

theorem PushBack_withElems (t : Traits α) (l : List α) (cap : Nat)
    (hl : l.length ≤ cap) (x : α) (ht : t.NoThrowOn (x :: l))
    (hfit : l.length = cap → t.Fits (if l.length = 0 then 1 else l.length * 2)) :
    Vector.PushBack t (Vector.withElems l cap) x
      = .ok (Vector.withElems (l ++ [x])
          (if l.length = cap then (if l.length = 0 then 1 else l.length * 2) else cap)) () := by
  have h := Emplace_withElems t.copyArg l cap hl l.length (Nat.le_refl _) x ht.copyArg hfit
  simp only [List.take_length, List.drop_length] at h
  have hsz : (Vector.withElems l cap).size_ = l.length := rfl
  simp only [Vector.PushBack, Vector.EmplaceBack, hsz, h]

theorem PushBackRvalue_withElems (t : Traits α) (l : List α) (cap : Nat)
    (hl : l.length ≤ cap) (x : α) (ht : t.NoThrowOn (x :: l))
    (hfit : l.length = cap → t.Fits (if l.length = 0 then 1 else l.length * 2)) :
    Vector.PushBackRvalue t (Vector.withElems l cap) x
      = .ok (Vector.withElems (l ++ [x])
          (if l.length = cap then (if l.length = 0 then 1 else l.length * 2) else cap)) () := by
  have h := Emplace_withElems t.moveArg l cap hl l.length (Nat.le_refl _) x ht.moveArg hfit
  simp only [List.take_length, List.drop_length] at h
  have hsz : (Vector.withElems l cap).size_ = l.length := rfl
  simp only [Vector.PushBackRvalue, Vector.EmplaceBack, hsz, h]

theorem runOps_withElems (t : Traits α) (ops : List (Op α)) :
    ∀ (l : List α) (cap : Nat), l.length ≤ cap → popsAllowed l.length ops = true →
      t.NoThrowOn (l ++ pushed ops) → t.Fits (2 * (l.length + pushes ops)) →
      ∃ cap1, runOps t (Vector.withElems l cap) ops = .ok (Vector.withElems (applyOps l ops) cap1) ()
        ∧ (applyOps l ops).length ≤ cap1
        ∧ (applyOps l ops).length + pops ops = l.length + pushes ops := by
  induction ops with
  | nil => intro l cap hl _ _ _; exact ⟨cap, rfl, hl, rfl⟩
  | cons op ops ih =>
    intro l cap hl hp ht hfit
    cases op with
    | push x =>
      have hcap : (l ++ [x]).length
          ≤ (if l.length = cap then (if l.length = 0 then 1 else l.length * 2) else cap) := by
        simp only [List.length_append, List.length_singleton]
        split
        · split <;> omega
        · omega
      have htx : t.NoThrowOn (x :: l) :=
        ht.mono (fun z hz => by
          rcases List.mem_cons.mp hz with rfl | hz
          · simp [pushed]
          · simp [hz])
      have hfx : l.length = cap → t.Fits (if l.length = 0 then 1 else l.length * 2) :=
        fun _ => hfit.of_le (by simp only [pushes]; split <;> omega)
      obtain ⟨cap1, h1, h2, h3⟩ := ih (l ++ [x]) _ hcap (by simpa [popsAllowed] using hp)
        (by simpa [pushed] using ht)
        (hfit.of_le (by simp only [pushes, List.length_append, List.length_singleton]; omega))
      refine ⟨cap1, ?_, h2, ?_⟩
      · simp only [runOps, PushBack_withElems t l cap hl x htx hfx, applyOps, h1]
      · simp only [applyOps, pops, pushes]
        simp only [List.length_append, List.length_singleton] at h3
        omega
    | pop =>
      simp only [popsAllowed, Bool.and_eq_true, decide_eq_true_eq] at hp
      obtain ⟨hpos, hp1⟩ := hp
      rcases List.eq_nil_or_concat l with rfl | ⟨l1, y, rfl⟩
      · simp at hpos
      · simp only [List.concat_eq_append, List.length_append, List.length_singleton,
          Nat.add_sub_cancel] at hl hp1 ht hfit ⊢
        obtain ⟨cap1, h1, h2, h3⟩ := ih l1 cap (by omega) hp1
          (ht.mono (fun z hz => by
            rcases List.mem_append.mp hz with hz | hz
            · simp [hz]
            · simp [pushed, hz]))
          (hfit.of_le (by simp only [pushes]; omega))
        refine ⟨cap1, ?_, by simpa [applyOps] using h2, ?_⟩
        · simp only [runOps, PopBack_withElems l1 y cap hl, applyOps, List.dropLast_concat, h1]
        · simp only [applyOps, pops, pushes, List.dropLast_concat]
          omega

theorem cells_withElems (s : List α) (cap : Nat) (h : s.length ≤ cap) :
    (Vector.withElems s cap).data_.cells
      = s.map some ++ List.replicate (cap - s.length) none :=
  (Vector.holds_withElems s cap h).cells_eq

theorem withElems_of_ne_zero (s : List α) (cap : Nat) (hc : cap ≠ 0) :
    Vector.withElems s cap
      = ⟨⟨some (s.map some ++ List.replicate (cap - s.length) none), cap⟩, s.length⟩ := by
  simp [Vector.withElems, hc]

theorem withElems_zero (s : List α) (h : s.length ≤ 0) :
    Vector.withElems s 0 = ⟨⟨none, 0⟩, 0⟩ := by
  have : s = [] := List.length_eq_zero.mp (Nat.le_zero.mp h)
  subst this
  rfl

theorem replicate_two {β : Type} (z : β) (n k : Nat) (h : n ≤ k) :
    List.replicate k z = List.replicate n z ++ List.replicate (k - n) z := by
  have : k = n + (k - n) := by omega
  conv_lhs => rw [this]
  rw [List.replicate_add]

theorem Reserve_withElems_of_relocation (t : Traits α) (s : List α) (cap k : Nat)
    (hrel : ∀ z ∈ s, t.relocationThrows z = false) (hs : s.length ≤ cap)
    (hfit : cap < k → t.Fits k) :
    Vector.Reserve t (Vector.withElems s cap) k = .ok (Vector.withElems s (max cap k)) () := by
  by_cases hk : k ≤ cap
  · have hcapv : (Vector.withElems s cap).data_.Capacity = cap := rfl
    simp only [Vector.Reserve, hcapv, hk, if_true, Nat.max_eq_left hk]
  · have hk0 : k ≠ 0 := by omega
    have hf : t.Fits k := hfit (by omega)
    have hmax : max cap k = k := Nat.max_eq_right (by omega)
    have hm := fun hmove => uninitialized_move_n_ok t s hmove []
      (List.replicate (cap - s.length) none) [] (List.replicate s.length none)
      (List.replicate (k - s.length) none) (by simp)
    have hc := fun hcopy => uninitialized_copy_n_ok t s hcopy []
      (List.replicate (cap - s.length) none) [] (List.replicate s.length none)
      (List.replicate (k - s.length) none) (by simp)
    have hd := destroy_n_live s ([] : Cells α) (List.replicate (cap - s.length) none)
    have hd2 := destroy_n_live (s.map t.movedFrom) ([] : Cells α)
      (List.replicate (cap - s.length) none)
    simp only [List.nil_append, List.length_nil, List.map_map, List.length_map,
      Function.comp_def] at hm hc hd hd2
    by_cases hc0 : cap = 0
    · subst hc0
      have hs0 : s = [] := List.length_eq_zero.mp (Nat.le_zero.mp hs)
      subst hs0
      cases hrel : (t.is_nothrow_move_constructible || !t.is_copy_constructible) <;>
      simp [Vector.Reserve, Vector.CreateCopy, Vector.withElems, Vector.Size,
        RawMemory.Capacity, RawMemory.create, RawMemory.Allocate_of_fits t k hf, RawMemory.cells,
        RawMemory.store, RawMemory.Swap, hk0, hrel, uninitialized_move_n,
        uninitialized_move_loop, uninitialized_copy_n, uninitialized_copy_loop, destroy_n]
    · rw [hmax, withElems_of_ne_zero s cap hc0, withElems_of_ne_zero s k hk0]
      simp only [Vector.Reserve, Vector.CreateCopy, Vector.Size, RawMemory.Capacity, hk,
        if_false, RawMemory.create, RawMemory.Allocate_of_fits t k hf, hk0, ne_eq,
        not_false_eq_true, if_true,
        RawMemory.cells, RawMemory.store, RawMemory.Swap, Option.getD_some, Option.map_some',
        replicate_two (none : Option α) s.length k (by omega)]
      rcases relocation_cases t s hrel with ⟨hby, hmove⟩ | ⟨hby, hcopy⟩
      · have hby1 : (t.is_nothrow_move_constructible || !t.is_copy_constructible) = true := hby
        simp only [hby1, if_true, hm hmove, hd2, Option.getD_some]
      · have hby1 : (t.is_nothrow_move_constructible || !t.is_copy_constructible) = false :=
          hby
        simp only [hby1, Bool.false_eq_true, if_false, hc hcopy, hd, Option.getD_some]

theorem Reserve_withElems (t : Traits α) (s : List α) (cap k : Nat)
    (ht : t.NoThrowOn s) (hs : s.length ≤ cap) (hfit : cap < k → t.Fits k) :
    Vector.Reserve t (Vector.withElems s cap) k = .ok (Vector.withElems s (max cap k)) () :=
  Reserve_withElems_of_relocation t s cap k ht.relocation hs hfit

theorem uninitialized_value_construct_loop_ok (t : Traits α) (hv : t.valueInitThrows = false)
    (m : Cells α) : ∀ (p q : Cells α),
      uninitialized_value_construct_loop t (p ++ (m ++ q)) p.length m.length
        = .done (p ++ (List.replicate m.length (some t.valueInit) ++ q),
            p.length + m.length) := by
  induction m with
  | nil => intro p q; simp [uninitialized_value_construct_loop]
  | cons a m ih =>
    intro p q
    have h := ih (p ++ [some t.valueInit]) q
    simp only [List.length_append, List.length_singleton, List.append_assoc,
      List.singleton_append] at h
    simp only [List.cons_append, List.length_cons, uninitialized_value_construct_loop, hv,
      set_mid, h, List.replicate_succ, List.length_append]
    simp [Nat.add_assoc, Nat.add_comm 1]

theorem uninitialized_value_construct_n_ok (t : Traits α) (hv : t.valueInitThrows = false)
    (m p q : Cells α) :
    uninitialized_value_construct_n t (p ++ (m ++ q)) p.length m.length
      = .done (p ++ (List.replicate m.length (some t.valueInit) ++ q)) := by
  simp only [uninitialized_value_construct_n, uninitialized_value_construct_loop_ok t hv m p q]

theorem Resize_withElems (t : Traits α) (s : List α) (cap n : Nat)
    (hvi : t.valueInitThrows = false) (ht : t.NoThrowOn s) (hs : s.length ≤ cap)
    (hfit : cap < n → t.Fits n) :
    Vector.Resize t (Vector.withElems s cap) n
      = .ok (Vector.withElems (s.take n ++ List.replicate (n - s.length) t.valueInit)
          (if n > s.length then max cap n else cap)) () := by
  have hsz : (Vector.withElems s cap).size_ = s.length := rfl
  by_cases hn : n > s.length
  · have hcap1 : max cap n ≠ 0 := by omega
    have hle : n ≤ max cap n := Nat.le_max_right _ _
    have hvc := uninitialized_value_construct_n_ok t hvi (List.replicate (n - s.length) none)
      (s.map some) (List.replicate (max cap n - n) none)
    simp only [List.length_map, List.length_replicate] at hvc
    have htake : s.take n = s := List.take_of_length_le (by omega)
    have hlen : s.length + (n - s.length) = n := by omega
    simp only [Vector.Resize, hsz, hn, if_true, Reserve_withElems t s cap n ht hs hfit, htake]
    simp only [withElems_of_ne_zero _ _ hcap1, RawMemory.cells, RawMemory.store,
      Option.getD_some, Option.map_some', List.length_append, List.length_replicate, hlen,
      List.map_append, List.map_replicate, List.append_assoc,
      replicate_two (none : Option α) (n - s.length) (max cap n - s.length) (by omega),
      show max cap n - s.length - (n - s.length) = max cap n - n by omega, hvc]
  · have hn1 : n ≤ s.length := by omega
    obtain ⟨a, b, rfl, rfl⟩ := split_at s n hn1
    have hd := destroy_n_live b (a.map some)
      (List.replicate (cap - (a ++ b).length) none)
    have hcells := cells_withElems (a ++ b) cap hs
    simp only [List.length_map, List.length_append, List.map_append, List.append_assoc]
      at hd hs hn hsz hcells
    have hsub : a.length - (a.length + b.length) = 0 := by omega
    simp only [Vector.Resize, hsz, hn, if_false, List.take_left', List.length_append, hsub,
      List.replicate_zero, List.append_nil, hcells, Nat.add_sub_cancel_left, hd]
    by_cases hc0 : cap = 0
    · subst hc0
      have hab : a ++ b = [] :=
        List.length_eq_zero.mp (by rw [List.length_append]; omega)
      obtain ⟨rfl, rfl⟩ := List.append_eq_nil.mp hab
      rfl
    · simp only [withElems_of_ne_zero _ _ hc0, RawMemory.store, Option.map_some',
        List.length_append,
        replicate_two (none : Option α) b.length (cap - a.length) (by omega),
        show cap - a.length - b.length = cap - (a.length + b.length) by omega]

theorem copy_loop_ok (t : Traits α) (xs : List α)
    (hxs : ∀ x ∈ xs, t.copyAssignThrows x = false) :
    ∀ (sp ss dp ds : Cells α) (ys : List α), ys.length = xs.length →
      copy_loop t (sp ++ (xs.map some ++ ss)) sp.length (dp ++ (ys.map some ++ ds)) dp.length
          xs.length
        = .done (dp ++ (xs.map some ++ ds)) := by
  induction xs with
  | nil =>
    intro sp ss dp ds ys hys
    have : ys = [] := List.length_eq_zero.mp hys
    subst this
    simp [copy_loop]
  | cons x xs ih =>
    intro sp ss dp ds ys hys
    cases ys with
    | nil => simp at hys
    | cons y ys =>
      have hx : t.copyAssignThrows x = false := hxs x (List.mem_cons_self _ _)
      have h := ih (fun z hz => hxs z (List.mem_cons_of_mem _ hz)) (sp ++ [some x]) ss
        (dp ++ [some x]) ds ys (by simpa using hys)
      simp only [List.length_append, List.length_singleton, List.append_assoc,
        List.singleton_append] at h
      simp only [List.map_cons, List.cons_append, List.length_cons, copy_loop, getElem?_mid,
        set_mid, hx, Bool.false_eq_true, if_false, h]

theorem copyConstruct_withElems (t : Traits α) (s : List α) (cap : Nat) (hs : s.length ≤ cap)
    (hc : ∀ z ∈ s, t.copyThrows z = false) (hfit : t.Fits s.length) :
    Vector.copyConstruct t (Vector.withElems s cap) = .ok () (Vector.withElems s s.length) := by
  have hcells := cells_withElems s cap hs
  have hsz : (Vector.withElems s cap).size_ = s.length := rfl
  have h := uninitialized_copy_n_ok t s hc [] (List.replicate (cap - s.length) none) []
    (List.replicate s.length none) [] (by simp)
  simp only [List.nil_append, List.length_nil, List.append_nil] at h
  by_cases h0 : s.length = 0
  · have hs0 : s = [] := List.length_eq_zero.mp h0
    subst hs0
    simp [Vector.copyConstruct, Vector.Size, hsz, hcells, RawMemory.create,
      RawMemory.Allocate,
      RawMemory.cells, RawMemory.store, uninitialized_copy_n, uninitialized_copy_loop,
      Vector.withElems]
  · simp only [Vector.copyConstruct, Vector.Size, hsz, hcells]
    simp only [RawMemory.create, RawMemory.Allocate_of_fits t _ hfit, h0, ne_eq,
      not_false_eq_true, if_true,
      RawMemory.cells, RawMemory.store, Option.getD_some, h, Option.map_some',
      withElems_of_ne_zero s _ h0, Nat.sub_self, List.replicate_zero, List.append_nil]

theorem destroy_n_withElems (d : List α) (cap : Nat) (hd : d.length ≤ cap) :
    ∃ buf, destroy_n (Vector.withElems d cap).data_.cells 0 d.length = some buf := by
  have h := destroy_n_live d ([] : Cells α) (List.replicate (cap - d.length) none)
  simp only [List.nil_append, List.length_nil] at h
  exact ⟨_, by rw [cells_withElems d cap hd, h]⟩

theorem copyAssign_withElems (t : Traits α) (d s : List α) (capd caps : Nat)
    (hd : d.length ≤ capd) (hs : s.length ≤ caps)
    (hbranch : capd < s.length ∨ s.length ≤ d.length ∨ d = [])
    (hc : ∀ z ∈ s, t.copyThrows z = false) (hca : ∀ z ∈ s, t.copyAssignThrows z = false)
    (hfit : capd < s.length → t.Fits s.length) :
    Vector.copyAssign t (Vector.withElems d capd) (Vector.withElems s caps)
      = .ok (Vector.withElems s (if capd < s.length then s.length else capd)) () := by
  have hszd : (Vector.withElems d capd).size_ = d.length := rfl
  have hszs : (Vector.withElems s caps).size_ = s.length := rfl
  have hcapd : (Vector.withElems d capd).data_.Capacity = capd := rfl
  by_cases hgrow : capd < s.length
  · obtain ⟨buf, hbuf⟩ := destroy_n_withElems d capd hd
    have hsw : Vector.Swap (Vector.withElems d capd) (Vector.withElems s s.length)
        = (Vector.withElems s s.length, Vector.withElems d capd) := rfl
    simp only [Vector.copyAssign, hszs, hcapd, gt_iff_lt, hgrow, if_true,
      copyConstruct_withElems t s caps hs hc (hfit hgrow), hsw, hszd, hbuf]
  · have hle : s.length ≤ capd := by omega
    simp only [Vector.copyAssign, hszs, hcapd, gt_iff_lt, hgrow, if_false, Vector.Size, hszd,
      cells_withElems d capd hd, cells_withElems s caps hs, copy, Nat.sub_zero]
    by_cases hshrink : s.length < d.length
    · obtain ⟨d1, d2, rfl, hd1s⟩ := split_at d s.length (by omega)
      have hd1 : d1.length = s.length := hd1s.symm
      clear hd1s
      simp only [List.length_append, hd1] at hd hshrink
      have hcp := copy_loop_ok t s hca [] (List.replicate (caps - s.length) none) []
        (d2.map some ++ List.replicate (capd - (s.length + d2.length)) none) d1 hd1
      have hds := destroy_n_live d2 (s.map some)
        (List.replicate (capd - (s.length + d2.length)) none)
      simp only [List.nil_append, List.length_nil, List.length_map] at hcp hds
      have hc0 : capd ≠ 0 := by omega
      simp only [hshrink, if_true, List.length_append, List.map_append, List.append_assoc, hcp,
        hd1, Nat.add_sub_cancel_left, hds, withElems_of_ne_zero _ _ hc0, RawMemory.store,
        Option.map_some',
        replicate_two (none : Option α) d2.length (capd - s.length) (by omega),
        show capd - s.length - d2.length = capd - (s.length + d2.length) by omega]
    · have hds : d.length ≤ s.length := by omega
      rcases hbranch with h1 | h2 | h3
      · omega
      · have heq : d.length = s.length := by omega
        have hcp := copy_loop_ok t s hca [] (List.replicate (caps - s.length) none) []
          (List.replicate (capd - d.length) none) d heq
        simp only [List.nil_append, List.length_nil, heq] at hcp
        by_cases hc0 : capd = 0
        · subst hc0
          have hd0 : d = [] := List.length_eq_zero.mp (Nat.le_zero.mp hd)
          subst hd0
          have hs0 : s = [] := List.length_eq_zero.mp heq.symm
          subst hs0
          simp [copy_loop, uninitialized_copy_n, uninitialized_copy_loop, Vector.withElems,
            RawMemory.store]
        · simp only [hshrink, if_false, heq, hcp, Nat.sub_self, uninitialized_copy_n,
            uninitialized_copy_loop, withElems_of_ne_zero _ _ hc0, RawMemory.store,
            Option.map_some', lt_self_iff_false]
      · subst h3
        by_cases hc0 : capd = 0
        · subst hc0
          have hs0 : s = [] := List.length_eq_zero.mp (Nat.le_zero.mp hle)
          subst hs0
          simp [copy_loop, uninitialized_copy_n, uninitialized_copy_loop, Vector.withElems,
            RawMemory.store]
        · have hu := uninitialized_copy_n_ok t s hc [] (List.replicate (caps - s.length) none)
            [] (List.replicate s.length none) (List.replicate (capd - s.length) none) (by simp)
          simp only [List.nil_append, List.length_nil] at hu
          simp only [hshrink, if_false, List.length_nil, copy_loop, List.map_nil,
            List.nil_append, Nat.sub_zero, replicate_two (none : Option α) s.length capd hle,
            hu, withElems_of_ne_zero _ _ hc0, RawMemory.store, Option.map_some',
            Nat.not_lt_zero]

theorem Emplace_ok_shape (t : Traits α) (v : Vector α) (pos : Nat) (x : α) (v1 : Vector α)
    (r : Nat) (h : Vector.Emplace t v pos x = .ok v1 r) :
    r = pos ∧ pos ≤ v.size_ ∧ v1.size_ = v.size_ + 1 ∧
      v1.Capacity = (if v.size_ = v.Capacity then (if v.size_ = 0 then 1 else v.size_ * 2)
        else v.Capacity) := by
  simp only [Vector.Emplace] at h
  repeat' split at h
  all_goals first
    | (simp at h; done)
    | (simp only [Outcome.ok.injEq] at h
       obtain ⟨rfl, rfl⟩ := h
       simp_all [Vector.Capacity, RawMemory.Capacity, RawMemory.Swap, RawMemory.store,
         RawMemory.create])

theorem Emplace_throws_shape (t : Traits α) (v : Vector α) (pos : Nat) (x : α)
    (v1 : Vector α) (b : Cells α) (h : Vector.Emplace t v pos x = .throws v1 b) :
    v1.size_ = v.size_ ∧ v1.Capacity = v.Capacity := by
  simp only [Vector.Emplace] at h
  repeat' split at h
  all_goals first
    | (simp at h; done)
    | (simp only [Outcome.throws.injEq] at h
       obtain ⟨rfl, rfl⟩ := h
       simp [Vector.Capacity, RawMemory.Capacity, RawMemory.store])

theorem PopBack_ok_shape (v v1 : Vector α) (r : Unit) (h : Vector.PopBack v = .ok v1 r) :
    0 < v.size_ ∧ v1.size_ = v.size_ - 1 ∧ v1.Capacity = v.Capacity := by
  simp only [Vector.PopBack] at h
  repeat' split at h
  all_goals first
    | (simp at h; done)
    | (simp only [Outcome.ok.injEq] at h
       obtain ⟨rfl, _⟩ := h
       simp_all [Vector.Capacity, RawMemory.Capacity, RawMemory.store])

theorem PopBack_not_throws (v v1 : Vector α) (b : Cells α) :
    Vector.PopBack v ≠ .throws v1 b := by
  simp only [Vector.PopBack]
  repeat' split
  all_goals simp

theorem Erase_ok_shape (t : Traits α) (v : Vector α) (pos : Nat) (v1 : Vector α) (r : Nat)
    (h : Vector.Erase t v pos = .ok v1 r) :
    r = pos ∧ pos ≤ v.size_ ∧ 0 < v.size_ ∧ v1.size_ = v.size_ - 1 ∧
      v1.Capacity = v.Capacity := by
  simp only [Vector.Erase] at h
  split at h
  · split at h
    · simp at h
    · simp at h
    · rename_i buf hbuf
      split at h
      · rename_i v2 r2 hpop
        simp only [Outcome.ok.injEq] at h
        obtain ⟨rfl, rfl⟩ := h
        have hs := PopBack_ok_shape _ _ _ hpop
        simp_all [Vector.Capacity, RawMemory.Capacity, RawMemory.store]
      all_goals simp at h
  · simp at h

theorem Erase_throws_shape (t : Traits α) (v : Vector α) (pos : Nat) (v1 : Vector α)
    (b : Cells α) (h : Vector.Erase t v pos = .throws v1 b) :
    v1.size_ = v.size_ ∧ v1.Capacity = v.Capacity := by
  simp only [Vector.Erase] at h
  split at h
  · split at h
    · simp at h
    · simp only [Outcome.throws.injEq] at h
      obtain ⟨rfl, rfl⟩ := h
      simp [Vector.Capacity, RawMemory.Capacity, RawMemory.store]
    · split at h
      · simp at h
      · rename_i hpop
        exact absurd hpop (PopBack_not_throws _ _ _)
      all_goals simp at h
  · simp at h

theorem CreateCopy_ok_shape (t : Traits α) (v : Vector α) (k : Nat) (v1 : Vector α)
    (m : RawMemory α) (h : Vector.CreateCopy t v k = .ok v1 m) :
    v1.size_ = v.size_ ∧ v1.Capacity = v.Capacity ∧ m.capacity_ = k := by
  simp only [Vector.CreateCopy] at h
  repeat' split at h
  all_goals first
    | (simp at h; done)
    | (simp only [Outcome.ok.injEq] at h
       obtain ⟨rfl, rfl⟩ := h
       simp [Vector.Capacity, RawMemory.Capacity, RawMemory.store, RawMemory.create])

theorem CreateCopy_throws_shape (t : Traits α) (v : Vector α) (k : Nat) (v1 : Vector α)
    (b : Cells α) (h : Vector.CreateCopy t v k = .throws v1 b) :
    v1.size_ = v.size_ ∧ v1.Capacity = v.Capacity := by
  simp only [Vector.CreateCopy] at h
  repeat' split at h
  all_goals first
    | (simp at h; done)
    | (simp only [Outcome.throws.injEq] at h
       obtain ⟨rfl, rfl⟩ := h
       simp [Vector.Capacity, RawMemory.Capacity, RawMemory.store])

theorem Reserve_ok_shape (t : Traits α) (v : Vector α) (k : Nat) (v1 : Vector α) (r : Unit)
    (h : Vector.Reserve t v k = .ok v1 r) :
    v1.size_ = v.size_ ∧ v1.Capacity = max v.Capacity k := by
  simp only [Vector.Reserve] at h
  split at h
  · rename_i hk
    simp only [Outcome.ok.injEq] at h
    obtain ⟨rfl, _⟩ := h
    exact ⟨rfl, (Nat.max_eq_left hk).symm⟩
  · rename_i hk
    split at h
    · rename_i v2 m hcc
      have hs := CreateCopy_ok_shape t v k v2 m hcc
      split at h
      · simp only [Outcome.ok.injEq] at h
        obtain ⟨rfl, _⟩ := h
        refine ⟨hs.1, ?_⟩
        simp only [Vector.Capacity, RawMemory.Capacity, RawMemory.Swap, hs.2.2]
        exact (Nat.max_eq_right (Nat.le_of_lt (Nat.lt_of_not_le hk))).symm
      · simp at h
    all_goals simp at h

theorem Reserve_throws_shape (t : Traits α) (v : Vector α) (k : Nat) (v1 : Vector α)
    (b : Cells α) (h : Vector.Reserve t v k = .throws v1 b) :
    v1.size_ = v.size_ ∧ v1.Capacity = v.Capacity := by
  simp only [Vector.Reserve] at h
  split at h
  · simp at h
  · split at h
    · split at h <;> simp at h
    · rename_i v2 b2 hcc
      simp only [Outcome.throws.injEq] at h
      obtain ⟨rfl, _⟩ := h
      exact CreateCopy_throws_shape t v k _ _ hcc
    all_goals simp at h

theorem Resize_ok_shape (t : Traits α) (v : Vector α) (n : Nat) (v1 : Vector α) (r : Unit)
    (h : Vector.Resize t v n = .ok v1 r) :
    v1.size_ = n ∧ v1.Capacity = (if n > v.size_ then max v.Capacity n else v.Capacity) := by
  simp only [Vector.Resize] at h
  split at h
  · rename_i hn
    split at h
    · rename_i v2 r2 hres
      have hs := Reserve_ok_shape t v n v2 r2 hres
      split at h
      · simp only [Outcome.ok.injEq] at h
        obtain ⟨rfl, _⟩ := h
        refine ⟨rfl, ?_⟩
        rw [if_pos hn]
        exact hs.2
      all_goals simp at h
    · rename_i hne
      exact absurd h (hne _ _)
  · rename_i hn
    split at h
    · simp only [Outcome.ok.injEq] at h
      obtain ⟨rfl, _⟩ := h
      refine ⟨rfl, ?_⟩
      rw [if_neg hn]
      rfl
    · simp at h

theorem Resize_throws_shape (t : Traits α) (v : Vector α) (n : Nat) (v1 : Vector α)
    (b : Cells α) (h : Vector.Resize t v n = .throws v1 b) :
    v1.size_ = v.size_ ∧ v.Capacity ≤ v1.Capacity ∧ v1.Capacity ≤ max v.Capacity n := by
  simp only [Vector.Resize] at h
  split at h
  · split at h
    · rename_i v2 r2 hres
      have hs := Reserve_ok_shape t v n v2 r2 hres
      split at h
      · simp at h
      · simp only [Outcome.throws.injEq] at h
        obtain ⟨rfl, _⟩ := h
        refine ⟨hs.1, ?_, ?_⟩
        · show v.Capacity ≤ v2.Capacity
          rw [hs.2]; exact Nat.le_max_left _ _
        · show v2.Capacity ≤ _
          rw [hs.2]
      · simp at h
    · have hs := Reserve_throws_shape t v n v1 b h
      exact ⟨hs.1, Nat.le_of_eq hs.2.symm, hs.2 ▸ Nat.le_max_left _ _⟩
  · split at h <;> simp at h

theorem create_ok_shape (t : Traits α) (n : Nat) (u : Unit) (v1 : Vector α)
    (h : Vector.create t n = .ok u v1) : v1.size_ = n ∧ v1.Capacity = n := by
  simp only [Vector.create] at h
  split at h
  · simp only [Outcome.ok.injEq] at h
    obtain ⟨_, rfl⟩ := h
    exact ⟨rfl, rfl⟩
  all_goals simp at h

theorem copyConstruct_ok_shape (t : Traits α) (other : Vector α) (u : Unit) (v1 : Vector α)
    (h : Vector.copyConstruct t other = .ok u v1) :
    v1.size_ = other.size_ ∧ v1.Capacity = other.size_ := by
  simp only [Vector.copyConstruct] at h
  split at h
  · simp only [Outcome.ok.injEq] at h
    obtain ⟨_, rfl⟩ := h
    exact ⟨rfl, rfl⟩
  all_goals simp at h

theorem copyAssign_ok_shape (t : Traits α) (v rhs v1 : Vector α) (r : Unit)
    (h : Vector.copyAssign t v rhs = .ok v1 r) :
    v1.size_ = rhs.size_ ∧
      v1.Capacity = (if rhs.size_ > v.Capacity then rhs.size_ else v.Capacity) ∧
      (rhs.size_ ≤ v.Capacity → ∃ buf, v1.data_ = v.data_.store buf) := by
  simp only [Vector.copyAssign] at h
  split at h
  · rename_i hgt
    have hgt1 : rhs.size_ > v.Capacity := hgt
    split at h
    · rename_i u temp hcc
      have hs := copyConstruct_ok_shape t rhs u temp hcc
      split at h
      · simp only [Outcome.ok.injEq] at h
        obtain ⟨rfl, _⟩ := h
        rw [if_pos hgt1]
        exact ⟨hs.1, hs.2, fun hle => absurd hle (Nat.not_le_of_gt hgt1)⟩
      · simp at h
    all_goals simp at h
  · rename_i hgt
    have hgt1 : ¬ rhs.size_ > v.Capacity := hgt
    split at h
    · rename_i buf hbuf
      simp only [Outcome.ok.injEq] at h
      obtain ⟨rfl, _⟩ := h
      rw [if_neg hgt1]
      exact ⟨rfl, rfl, fun _ => ⟨buf, rfl⟩⟩
    all_goals simp at h

theorem copyAssign_throws_shape (t : Traits α) (v rhs v1 : Vector α) (b : Cells α)
    (h : Vector.copyAssign t v rhs = .throws v1 b) :
    v1.size_ = v.size_ ∧ v1.Capacity = v.Capacity ∧ ∃ buf, v1.data_ = v.data_.store buf ∨
      v1.data_ = v.data_ := by
  simp only [Vector.copyAssign] at h
  split at h
  · split at h
    · split at h <;> simp at h
    · simp only [Outcome.throws.injEq] at h
      obtain ⟨rfl, _⟩ := h
      exact ⟨rfl, rfl, [], Or.inr rfl⟩
    all_goals simp at h
  · split at h
    · simp at h
    · rename_i buf hbuf
      simp only [Outcome.throws.injEq] at h
      obtain ⟨rfl, _⟩ := h
      exact ⟨rfl, rfl, buf, Or.inl rfl⟩
    · simp at h

theorem PushBack_ok_shape (t : Traits α) (v : Vector α) (x : α) (v1 : Vector α) (r : Unit)
    (h : Vector.PushBack t v x = .ok v1 r) :
    v1.size_ = v.size_ + 1 ∧
      v1.Capacity = (if v.size_ = v.Capacity then (if v.size_ = 0 then 1 else v.size_ * 2)
        else v.Capacity) := by
  simp only [Vector.PushBack, Vector.EmplaceBack] at h
  split at h
  · rename_i v2 r2 hem
    simp only [Outcome.ok.injEq] at h
    obtain ⟨rfl, _⟩ := h
    exact (Emplace_ok_shape t.copyArg v _ x _ _ hem).2.2
  all_goals simp at h

theorem PushBackRvalue_ok_shape (t : Traits α) (v : Vector α) (x : α) (v1 : Vector α)
    (r : Unit) (h : Vector.PushBackRvalue t v x = .ok v1 r) :
    v1.size_ = v.size_ + 1 ∧
      v1.Capacity = (if v.size_ = v.Capacity then (if v.size_ = 0 then 1 else v.size_ * 2)
        else v.Capacity) := by
  simp only [Vector.PushBackRvalue, Vector.EmplaceBack] at h
  split at h
  · rename_i v2 r2 hem
    simp only [Outcome.ok.injEq] at h
    obtain ⟨rfl, _⟩ := h
    exact (Emplace_ok_shape t.moveArg v _ x _ _ hem).2.2
  all_goals simp at h

theorem PushBack_throws_shape (t : Traits α) (v : Vector α) (x : α) (v1 : Vector α)
    (b : Cells α) (h : Vector.PushBack t v x = .throws v1 b) :
    v1.size_ = v.size_ ∧ v1.Capacity = v.Capacity := by
  simp only [Vector.PushBack, Vector.EmplaceBack] at h
  split at h
  · simp at h
  · rename_i v2 b2 hem
    simp only [Outcome.throws.injEq] at h
    obtain ⟨rfl, _⟩ := h
    exact Emplace_throws_shape t.copyArg v _ x _ _ hem
  all_goals simp at h

theorem PushBackRvalue_throws_shape (t : Traits α) (v : Vector α) (x : α) (v1 : Vector α)
    (b : Cells α) (h : Vector.PushBackRvalue t v x = .throws v1 b) :
    v1.size_ = v.size_ ∧ v1.Capacity = v.Capacity := by
  simp only [Vector.PushBackRvalue, Vector.EmplaceBack] at h
  split at h
  · simp at h
  · rename_i v2 b2 hem
    simp only [Outcome.throws.injEq] at h
    obtain ⟨rfl, _⟩ := h
    exact Emplace_throws_shape t.moveArg v _ x _ _ hem
  all_goals simp at h

theorem grow_ge (size cap : Nat) (h : size = cap) :
    cap ≤ (if size = 0 then 1 else size * 2) := by
  split <;> omega

theorem copyAssign_grow_in_place (t : Traits α) (d a b : List α) (capd caps : Nat)
    (hda : d.length = a.length) (hcapd : a.length + b.length ≤ capd)
    (hcaps : a.length + b.length ≤ caps) (hb : 0 < b.length)
    (hc : ∀ z ∈ b, t.copyThrows z = false) (hca : ∀ z ∈ a, t.copyAssignThrows z = false) :
    Vector.copyAssign t (Vector.withElems d capd) (Vector.withElems (a ++ b) caps)
      = .ok ⟨⟨some (b.map some ++
          (a.map some ++ List.replicate (capd - a.length) none).drop b.length), capd⟩,
          a.length + b.length⟩ () := by
  have hszd : (Vector.withElems d capd).size_ = a.length := hda
  have hszs : (Vector.withElems (a ++ b) caps).size_ = a.length + b.length := by
    simp [Vector.withElems]
  have hcapv : (Vector.withElems d capd).data_.Capacity = capd := rfl
  have hc0 : capd ≠ 0 := by omega
  have hgrow : ¬ (a.length + b.length > capd) := by omega
  have hnot : ¬ (a.length > a.length + b.length) := by omega
  have hcd := cells_withElems d capd (by omega)
  have hcs := cells_withElems (a ++ b) caps (by simpa using hcaps)
  simp only [List.map_append, List.append_assoc, List.length_append] at hcs
  rw [hda] at hcd
  have hcp := copy_loop_ok t a hca [] (b.map some ++ List.replicate (caps - (a.length + b.length)) none)
    [] (List.replicate (capd - a.length) none) d hda
  simp only [List.nil_append, List.length_nil] at hcp
  have hlen : b.length ≤ (a.map some ++ List.replicate (capd - a.length) (none : Option α)).length := by
    simp only [List.length_append, List.length_map, List.length_replicate]
    omega
  have hu := uninitialized_copy_n_ok t b hc (a.map some)
    (List.replicate (caps - (a.length + b.length)) none) []
    ((a.map some ++ List.replicate (capd - a.length) none).take b.length)
    ((a.map some ++ List.replicate (capd - a.length) none).drop b.length)
    (by rw [List.length_take]; exact Nat.min_eq_left hlen)
  simp only [List.nil_append, List.length_nil, List.length_map, List.take_append_drop] at hu
  simp only [Vector.copyAssign, hszs, hszd, hcapv, hgrow, if_false, Vector.Size, hnot, hcd, hcs,
    copy, Nat.sub_zero, hcp, Nat.add_sub_cancel_left, hu]
  simp only [withElems_of_ne_zero _ _ hc0, RawMemory.store, Option.map_some']

theorem copyAssign_in_place_ok (t : Traits α) (d s : List α) (capd caps : Nat)
    (hd : d.length ≤ capd) (hs : s.length ≤ caps) (hle : s.length ≤ capd)
    (hc : ∀ z ∈ s, t.copyThrows z = false) (hca : ∀ z ∈ s, t.copyAssignThrows z = false) :
    ∃ v1, Vector.copyAssign t (Vector.withElems d capd) (Vector.withElems s caps) = .ok v1 () := by
  by_cases hlt : d.length < s.length
  · obtain ⟨a, b, rfl, hda⟩ := split_at s d.length (Nat.le_of_lt hlt)
    simp only [List.length_append] at hs hle hlt
    exact ⟨_, copyAssign_grow_in_place t d a b capd caps hda hle hs (by omega)
      (fun z hz => hc z (by simp [hz])) (fun z hz => hca z (by simp [hz]))⟩
  · exact ⟨_, copyAssign_withElems t d s capd caps hd hs (Or.inr (Or.inl (by omega))) hc hca
      (fun h => absurd h (by omega))⟩

theorem moveAssign_down_raised (t : Traits α) (z : α) (hz : t.moveAssignThrows z = true)
    (y : α) (p q : Cells α) :
    moveAssign t (p ++ some y :: some z :: q) p.length (p.length + 1)
      = .raised (p ++ some y :: some z :: q) := by
  simp only [moveAssign, getElem?_mid, getElem?_mid_succ, hz, if_true]

theorem Erase_loop_raised (t : Traits α) (xs : List α)
    (hxs : ∀ x ∈ xs, t.moveAssignThrows x = false) (z : α)
    (hz : t.moveAssignThrows z = true) :
    ∀ (p q : Cells α) (y : α) (size fuel : Nat), p.length + xs.length + 1 < size →
      xs.length < fuel →
      Vector.Erase_loop t size (p ++ (some y :: (xs.map some ++ some z :: q))) p.length fuel
        = .raised (p ++ (xs.map some ++
            some ((xs.getLast?.map t.movedFrom).getD y) :: some z :: q)) := by
  induction xs with
  | nil =>
    intro p q y size fuel hsz hf
    cases fuel with
    | zero => omega
    | succ fuel =>
      have hne : ¬ (p.length + 1 = size) := by
        simp only [List.length_nil] at hsz
        omega
      simp only [List.map_nil, List.nil_append, Vector.Erase_loop, hne, if_false,
        moveAssign_down_raised t z hz y p q, List.getLast?_nil, Option.map_none',
        Option.getD_none]
  | cons x xs ih =>
    intro p q y size fuel hsz hf
    cases fuel with
    | zero => omega
    | succ fuel =>
      have hx : t.moveAssignThrows x = false := hxs x (List.mem_cons_self _ _)
      have hm := moveAssign_down t x hx y p (xs.map some ++ some z :: q)
      simp only [List.length_cons] at hsz hf
      have h := ih (fun w hw => hxs w (List.mem_cons_of_mem _ hw)) (p ++ [some x]) q
        (t.movedFrom x) size fuel
        (by simp only [List.length_append, List.length_singleton]; omega) (by omega)
      simp only [List.length_append, List.length_singleton, List.append_assoc,
        List.singleton_append] at h
      have hne : ¬ (p.length + 1 = size) := by omega
      simp only [List.map_cons, List.cons_append, Vector.Erase_loop, hne, if_false, hm, h]
      rcases xs with _ | ⟨w, ws⟩
      · simp
      · have hl : (w :: ws).getLast? = some ((w :: ws).getLast (by simp)) :=
          List.getLast?_eq_getLast _ _
        simp [hl]

theorem Erase_raised (t : Traits α) (a xs rest : List α) (y z : α) (cap : Nat)
    (hxs : ∀ x ∈ xs, t.moveAssignThrows x = false) (hz : t.moveAssignThrows z = true)
    (hs : (a ++ y :: (xs ++ z :: rest)).length ≤ cap) :
    Vector.Erase t (Vector.withElems (a ++ y :: (xs ++ z :: rest)) cap) a.length
      = .throws (Vector.withElems
          (a ++ (xs ++ (xs.getLast?.map t.movedFrom).getD y :: z :: rest)) cap) [] := by
  simp only [List.length_append, List.length_cons] at hs
  have hc : cap ≠ 0 := by omega
  simp only [Vector.Erase]
  generalize hF : (Vector.withElems (a ++ y :: (xs ++ z :: rest)) cap).data_.cells.length + 1 = F
  have hFb : xs.length < F := by
    simp [Vector.withElems, hc, RawMemory.cells] at hF
    omega
  have hl := Erase_loop_raised t xs hxs z hz (a.map some)
    (rest.map some ++ List.replicate (cap - (a.length + (xs.length + (rest.length + 1) + 1))) none)
    y (a.length + (xs.length + (rest.length + 1) + 1)) F
    (by simp only [List.length_map]; omega) hFb
  simp only [List.length_map] at hl
  have hle : a.length ≤ a.length + (xs.length + (rest.length + 1) + 1) := by omega
  simp only [Vector.withElems, hc, if_false, List.length_append, List.length_cons, hle, if_true,
    RawMemory.cells, RawMemory.store, Option.getD_some, List.map_append, List.map_cons,
    List.append_assoc, List.cons_append, hl, Option.map_some']
  have hsz : a.length + (xs.length + (rest.length + 1 + 1))
      = a.length + (xs.length + (rest.length + 1) + 1) := by omega
  rw [hsz]

theorem Vector.Holds.liveness {v : Vector α} {s : List α} (h : v.Holds s) : v.Liveness := by
  intro i hi
  have hi1 : i < v.data_.capacity_ := hi
  have hcap := h.size_le
  simp only [Vector.constructed, h.cells_eq, h.size_eq]
  by_cases hlt : i < s.length
  · have : (s.map some ++ List.replicate (v.data_.capacity_ - s.length) none)[i]?
        = some (some s[i]) := by
      rw [List.getElem?_append_left (by simpa using hlt)]
      simp [hlt]
    simp [this, hlt]
  · have : (s.map some ++ List.replicate (v.data_.capacity_ - s.length) none)[i]?
        = some none := by
      rw [List.getElem?_append_right (by simpa using Nat.le_of_not_lt hlt)]
      simp only [List.length_map]
      rw [List.getElem?_replicate]
      have : i - s.length < v.data_.capacity_ - s.length := by omega
      simp [this]
    simp [this, hlt]

theorem Erase_loop_not_done (t : Traits α) (size : Nat) :
    ∀ (fuel it : Nat) (buf buf1 : Cells α), size ≤ it →
      Vector.Erase_loop t size buf it fuel ≠ .done buf1 := by
  intro fuel
  induction fuel with
  | zero => intro it buf buf1 _; simp [Vector.Erase_loop]
  | succ fuel ih =>
    intro it buf buf1 hit
    have hne : ¬ (it + 1 = size) := by omega
    simp only [Vector.Erase_loop, hne, if_false]
    split
    · exact ih _ _ _ (by omega)
    · simp
    · simp

theorem Erase_assertFails_iff (t : Traits α) (v : Vector α) (pos : Nat) :
    Vector.Erase t v pos = .assertFails ↔ ¬ pos ≤ v.size_ := by
  constructor
  · intro h hle
    simp only [Vector.Erase, hle, if_true] at h
    split at h
    · simp at h
    · simp at h
    · rename_i buf hbuf
      split at h
      · simp at h
      · simp at h
      · rename_i hpop
        simp only [Vector.PopBack] at hpop
        split at hpop
        · split at hpop <;> simp at hpop
        · rename_i hsz
          have hz : v.size_ = 0 := by omega
          exact Erase_loop_not_done t v.size_ _ pos _ buf (by omega) hbuf
      · simp at h
  · intro h
    simp only [Vector.Erase, h, if_false]

theorem cells_create (t : Traits α) (k : Nat) (hk : t.Fits k) :
    (RawMemory.create t k).cells = List.replicate k none := by
  by_cases hk0 : k = 0
  · subst hk0; rfl
  · simp [RawMemory.create, RawMemory.Allocate_of_fits t k hk, RawMemory.cells, hk0]

theorem uninitialized_copy_loop_counted_result (t : Traits α) (src : Cells α) :
    ∀ (n first : Nat) (dst : Cells α) (current : Nat),
      (uninitialized_copy_loop_counted t src first dst current n).result
        = uninitialized_copy_loop t src first dst current n := by
  intro n
  induction n with
  | zero => intro first dst current; rfl
  | succ n ih =>
    intro first dst current
    simp only [uninitialized_copy_loop_counted, uninitialized_copy_loop]
    split
    · split
      · split
        · rfl
        · exact ih _ _ _
      · rfl
    · rfl

theorem uninitialized_copy_loop_counted_tally (t : Traits α) (src : Cells α) :
    ∀ (n first : Nat) (dst : Cells α) (current : Nat) (r : Cells α × Nat),
      uninitialized_copy_loop t src first dst current n = .done r →
      (uninitialized_copy_loop_counted t src first dst current n).tally = ⟨0, n⟩ := by
  intro n
  induction n with
  | zero => intro first dst current r _; rfl
  | succ n ih =>
    intro first dst current r h
    simp only [uninitialized_copy_loop] at h
    simp only [uninitialized_copy_loop_counted]
    split at h
    · split at h
      · split at h
        · simp at h
        · rename_i hlt hthrow
          simp only [hlt, hthrow, if_true, Bool.false_eq_true, if_false, ih _ _ _ r h,
            Tally.add, Nat.zero_add, Nat.add_comm 1 n]
      · simp at h
    · simp at h

theorem uninitialized_move_loop_counted_result (t : Traits α) :
    ∀ (n : Nat) (src : Cells α) (first : Nat) (dst : Cells α) (current : Nat),
      (uninitialized_move_loop_counted t src first dst current n).result
        = uninitialized_move_loop t src first dst current n := by
  intro n
  induction n with
  | zero => intro src first dst current; rfl
  | succ n ih =>
    intro src first dst current
    simp only [uninitialized_move_loop_counted, uninitialized_move_loop]
    split
    · split
      · split
        · rfl
        · exact ih _ _ _ _
      · rfl
    · rfl

theorem uninitialized_move_loop_counted_tally (t : Traits α) :
    ∀ (n : Nat) (src : Cells α) (first : Nat) (dst : Cells α) (current : Nat)
      (r : Cells α × Cells α × Nat),
      uninitialized_move_loop t src first dst current n = .done r →
      (uninitialized_move_loop_counted t src first dst current n).tally
        = if t.has_move_constructor then ⟨n, 0⟩ else ⟨0, n⟩ := by
  intro n
  induction n with
  | zero => intro src first dst current r _; simp [uninitialized_move_loop_counted]
  | succ n ih =>
    intro src first dst current r h
    simp only [uninitialized_move_loop] at h
    simp only [uninitialized_move_loop_counted]
    split at h
    · split at h
      · split at h
        · simp at h
        · rename_i hlt hthrow
          simp only [hlt, hthrow, if_true, Bool.false_eq_true, if_false, ih _ _ _ _ r h,
            Tally.add, Traits.rvalueTally]
          cases t.has_move_constructor <;> simp [Nat.add_comm 1 n]
      · simp at h
    · simp at h

theorem uninitialized_copy_n_counted_result (t : Traits α) (src : Cells α) (first n : Nat)
    (dst : Cells α) (d_first : Nat) :
    (uninitialized_copy_n_counted t src first n dst d_first).result
      = uninitialized_copy_n t src first n dst d_first := by
  simp only [uninitialized_copy_n_counted, uninitialized_copy_n,
    uninitialized_copy_loop_counted_result]

theorem uninitialized_copy_n_counted_tally (t : Traits α) (src : Cells α) (first n : Nat)
    (dst : Cells α) (d_first : Nat) (r : Cells α)
    (h : uninitialized_copy_n t src first n dst d_first = .done r) :
    (uninitialized_copy_n_counted t src first n dst d_first).tally = ⟨0, n⟩ := by
  simp only [uninitialized_copy_n] at h
  split at h
  · rename_i c cur hloop
    exact uninitialized_copy_loop_counted_tally t src n first dst d_first _ hloop
  · split at h <;> simp at h
  · simp at h

theorem uninitialized_move_n_counted_result (t : Traits α) (src : Cells α) (first n : Nat)
    (dst : Cells α) (d_first : Nat) :
    (uninitialized_move_n_counted t src first n dst d_first).result
      = uninitialized_move_n t src first n dst d_first := by
  simp only [uninitialized_move_n_counted, uninitialized_move_n,
    uninitialized_move_loop_counted_result]

theorem uninitialized_move_n_counted_tally (t : Traits α) (src : Cells α) (first n : Nat)
    (dst : Cells α) (d_first : Nat) (r : Cells α × Cells α)
    (h : uninitialized_move_n t src first n dst d_first = .done r) :
    (uninitialized_move_n_counted t src first n dst d_first).tally
      = if t.has_move_constructor then ⟨n, 0⟩ else ⟨0, n⟩ := by
  simp only [uninitialized_move_n] at h
  split at h
  · rename_i s c cur hloop
    exact uninitialized_move_loop_counted_tally t n src first dst d_first _ hloop
  · split at h <;> simp at h
  · simp at h

theorem CreateCopy_counted_result (t : Traits α) (v : Vector α) (capacity : Nat) :
    (Vector.CreateCopy_counted t v capacity).result = Vector.CreateCopy t v capacity := by
  simp only [Vector.CreateCopy_counted, Vector.CreateCopy]
  split
  · simp only [uninitialized_move_n_counted_result]
  · simp only [uninitialized_copy_n_counted_result]

theorem Reserve_counted_result (t : Traits α) (v : Vector α) (new_capacity : Nat) :
    (Vector.Reserve_counted t v new_capacity).result = Vector.Reserve t v new_capacity := by
  simp only [Vector.Reserve_counted, Vector.Reserve]
  split
  · rfl
  · simp only [CreateCopy_counted_result]
theorem Emplace_counted_result (t : Traits α) (v : Vector α) (pos : Nat) (x : α) :
    (Vector.Emplace_counted t v pos x).result = Vector.Emplace t v pos x := by
  simp only [Vector.Emplace_counted, Vector.Emplace, uninitialized_move_n_counted_result,
    uninitialized_copy_n_counted_result]
  by_cases hpos : pos ≤ v.size_
  · simp only [hpos, if_true]
    by_cases hfull : v.size_ = v.Capacity
    · simp only [hfull, if_true]
      cases hc : Construct t
          (RawMemory.create t (if v.Capacity = 0 then 1 else v.Capacity * 2)).cells pos x with
      | ub => rfl
      | raised buf => rfl
      | done buf =>
        simp only []
        cases hrel : (t.is_nothrow_move_constructible || !t.is_copy_constructible)
        · simp only [Bool.false_eq_true, if_false]
          cases h1 : uninitialized_copy_n t v.data_.cells 0 pos buf 0 with
          | ub => rfl
          | raised b1 => rfl
          | done b1 => simp only []
        · simp only [if_true]
          cases h1 : uninitialized_move_n t v.data_.cells 0 pos buf 0 with
          | ub => rfl
          | raised b1 => rfl
          | done b1 =>
            obtain ⟨old, b1⟩ := b1
            simp only []
    · simp only [hfull, if_false]
      by_cases hend : pos = v.size_
      · simp only [hend, if_true]
      · simp only [hend, if_false]
        cases hct : t.ctorThrows x
        · simp only [Bool.false_eq_true, if_false]
          cases hcf : Vector.ConstructFrom t v.data_.cells v.size_ (v.size_ - 1) with
          | ub => rfl
          | raised b1 => rfl
          | done b1 => rfl
        · simp only [if_true]
  · simp only [hpos, if_false]
theorem CreateCopy_counted_tally (t : Traits α) (v v1 : Vector α) (capacity : Nat)
    (m : RawMemory α) (h : Vector.CreateCopy t v capacity = .ok v1 m) :
    (Vector.CreateCopy_counted t v capacity).tally
      = if t.is_nothrow_move_constructible || !t.is_copy_constructible then
          (if t.has_move_constructor then ⟨v.size_, 0⟩ else ⟨0, v.size_⟩)
        else ⟨0, v.size_⟩ := by
  simp only [Vector.CreateCopy] at h
  simp only [Vector.CreateCopy_counted]
  split at h
  · rename_i hrel
    split at h
    · rename_i old buf hm
      simp only [hrel, if_true]
      exact uninitialized_move_n_counted_tally t _ _ _ _ _ _ hm
    · simp at h
    · simp at h
  · rename_i hrel
    split at h
    · rename_i buf hc
      simp only [hrel, if_false]
      exact uninitialized_copy_n_counted_tally t _ _ _ _ _ _ hc
    · simp at h
    · simp at h

theorem Reserve_counted_tally (t : Traits α) (v v1 : Vector α) (k : Nat) (r : Unit)
    (hk : v.data_.Capacity < k) (h : Vector.Reserve t v k = .ok v1 r) :
    (Vector.Reserve_counted t v k).tally
      = if t.is_nothrow_move_constructible || !t.is_copy_constructible then
          (if t.has_move_constructor then ⟨v.size_, 0⟩ else ⟨0, v.size_⟩)
        else ⟨0, v.size_⟩ := by
  have hnle : ¬ k ≤ v.data_.Capacity := Nat.not_le.mpr hk
  simp only [Vector.Reserve, hnle, if_false] at h
  simp only [Vector.Reserve_counted, hnle, if_false]
  split at h
  · rename_i v2 nd hcc
    exact CreateCopy_counted_tally t v v2 k nd hcc
  all_goals simp at h

theorem Emplace_counted_tally (t : Traits α) (v v1 : Vector α) (pos : Nat) (x : α) (r : Nat)
    (hfull : v.size_ = v.Capacity) (h : Vector.Emplace t v pos x = .ok v1 r) :
    (Vector.Emplace_counted t v pos x).tally
      = if t.is_nothrow_move_constructible || !t.is_copy_constructible then
          (if t.has_move_constructor then ⟨v.size_, 0⟩ else ⟨0, v.size_⟩)
        else ⟨0, v.size_⟩ := by
  simp only [Vector.Emplace] at h
  simp only [Vector.Emplace_counted, uninitialized_move_n_counted_result,
    uninitialized_copy_n_counted_result]
  by_cases hpos : pos ≤ v.size_
  · have hfullT : (v.size_ = v.Capacity) = True := eq_true hfull
    simp only [hpos, hfullT, if_true] at h ⊢
    cases hc : Construct t
        (RawMemory.create t (if v.size_ = 0 then 1 else v.size_ * 2)).cells pos x with
    | ub => simp [hc] at h
    | raised buf => simp [hc] at h
    | done buf =>
      simp only [hc] at h ⊢
      cases hrel : (t.is_nothrow_move_constructible || !t.is_copy_constructible)
      · simp only [hrel, Bool.false_eq_true, if_false] at h ⊢
        cases h1 : uninitialized_copy_n t v.data_.cells 0 pos buf 0 with
        | ub => simp [h1] at h
        | raised b1 =>
          simp only [h1] at h
          repeat' split at h
          all_goals simp at h
        | done b1 =>
          simp only [h1] at h ⊢
          cases h2 : uninitialized_copy_n t v.data_.cells pos (v.size_ - pos) b1 (pos + 1) with
          | ub => simp [h2] at h
          | raised b2 =>
            simp only [h2] at h
            repeat' split at h
            all_goals simp at h
          | done b2 =>
            simp only [uninitialized_copy_n_counted_tally t _ _ _ _ _ _ h1,
              uninitialized_copy_n_counted_tally t _ _ _ _ _ _ h2, Tally.add, Nat.zero_add,
              Tally.mk.injEq, true_and]
            omega
      · simp only [hrel, if_true] at h ⊢
        cases h1 : uninitialized_move_n t v.data_.cells 0 pos buf 0 with
        | ub => simp [h1] at h
        | raised b1 =>
          simp only [h1] at h
          repeat' split at h
          all_goals simp at h
        | done b1 =>
          obtain ⟨old, b1⟩ := b1
          simp only [h1] at h ⊢
          cases h2 : uninitialized_move_n t old pos (v.size_ - pos) b1 (pos + 1) with
          | ub => simp [h2] at h
          | raised b2 =>
            simp only [h2] at h
            repeat' split at h
            all_goals simp at h
          | done b2 =>
            simp only [uninitialized_move_n_counted_tally t _ _ _ _ _ _ h1,
              uninitialized_move_n_counted_tally t _ _ _ _ _ _ h2]
            cases t.has_move_constructor <;> simp [Tally.add] <;> omega
  · simp [hpos] at h

theorem Counted.eq_mk {β : Type} (c : Counted β) (r : β) (k : Tally) (h1 : c.result = r)
    (h2 : c.tally = k) : c = ⟨r, k⟩ := by
  cases c
  simp only [Counted.mk.injEq]
  exact ⟨h1, h2⟩

theorem Emplace_at_capacity (t : Traits α) (s : List α) (i : Nat) (hi : i ≤ s.length) (x : α)
    (hctor : t.ctorThrows x = false) (hrel : ∀ z ∈ s, t.relocationThrows z = false)
    (hfit : t.Fits (if s.length = 0 then 1 else s.length * 2)) :
    Vector.Emplace t (Vector.withElems s s.length) i x
      = .ok (Vector.withElems (s.take i ++ x :: s.drop i)
          (if s.length = 0 then 1 else s.length * 2)) i := by
  obtain ⟨a, b, rfl, rfl⟩ := split_at s i hi
  simp only [List.take_left', List.drop_left']
  by_cases hc : (a ++ b).length = 0
  · have hab : a ++ b = [] := List.length_eq_zero.mp hc
    obtain ⟨rfl, rfl⟩ := List.append_eq_nil.mp hab
    simpa [Vector.withElems] using Emplace_null t x hctor hfit
  · have h := Emplace_full t a b x hctor hrel hfit
    have hN : (if (a ++ b).length = 0 then 1 else (a ++ b).length * 2) ≠ 0 := by
      split <;> omega
    simp only [List.length_append] at hc hN h
    simpa [Vector.withElems, hc, hN] using h

theorem create_withElems (t : Traits α) (n : Nat) (hvi : t.valueInitThrows = false)
    (hfit : t.Fits n) :
    Vector.create t n = .ok () (Vector.withElems (List.replicate n t.valueInit) n) := by
  have h := uninitialized_value_construct_n_ok t hvi (List.replicate n none) [] []
  simp only [List.nil_append, List.length_nil, List.append_nil, List.length_replicate] at h
  by_cases h0 : n = 0
  · subst h0
    simp [Vector.create, RawMemory.create, RawMemory.Allocate, RawMemory.cells, RawMemory.store,
      uninitialized_value_construct_n, uninitialized_value_construct_loop, Vector.withElems]
  · simp only [Vector.create, cells_create t n hfit, h]
    simp [RawMemory.create, RawMemory.Allocate_of_fits t n hfit, RawMemory.store, h0,
      Vector.withElems]

theorem liveness_withElems (s : List α) (cap : Nat) (h : s.length ≤ cap) :
    (Vector.withElems s cap).Liveness :=
  (Vector.holds_withElems s cap h).liveness

/-- On vectors of the data model, the constructors and the operations other than the
two assignments return normally and keep the slot-liveness invariant, as long as the
byte size of every block they allocate is a value of `size_t`. -/
theorem liveness_kept_by_other_operations (t : Traits α) (v w : Vector α) (s s2 : List α)
    (hv : v.Holds s) (hw : w.Holds s2) (x : α) (ht : t.NoThrowOn (x :: s))
    (hvi : t.valueInitThrows = false) :
    ({} : Vector α).Liveness ∧
    (∀ n, t.Fits n → ∃ v1, Vector.create t n = .ok () v1 ∧ v1.Liveness) ∧
    (t.Fits v.size_ → ∃ v1, Vector.copyConstruct t v = .ok () v1 ∧ v1.Liveness) ∧
    (Vector.moveConstruct v).1.Liveness ∧ (Vector.moveConstruct v).2.Liveness ∧
    (∀ i, i ≤ v.size_ → (v.size_ = v.Capacity → t.Fits (max 1 (2 * v.size_))) →
      ∃ v1, Vector.Emplace t v i x = .ok v1 i ∧ v1.Liveness) ∧
    ((v.size_ = v.Capacity → t.Fits (max 1 (2 * v.size_))) →
      ∃ v1, Vector.PushBack t v x = .ok v1 () ∧ v1.Liveness) ∧
    (0 < v.size_ → ∃ v1, Vector.PopBack v = .ok v1 () ∧ v1.Liveness) ∧
    (∀ i, i < v.size_ → ∃ v1, Vector.Erase t v i = .ok v1 i ∧ v1.Liveness) ∧
    (∀ n, (v.Capacity < n → t.Fits n) →
      ∃ v1, Vector.Resize t v n = .ok v1 () ∧ v1.Liveness) ∧
    (∀ k, (v.Capacity < k → t.Fits k) →
      ∃ v1, Vector.Reserve t v k = .ok v1 () ∧ v1.Liveness) ∧
    (Vector.Swap v w).1.Liveness ∧ (Vector.Swap v w).2.Liveness ∧
    (Vector.moveAssign v w).1.Liveness := by
  have hsz := hv.size_eq
  have hcap := hv.size_le
  have hveq := hv.eq_withElems
  have hts : t.NoThrowOn s := ht.mono (fun z hz => List.mem_cons_of_mem _ hz)
  have hnull : (⟨⟨none, 0⟩, 0⟩ : Vector α).Liveness := liveness_withElems [] 0 (Nat.le_refl _)
  refine ⟨hnull, ?_, ?_, hv.liveness, hnull, ?_, ?_, ?_, ?_, ?_, ?_, hw.liveness, hv.liveness,
    hw.liveness⟩
  · intro n hfit
    exact ⟨_, create_withElems t n hvi hfit, liveness_withElems _ _ (by simp)⟩
  · intro hfit
    have h := copyConstruct_withElems t s v.data_.capacity_ hcap hts.copy (hsz ▸ hfit)
    rw [← hveq] at h
    exact ⟨_, h, liveness_withElems _ _ (Nat.le_refl _)⟩
  · intro i hi hfit
    have hi1 : i ≤ s.length := hsz ▸ hi
    have h := Emplace_withElems t s v.data_.capacity_ hcap i hi1 x ht
      (fun hfull => (hsz ▸ hfit (hsz ▸ hfull)).double)
    rw [← hveq] at h
    refine ⟨_, h, liveness_withElems _ _ ?_⟩
    simp only [List.length_append, List.length_take, List.length_cons, List.length_drop]
    split
    · split <;> omega
    · omega
  · intro hfit
    have h := PushBack_withElems t s v.data_.capacity_ hcap x ht
      (fun hfull => (hsz ▸ hfit (hsz ▸ hfull)).double)
    rw [← hveq] at h
    refine ⟨_, h, liveness_withElems _ _ ?_⟩
    simp only [List.length_append, List.length_singleton]
    split
    · split <;> omega
    · omega
  · intro hpos
    rcases List.eq_nil_or_concat s with rfl | ⟨l, y, rfl⟩
    · simp [hsz] at hpos
    · simp only [List.concat_eq_append, List.length_append, List.length_singleton] at hcap hveq
      have h := PopBack_withElems l y v.data_.capacity_ hcap
      rw [← hveq] at h
      exact ⟨_, h, liveness_withElems _ _ (by omega)⟩
  · intro i hi
    obtain ⟨a, y, b, rfl, rfl⟩ := split_at_lt s i (hsz ▸ hi)
    have h := Erase_withElems t a b y v.data_.capacity_
      (fun z hz => hts.moveAssign z (by simp [hz])) hcap
    rw [← hveq] at h
    simp only [List.length_append, List.length_cons] at hcap
    exact ⟨_, h, liveness_withElems _ _ (by simp only [List.length_append]; omega)⟩
  · intro n hfit
    have h := Resize_withElems t s v.data_.capacity_ n hvi hts hcap hfit
    rw [← hveq] at h
    refine ⟨_, h, liveness_withElems _ _ ?_⟩
    simp only [List.length_append, List.length_take, List.length_replicate]
    split
    · have := Nat.le_max_right v.data_.capacity_ n
      omega
    · omega
  · intro k hfit
    have h := Reserve_withElems t s v.data_.capacity_ k hts hcap hfit
    rw [← hveq] at h
    exact ⟨_, h, liveness_withElems _ _ (Nat.le_trans hcap (Nat.le_max_left _ _))⟩

/-- `Reserve(k)` for a `k` whose byte size is a value of `size_t`: for a vector holding
`s`, when no element operation throws on an element of `s`, the call returns normally,
the vector still holds `s` with the same size, and its capacity is
`max(old capacity, k)`: the whole state is unchanged when `k ≤ old capacity`, and the
capacity is exactly `k` when `k > old capacity`. -/
theorem Reserve_keeps_elements_of_fits (t : Traits α) (v : Vector α)
    (s : List α) (hv : v.Holds s) (k : Nat) (ht : t.NoThrowOn s)
    (hfit : v.Capacity < k → t.Fits k) :
    ∃ v1, Vector.Reserve t v k = .ok v1 () ∧ v1.Holds s ∧ v1.size_ = v.size_ ∧
      v1.Capacity = max v.Capacity k ∧ (k ≤ v.Capacity → v1 = v) ∧
      (v.Capacity < k → v1.Capacity = k) ∧ k ≤ v1.Capacity := by
  have h := Reserve_withElems t s v.data_.capacity_ k ht hv.size_le hfit
  rw [← hv.eq_withElems] at h
  have hle : s.length ≤ max v.data_.capacity_ k :=
    Nat.le_trans hv.size_le (Nat.le_max_left _ _)
  refine ⟨_, h, Vector.holds_withElems _ _ hle, hv.size_eq.symm, rfl, ?_, ?_, ?_⟩
  · intro hk
    have hk1 : k ≤ v.data_.capacity_ := hk
    rw [Nat.max_eq_left hk1]
    exact hv.eq_withElems.symm
  · intro hk
    have hk1 : v.data_.capacity_ < k := hk
    exact Nat.max_eq_right (Nat.le_of_lt hk1)
  · exact Nat.le_max_right _ _

/-- `Resize(n)` for an `n` whose byte size is a value of `size_t`: for a vector holding
`s`, when `T()` does not throw and no element operation throws on an element of `s`,
the call returns normally with size `n`; the first `min(old size, n)` elements are
unchanged; when `n > old size` the elements at the indices `[old size, n)` are
value-initialised and the capacity is `max(old capacity, n)`; when `n ≤ old size` the
capacity is unchanged. -/
theorem Resize_of_fits (t : Traits α) (v : Vector α) (s : List α)
    (hv : v.Holds s) (n : Nat) (hvi : t.valueInitThrows = false) (ht : t.NoThrowOn s)
    (hfit : v.Capacity < n → t.Fits n) :
    ∃ v1 s1, Vector.Resize t v n = .ok v1 () ∧ v1.Holds s1 ∧ v1.size_ = n ∧
      s1.take (min v.size_ n) = s.take (min v.size_ n) ∧
      (v.size_ < n → s1.drop v.size_ = List.replicate (n - v.size_) t.valueInit ∧
        v1.Capacity = max v.Capacity n) ∧
      (n ≤ v.size_ → v1.Capacity = v.Capacity) := by
  have h := Resize_withElems t s v.data_.capacity_ n hvi ht hv.size_le hfit
  rw [← hv.eq_withElems] at h
  have hsz := hv.size_eq
  have hcap := hv.size_le
  have hlen : (s.take n ++ List.replicate (n - s.length) t.valueInit).length = n := by
    simp only [List.length_append, List.length_take, List.length_replicate]
    omega
  have hle : (s.take n ++ List.replicate (n - s.length) t.valueInit).length
      ≤ (if n > s.length then max v.data_.capacity_ n else v.data_.capacity_) := by
    rw [hlen]
    split
    · exact Nat.le_max_right _ _
    · omega
  refine ⟨_, _, h, Vector.holds_withElems _ _ hle, hlen, ?_, ?_, ?_⟩
  · rw [hsz, List.take_append_of_le_length (by simp), List.take_take]
    congr 1
    omega
  · intro hn
    rw [hsz] at hn ⊢
    have ht1 : s.take n = s := List.take_of_length_le (by omega)
    refine ⟨by rw [ht1, List.drop_left], ?_⟩
    simp only [Vector.withElems, Vector.Capacity, RawMemory.Capacity, gt_iff_lt, hn, if_true]
  · intro hn
    rw [hsz] at hn
    have hn1 : ¬ (n > s.length) := by omega
    simp only [Vector.withElems, Vector.Capacity, RawMemory.Capacity, hn1, if_false]

end Lemmas

/-! ## The claims -/

section Claims

variable {α : Type}

/-- C1: for a vector holding the element sequence `s`, a position `i` with
`0 ≤ i ≤ size` and a value `x`, when no element operation fails (none throws on `x` or
on an element of `s`), `Emplace(begin + i, x)` and both overloads of `Insert` return
normally with the position `i`; the vector then holds `s[0..i) ++ [x] ++ s[i..size)`,
the slot at `i` is the new element, and the size is the old size plus 1. The statement
covers the three paths of the code; on the path `size == capacity` the byte size of the
doubled buffer is taken to be a value of `size_t`. -/
theorem C1_Emplace_inserts (t : Traits α) (v : Vector α) (s : List α)
    (hv : v.Holds s) (i : Nat) (hi : i ≤ v.size_) (x : α) (ht : t.NoThrowOn (x :: s))
    (hfit : v.size_ = v.Capacity → t.Fits (max 1 (2 * v.size_))) :
    ∃ v1, Vector.Emplace t v i x = .ok v1 i ∧ Vector.Insert t v i x = .ok v1 i ∧
      Vector.InsertRvalue t v i x = .ok v1 i ∧
      v1.Holds (s.take i ++ x :: s.drop i) ∧ v1.size_ = v.size_ + 1 ∧
      v1.data_.cells[i]? = some (some x) := by
  have hi1 : i ≤ s.length := hv.size_eq ▸ hi
  have hfit1 : s.length = v.data_.capacity_ → t.Fits (if s.length = 0 then 1 else s.length * 2) :=
    fun hfull => (hv.size_eq ▸ hfit (hv.size_eq ▸ hfull)).double
  have h := Emplace_withElems t s v.data_.capacity_ hv.size_le i hi1 x ht hfit1
  have hc := Emplace_withElems t.copyArg s v.data_.capacity_ hv.size_le i hi1 x ht.copyArg hfit1
  have hm := Emplace_withElems t.moveArg s v.data_.capacity_ hv.size_le i hi1 x ht.moveArg hfit1
  rw [← hv.eq_withElems] at h hc hm
  have hle : (s.take i ++ x :: s.drop i).length
      ≤ (if s.length = v.data_.capacity_ then (if s.length = 0 then 1 else s.length * 2)
          else v.data_.capacity_) := by
    have := hv.size_le
    simp only [List.length_append, List.length_take, List.length_cons, List.length_drop]
    split
    · split <;> omega
    · omega
  have hh := Vector.holds_withElems _ _ hle
  refine ⟨_, h, hc, hm, hh, ?_, ?_⟩
  · simp only [Vector.withElems, List.length_append, List.length_take, List.length_cons,
      List.length_drop, hv.size_eq]
    omega
  · rw [hh.cells_eq]
    have := getElem?_mid ((s.take i).map some) (some x)
      ((s.drop i).map some ++ List.replicate ((Vector.withElems (s.take i ++ x :: s.drop i)
        (if s.length = v.data_.capacity_ then (if s.length = 0 then 1 else s.length * 2)
          else v.data_.capacity_)).data_.capacity_ - (s.take i ++ x :: s.drop i).length) none)
    simpa [hi1] using this

/-- Witness of C1 on the example of the specification: `emplace_at(begin(), 9)` on
`[1, 3]` with capacity 4. -/
theorem C1_Emplace_inserts_witness :
    (Vector.withElems [1, 3] 4).Holds [1, 3] ∧ plainTraits.NoThrowOn [9, 1, 3] ∧
    ((Vector.withElems [1, 3] 4).size_ = (Vector.withElems [1, 3] 4).Capacity →
      plainTraits.Fits (max 1 (2 * (Vector.withElems [1, 3] 4).size_))) ∧
    ∃ v1, Vector.Emplace plainTraits (Vector.withElems [1, 3] 4) 0 9 = .ok v1 0 ∧
      Vector.Insert plainTraits (Vector.withElems [1, 3] 4) 0 9 = .ok v1 0 ∧
      Vector.InsertRvalue plainTraits (Vector.withElems [1, 3] 4) 0 9 = .ok v1 0 ∧
      v1.Holds [9, 1, 3] ∧ v1.size_ = 3 ∧ v1.data_.cells[0]? = some (some 9) :=
  ⟨by decide, by decide, by decide,
    C1_Emplace_inserts plainTraits (Vector.withElems [1, 3] 4) [1, 3]
      (by decide) 0 (Nat.zero_le _) 9
      (by decide) (by decide)⟩

/-- C2: for a vector holding `s` and a position `i` with `0 ≤ i < size`, when no
move-assignment fails (none throws on an element of `s`), `Erase(begin + i)` returns
normally with the position `i`; the
vector then holds `s` without its element at index `i` (the others in order), its size
is the old size minus 1 and its capacity is unchanged. -/
theorem C2_Erase_removes (t : Traits α) (v : Vector α) (s : List α)
    (hv : v.Holds s) (i : Nat) (hi : i < v.size_)
    (hma : ∀ z ∈ s, t.moveAssignThrows z = false) :
    ∃ v1, Vector.Erase t v i = .ok v1 i ∧ v1.Holds (s.eraseIdx i) ∧
      s.eraseIdx i = s.take i ++ s.drop (i + 1) ∧
      v1.size_ = v.size_ - 1 ∧ v1.Capacity = v.Capacity := by
  have hi1 : i < s.length := hv.size_eq ▸ hi
  have hcap := hv.size_le
  have hsz := hv.size_eq
  have hveq := hv.eq_withElems
  obtain ⟨a, y, b, rfl, rfl⟩ := split_at_lt s i hi1
  have h := Erase_withElems t a b y v.data_.capacity_
    (fun z hz => hma z (by simp [hz])) hcap
  rw [← hveq] at h
  simp only [List.length_append, List.length_cons] at hcap hsz
  have hh := Vector.holds_withElems (a ++ b) v.data_.capacity_
    (by simp only [List.length_append]; omega)
  refine ⟨_, h, by rw [eraseIdx_mid]; exact hh, ?_, ?_, rfl⟩
  · rw [eraseIdx_mid]; simp
  · simp only [Vector.withElems, List.length_append, hsz]
    omega

/-- Witness of C2 on the example of the specification: `erase(begin() + 1)` on
`[1, 2, 3]` with capacity 4. -/
theorem C2_Erase_removes_witness :
    (Vector.withElems [1, 2, 3] 4).Holds [1, 2, 3] ∧
    (∀ z ∈ [1, 2, 3], plainTraits.moveAssignThrows z = false) ∧
    ∃ v1, Vector.Erase plainTraits (Vector.withElems [1, 2, 3] 4) 1 = .ok v1 1 ∧
      v1.Holds [1, 3] ∧ [1, 3] = [1] ++ [3] ∧ v1.size_ = 2 ∧ v1.Capacity = 4 :=
  ⟨by decide, fun _ _ => rfl,
    C2_Erase_removes plainTraits (Vector.withElems [1, 2, 3] 4) [1, 2, 3]
      (by decide) 1 (by decide) (fun _ _ => rfl)⟩

/-- C3: for every finite sequence of `PushBack(x)` and `PopBack()` calls on an
initially empty vector in which no `PopBack` meets an empty container, when no element
operation fails (none throws on a pushed value), the run returns normally, the final `Size()` is the number of pushes
minus the number of pops, and the final element sequence is the one the same calls
give on a plain list (append at the end, drop the last element). The byte size of
twice as many elements as are pushed is taken to be a value of `size_t`, so that no
doubling of the buffer wraps. -/
theorem C3_PushBack_PopBack_sequence (t : Traits α) (ops : List (Op α))
    (hp : popsAllowed 0 ops = true) (ht : t.NoThrowOn (pushed ops))
    (hfit : t.Fits (2 * pushes ops)) :
    ∃ v, runOps t {} ops = .ok v () ∧ v.Holds (applyOps [] ops) ∧
      pops ops ≤ pushes ops ∧ v.Size = pushes ops - pops ops := by
  obtain ⟨cap1, h1, h2, h3⟩ := runOps_withElems t ops [] 0 (Nat.le_refl _) hp ht
    (by simpa using hfit)
  have h0 : ({} : Vector α) = Vector.withElems [] 0 := rfl
  refine ⟨_, h0 ▸ h1, Vector.holds_withElems _ _ h2, ?_, ?_⟩
  · simp only [List.length_nil] at h3
    omega
  · simp only [Vector.Size, Vector.withElems]
    simp only [List.length_nil] at h3
    omega

/-- Witness of C3 on the calls `PushBack(1), PushBack(2), PopBack(), PushBack(3)`. -/
theorem C3_PushBack_PopBack_sequence_witness :
    popsAllowed 0 [Op.push 1, Op.push 2, Op.pop, Op.push 3] = true ∧
    plainTraits.NoThrowOn (pushed [Op.push 1, Op.push 2, Op.pop, Op.push 3]) ∧
    plainTraits.Fits (2 * pushes [Op.push 1, Op.push 2, Op.pop, Op.push 3]) ∧
    ∃ v, runOps plainTraits {} [Op.push 1, Op.push 2, Op.pop, Op.push 3] = .ok v () ∧
      v.Holds [1, 3] ∧ 1 ≤ 3 ∧ v.Size = 2 :=
  ⟨rfl, by decide, by decide,
    C3_PushBack_PopBack_sequence plainTraits
      [Op.push 1, Op.push 2, Op.pop, Op.push 3] rfl (by decide) (by decide)⟩

/-- C4: the code at the failing input. The element type has 4 bytes and
`k = 2 ^ 62 + 1`. `Allocate(k)` asks `operator new` for `k * 4` bytes computed in
`size_t`, which is 4 bytes, so the block has one slot. `Reserve(k)` on the vector
`[1, 2]` of capacity 2 relocates the second element past the end of that block
(undefined behaviour) instead of returning with capacity `k` and the elements `[1, 2]`;
on an empty vector it returns with `capacity_ = k` over the block of one slot, which is
not a state of the data model. -/
theorem C4_Reserve_block_too_small :
    (Vector.withElems [1, 2] 2).Holds [1, 2] ∧ plainTraits.NoThrowOn [1, 2] ∧
    plainTraits.sizeOf = 4 ∧ 4611686018427387905 = 2 ^ 62 + 1 ∧
    4611686018427387905 < sizeModulus ∧
    4611686018427387905 * plainTraits.sizeOf % sizeModulus = 4 ∧
    RawMemory.Allocate plainTraits 4611686018427387905 = some [none] ∧
    Vector.Reserve plainTraits (Vector.withElems [1, 2] 2) 4611686018427387905 = .undefined ∧
    ∃ v1, Vector.Reserve plainTraits {} 4611686018427387905 = .ok v1 () ∧
      v1.Capacity = 4611686018427387905 ∧ v1.data_.cells = [none] ∧ ¬ v1.Holds [] :=
  ⟨by decide, by decide, rfl, by decide, by decide, by decide, by decide, by decide,
    ⟨⟨some [none], 4611686018427387905⟩, 0⟩, by decide, rfl, rfl,
    fun h => by
      have hlen := congrArg List.length h.cells_eq
      simp only [RawMemory.cells, Option.getD_some, List.length_append, List.length_replicate,
        List.length_map, List.length_cons, List.length_nil] at hlen
      omega⟩

/-- C5: for a vector holding `s` and a valid position `i`, when no element operation
fails (none throws on the values involved), `Emplace`, `Insert` and (at the end)
`PushBack` return normally and the capacity
afterwards is `max(1, 2 * old capacity)` when the old size equals the old capacity, and
the old capacity otherwise; three pushes onto an empty vector give the capacities
0, 1, 2, 4. When the buffer is doubled, the byte size of the doubled buffer is taken to
be a value of `size_t`. -/
theorem C5_growth_doubles (t : Traits α) (v : Vector α) (s : List α)
    (hv : v.Holds s) (i : Nat) (hi : i ≤ v.size_) (x : α) (ht : t.NoThrowOn (x :: s))
    (hfit : v.size_ = v.Capacity → t.Fits (max 1 (2 * v.size_))) :
    (∃ v1, Vector.Emplace t v i x = .ok v1 i ∧ Vector.Insert t v i x = .ok v1 i ∧
      Vector.InsertRvalue t v i x = .ok v1 i ∧
      v1.Capacity = if v.size_ = v.Capacity then max 1 (2 * v.Capacity) else v.Capacity) ∧
    (∃ v1, Vector.PushBack t v x = .ok v1 () ∧ Vector.PushBackRvalue t v x = .ok v1 () ∧
      v1.Capacity = if v.size_ = v.Capacity then max 1 (2 * v.Capacity) else v.Capacity) ∧
    (∀ x1 x2 x3 : α, t.NoThrowOn [x1, x2, x3] → t.Fits 4 →
      ∃ v1 v2 v3, ({} : Vector α).Capacity = 0 ∧
      Vector.PushBack t {} x1 = .ok v1 () ∧ v1.Capacity = 1 ∧
      Vector.PushBack t v1 x2 = .ok v2 () ∧ v2.Capacity = 2 ∧
      Vector.PushBack t v2 x3 = .ok v3 () ∧ v3.Capacity = 4) := by
  have hi1 : i ≤ s.length := hv.size_eq ▸ hi
  have hcapeq : (if s.length = v.data_.capacity_ then (if s.length = 0 then 1 else s.length * 2)
      else v.data_.capacity_)
      = if v.size_ = v.Capacity then max 1 (2 * v.Capacity) else v.Capacity := by
    simp only [Vector.Capacity, RawMemory.Capacity, hv.size_eq]
    split
    · rename_i h
      rw [← h]
      split <;> omega
    · rfl
  have hfit1 : s.length = v.data_.capacity_ → t.Fits (if s.length = 0 then 1 else s.length * 2) :=
    fun hfull => (hv.size_eq ▸ hfit (hv.size_eq ▸ hfull)).double
  have h := Emplace_withElems t s v.data_.capacity_ hv.size_le i hi1 x ht hfit1
  have hc := Emplace_withElems t.copyArg s v.data_.capacity_ hv.size_le i hi1 x ht.copyArg hfit1
  have hm := Emplace_withElems t.moveArg s v.data_.capacity_ hv.size_le i hi1 x ht.moveArg hfit1
  have hp := PushBack_withElems t s v.data_.capacity_ hv.size_le x ht hfit1
  have hpr := PushBackRvalue_withElems t s v.data_.capacity_ hv.size_le x ht hfit1
  rw [← hv.eq_withElems] at h hc hm hp hpr
  refine ⟨⟨_, h, hc, hm, hcapeq⟩, ⟨_, hp, hpr, hcapeq⟩, ?_⟩
  intro x1 x2 x3 h3 hf4
  have h0 : ({} : Vector α) = Vector.withElems [] 0 := rfl
  have p1 := PushBack_withElems t [] 0 (Nat.le_refl _) x1
    (h3.mono (fun z hz => by simp at hz; simp [hz])) (fun _ => hf4.of_le (by simp))
  have p2 := PushBack_withElems t [x1] 1 (Nat.le_refl _) x2
    (h3.mono (fun z hz => by simp at hz; rcases hz with rfl | rfl <;> simp))
    (fun _ => hf4.of_le (by simp))
  have p3 := PushBack_withElems t [x1, x2] 2 (Nat.le_refl _) x3
    (h3.mono (fun z hz => by simp at hz; rcases hz with rfl | rfl | rfl <;> simp))
    (fun _ => hf4.of_le (by simp))
  exact ⟨Vector.withElems [x1] 1, Vector.withElems [x1, x2] 2, Vector.withElems [x1, x2, x3] 4,
    rfl, h0 ▸ p1, rfl, p2, rfl, p3, rfl⟩

/-- Witness of C5: `Emplace(begin() + 1, 9)` and `PushBack(9)` on the full vector
`[1, 2]` of capacity 2. -/
theorem C5_growth_doubles_witness :
    (Vector.withElems [1, 2] 2).Holds [1, 2] ∧ plainTraits.NoThrowOn [9, 1, 2] ∧
    ((Vector.withElems [1, 2] 2).size_ = (Vector.withElems [1, 2] 2).Capacity →
      plainTraits.Fits (max 1 (2 * (Vector.withElems [1, 2] 2).size_))) ∧
    (∃ v1, Vector.Emplace plainTraits (Vector.withElems [1, 2] 2) 1 9 = .ok v1 1 ∧
      Vector.Insert plainTraits (Vector.withElems [1, 2] 2) 1 9 = .ok v1 1 ∧
      Vector.InsertRvalue plainTraits (Vector.withElems [1, 2] 2) 1 9 = .ok v1 1 ∧
      v1.Capacity = 4) ∧
    (∃ v1, Vector.PushBack plainTraits (Vector.withElems [1, 2] 2) 9 = .ok v1 () ∧
      Vector.PushBackRvalue plainTraits (Vector.withElems [1, 2] 2) 9 = .ok v1 () ∧
      v1.Capacity = 4) ∧
    (∀ x1 x2 x3 : Nat, plainTraits.NoThrowOn [x1, x2, x3] → plainTraits.Fits 4 →
      ∃ v1 v2 v3, ({} : Vector Nat).Capacity = 0 ∧
      Vector.PushBack plainTraits {} x1 = .ok v1 () ∧ v1.Capacity = 1 ∧
      Vector.PushBack plainTraits v1 x2 = .ok v2 () ∧ v2.Capacity = 2 ∧
      Vector.PushBack plainTraits v2 x3 = .ok v3 () ∧ v3.Capacity = 4) :=
  ⟨by decide, by decide, by decide,
    C5_growth_doubles plainTraits (Vector.withElems [1, 2] 2) [1, 2]
      (by decide) 1 (by decide) 9 (by decide) (by decide)⟩

/-- C6: the code at the failing input. Copy assignment of the source `[7, 8]` into
the destination `[1]` of capacity 2 (the branch `dst.size ≤ src.size ≤ dst.capacity`)
returns with size 2, the value 8 in slot 0 and slot 1 raw: the destination does not
hold `[7, 8]`, because line 232 copy-constructs the extra elements at `data_` instead
of `data_ + Size()`. -/
theorem C6_copyAssign_extra_elements_misplaced :
    (Vector.withElems [1] 2).Holds [1] ∧ (Vector.withElems [7, 8] 2).Holds [7, 8] ∧
    ∃ v1, Vector.copyAssign plainTraits (Vector.withElems [1] 2) (Vector.withElems [7, 8] 2)
        = .ok v1 () ∧
      v1.size_ = 2 ∧ v1.data_.cells = [some 8, none] ∧ ¬ v1.Holds [7, 8] :=
  ⟨by decide, by decide, ⟨⟨some [some 8, none], 2⟩, 2⟩, by decide, rfl, rfl, by decide⟩

/-- C7: for every vector `src` (and every other vector `dst`), move construction from
`src` and move assignment `dst = std::move(src)` give a vector whose slots, size and
capacity are those `src` had, and leave `src` with size 0. -/
theorem C7_move_transfers (src dst : Vector α) :
    (Vector.moveConstruct src).1 = src ∧
    (Vector.moveConstruct src).1.data_.cells = src.data_.cells ∧
    (Vector.moveConstruct src).1.Size = src.Size ∧
    (Vector.moveConstruct src).1.Capacity = src.Capacity ∧
    (Vector.moveConstruct src).2.Size = 0 ∧
    (Vector.moveAssign dst src).1 = src ∧
    (Vector.moveAssign dst src).1.data_.cells = src.data_.cells ∧
    (Vector.moveAssign dst src).1.Size = src.Size ∧
    (Vector.moveAssign dst src).1.Capacity = src.Capacity ∧
    (Vector.moveAssign dst src).2.Size = 0 :=
  ⟨rfl, rfl, rfl, rfl, rfl, rfl, rfl, rfl, rfl, rfl⟩

/-- C8: the code at the failing input, the defect of C4 reached through `Resize`. The
element type has 4 bytes and `n = 2 ^ 62 + 1`: `Resize(n)` calls `Reserve(n)`, whose
block has one slot. On the vector `[1, 2]` of capacity 2 the relocation runs past the
block; on an empty vector `Reserve(n)` returns and the value-initialisation of the
slots `[0, n)` runs past the block. Both calls are undefined behaviour instead of
returning with size `n`. -/
theorem C8_Resize_block_too_small :
    (Vector.withElems [1, 2] 2).Holds [1, 2] ∧ ({} : Vector Nat).Holds [] ∧
    plainTraits.NoThrowOn [1, 2] ∧ plainTraits.valueInitThrows = false ∧
    plainTraits.sizeOf = 4 ∧ 4611686018427387905 = 2 ^ 62 + 1 ∧
    4611686018427387905 < sizeModulus ∧
    RawMemory.Allocate plainTraits 4611686018427387905 = some [none] ∧
    Vector.Resize plainTraits (Vector.withElems [1, 2] 2) 4611686018427387905 = .undefined ∧
    Vector.Resize plainTraits {} 4611686018427387905 = .undefined :=
  ⟨by decide, by decide, by decide, rfl, rfl, by decide, by decide, by decide, by decide,
    by decide⟩

/-- C10: the code at the failing input. The element type is relocated by copy and its
copy constructor throws on the value 13. `Emplace(begin() + 1, 9)` on the full vector
`[5, 13]` fails while relocating the second part. The exception reaches the caller with
the vector reporting size 2 and capacity 2 but with both of its slots destroyed (line
168 destroys the elements of `data_`), and the element 5 already relocated into the new
buffer is still constructed when that buffer is released. -/
theorem C10_Emplace_failure_destroys_original :
    (Vector.withElems [5, 13] 2).Holds [5, 13] ∧
    (Vector.withElems [5, 13] 2).size_ = (Vector.withElems [5, 13] 2).Capacity ∧
    throwingCopy.relocatesByMove = false ∧ throwingCopy.copyThrows 13 = true ∧
    ∃ v1 buf, Vector.Emplace throwingCopy (Vector.withElems [5, 13] 2) 1 9 = .throws v1 buf ∧
      v1.size_ = 2 ∧ v1.Capacity = 2 ∧ v1.data_.cells = [none, none] ∧
      buf = [some 5, none, none, none] ∧ ¬ v1.Holds [5, 13] :=
  ⟨by decide, rfl, rfl, rfl, ⟨⟨some [none, none], 2⟩, 2⟩, [some 5, none, none, none],
    by decide, rfl, rfl, rfl, rfl, by decide⟩

/-- C11: for a destination holding `d` and a source holding `s` with
`src.size ≤ dst.capacity`, the copy assignment does not reallocate. Whenever it returns,
normally or by an exception of an element operation, the capacity of `dst` is the one
before and its `RawMemory` member is the one before with its slots rewritten in place
(same block, null exactly when it was null); and it does return normally when no copy
construction or copy assignment throws on an element of `s`. -/
theorem C11_copyAssign_keeps_capacity (t : Traits α) (dst src : Vector α) (d s : List α)
    (hd : dst.Holds d) (hs : src.Holds s) (hle : src.size_ ≤ dst.Capacity) :
    (∀ v1 r, Vector.copyAssign t dst src = .ok v1 r →
      v1.Capacity = dst.Capacity ∧ (∃ buf, v1.data_ = dst.data_.store buf) ∧
      (v1.data_.buffer_ = none ↔ dst.data_.buffer_ = none)) ∧
    (∀ v1 b, Vector.copyAssign t dst src = .throws v1 b → v1.Capacity = dst.Capacity) ∧
    ((∀ z ∈ s, t.copyThrows z = false) → (∀ z ∈ s, t.copyAssignThrows z = false) →
      ∃ v1, Vector.copyAssign t dst src = .ok v1 ()) := by
  have hngt : ¬ (src.size_ > dst.Capacity) := Nat.not_lt.mpr hle
  refine ⟨?_, ?_, ?_⟩
  · intro v1 r h
    have hsh := copyAssign_ok_shape t dst src v1 r h
    obtain ⟨buf, hbuf⟩ := hsh.2.2 hle
    refine ⟨?_, ⟨buf, hbuf⟩, ?_⟩
    · rw [hsh.2.1, if_neg hngt]
    · rw [hbuf]
      cases hb : dst.data_.buffer_ <;> simp [RawMemory.store, hb]
  · intro v1 b h
    exact (copyAssign_throws_shape t dst src v1 b h).2.1
  · intro hc hca
    have hle1 : s.length ≤ dst.data_.capacity_ := hs.size_eq ▸ hle
    obtain ⟨v1, h⟩ := copyAssign_in_place_ok t d s dst.data_.capacity_ src.data_.capacity_
      hd.size_le hs.size_le hle1 hc hca
    rw [← hd.eq_withElems, ← hs.eq_withElems] at h
    exact ⟨v1, h⟩

/-- Witness of C11: the source `[7, 8]` assigned into the destination `[1, 2, 3]` of
capacity 4. -/
theorem C11_copyAssign_keeps_capacity_witness :
    (Vector.withElems [1, 2, 3] 4).Holds [1, 2, 3] ∧ (Vector.withElems [7, 8] 2).Holds [7, 8] ∧
    (Vector.withElems [7, 8] 2).size_ ≤ (Vector.withElems [1, 2, 3] 4).Capacity ∧
    Vector.copyAssign plainTraits (Vector.withElems [1, 2, 3] 4) (Vector.withElems [7, 8] 2)
      = .ok (Vector.withElems [7, 8] 4) () ∧
    ((Vector.withElems [7, 8] 4).Capacity = (Vector.withElems [1, 2, 3] 4).Capacity ∧
      (∃ buf, (Vector.withElems [7, 8] 4).data_
        = (Vector.withElems [1, 2, 3] 4).data_.store buf) ∧
      ((Vector.withElems [7, 8] 4).data_.buffer_ = none
        ↔ (Vector.withElems [1, 2, 3] 4).data_.buffer_ = none)) ∧
    ∃ v1, Vector.copyAssign plainTraits (Vector.withElems [1, 2, 3] 4)
      (Vector.withElems [7, 8] 2) = .ok v1 () :=
  have h := C11_copyAssign_keeps_capacity plainTraits (Vector.withElems [1, 2, 3] 4)
    (Vector.withElems [7, 8] 2) [1, 2, 3] [7, 8] (by decide) (by decide) (by decide)
  ⟨by decide, by decide, by decide, by decide,
    h.1 (Vector.withElems [7, 8] 4) () (by decide),
    h.2.2 (fun _ _ => rfl) (fun _ _ => rfl)⟩

/-- C12: capacity only grows. For every vector, whenever a call of `PushBack`,
`EmplaceBack`, `Emplace`, `Insert`, `PopBack`, `Erase`, `Resize`, `Reserve` or of the
copy assignment returns normally, the capacity after the call is at least the capacity
before it; `Insert` and `PushBack` in both of their overloads. -/
theorem C12_capacity_only_grows (t : Traits α) (v : Vector α) :
    (∀ x v1 r, Vector.PushBack t v x = .ok v1 r → v.Capacity ≤ v1.Capacity) ∧
    (∀ x v1 r, Vector.EmplaceBack t v x = .ok v1 r → v.Capacity ≤ v1.Capacity) ∧
    (∀ pos x v1 r, Vector.Emplace t v pos x = .ok v1 r → v.Capacity ≤ v1.Capacity) ∧
    (∀ pos x v1 r, Vector.Insert t v pos x = .ok v1 r → v.Capacity ≤ v1.Capacity) ∧
    (∀ v1 r, Vector.PopBack v = .ok v1 r → v.Capacity ≤ v1.Capacity) ∧
    (∀ pos v1 r, Vector.Erase t v pos = .ok v1 r → v.Capacity ≤ v1.Capacity) ∧
    (∀ n v1 r, Vector.Resize t v n = .ok v1 r → v.Capacity ≤ v1.Capacity) ∧
    (∀ k v1 r, Vector.Reserve t v k = .ok v1 r → v.Capacity ≤ v1.Capacity) ∧
    (∀ rhs v1 r, Vector.copyAssign t v rhs = .ok v1 r → v.Capacity ≤ v1.Capacity) ∧
    (∀ pos x v1 r, Vector.InsertRvalue t v pos x = .ok v1 r → v.Capacity ≤ v1.Capacity) ∧
    (∀ x v1 r, Vector.PushBackRvalue t v x = .ok v1 r → v.Capacity ≤ v1.Capacity) := by
  have hem : ∀ (t1 : Traits α) pos x v1 r, Vector.Emplace t1 v pos x = .ok v1 r →
      v.Capacity ≤ v1.Capacity := by
    intro t1 pos x v1 r h
    have hs := (Emplace_ok_shape t1 v pos x v1 r h).2.2.2
    rw [hs]
    split
    · rename_i hfull
      exact grow_ge _ _ hfull
    · exact Nat.le_refl _
  refine ⟨?_, ?_, hem t, hem t.copyArg, ?_, ?_, ?_, ?_, ?_, hem t.moveArg, ?_⟩
  · intro x v1 r h
    have hs := (PushBack_ok_shape t v x v1 r h).2
    rw [hs]
    split
    · rename_i hfull
      exact grow_ge _ _ hfull
    · exact Nat.le_refl _
  · intro x v1 r h
    exact hem t _ x v1 r h
  · intro v1 r h
    exact Nat.le_of_eq (PopBack_ok_shape v v1 r h).2.2.symm
  · intro pos v1 r h
    exact Nat.le_of_eq (Erase_ok_shape t v pos v1 r h).2.2.2.2.symm
  · intro n v1 r h
    rw [(Resize_ok_shape t v n v1 r h).2]
    split
    · exact Nat.le_max_left _ _
    · exact Nat.le_refl _
  · intro k v1 r h
    rw [(Reserve_ok_shape t v k v1 r h).2]
    exact Nat.le_max_left _ _
  · intro rhs v1 r h
    rw [(copyAssign_ok_shape t v rhs v1 r h).2.1]
    split
    · rename_i hgt
      exact Nat.le_of_lt hgt
    · exact Nat.le_refl _
  · intro x v1 r h
    have hs := (PushBackRvalue_ok_shape t v x v1 r h).2
    rw [hs]
    split
    · rename_i hfull
      exact grow_ge _ _ hfull
    · exact Nat.le_refl _

/-- Witness of C12 on the full vector `[1, 2]` of capacity 2: `PushBack(9)` and
`Emplace(begin() + 1, 9)` return with capacity 4, `PopBack()` and `Erase(begin())` with
capacity 2, `Resize(5)` and `Reserve(5)` with capacity 5, and the copy assignment of
`[7, 8, 9]` with capacity 3. -/
theorem C12_capacity_only_grows_witness :
    (Vector.PushBack plainTraits (Vector.withElems [1, 2] 2) 9
        = .ok (Vector.withElems [1, 2, 9] 4) () ∧
      (Vector.withElems [1, 2] 2).Capacity ≤ (Vector.withElems [1, 2, 9] 4).Capacity) ∧
    (Vector.Emplace plainTraits (Vector.withElems [1, 2] 2) 1 9
        = .ok (Vector.withElems [1, 9, 2] 4) 1 ∧
      (Vector.withElems [1, 2] 2).Capacity ≤ (Vector.withElems [1, 9, 2] 4).Capacity) ∧
    (Vector.PopBack (Vector.withElems [1, 2] 2) = .ok (Vector.withElems [1] 2) () ∧
      (Vector.withElems [1, 2] 2).Capacity ≤ (Vector.withElems [1] 2).Capacity) ∧
    (Vector.Erase plainTraits (Vector.withElems [1, 2] 2) 0 = .ok (Vector.withElems [2] 2) 0 ∧
      (Vector.withElems [1, 2] 2).Capacity ≤ (Vector.withElems [2] 2).Capacity) ∧
    (Vector.Resize plainTraits (Vector.withElems [1, 2] 2) 5
        = .ok (Vector.withElems [1, 2, 0, 0, 0] 5) () ∧
      (Vector.withElems [1, 2] 2).Capacity ≤ (Vector.withElems [1, 2, 0, 0, 0] 5).Capacity) ∧
    (Vector.Reserve plainTraits (Vector.withElems [1, 2] 2) 5
        = .ok (Vector.withElems [1, 2] 5) () ∧
      (Vector.withElems [1, 2] 2).Capacity ≤ (Vector.withElems [1, 2] 5).Capacity) ∧
    (Vector.copyAssign plainTraits (Vector.withElems [1, 2] 2) (Vector.withElems [7, 8, 9] 3)
        = .ok (Vector.withElems [7, 8, 9] 3) () ∧
      (Vector.withElems [1, 2] 2).Capacity ≤ (Vector.withElems [7, 8, 9] 3).Capacity) :=
  have h := C12_capacity_only_grows plainTraits (Vector.withElems [1, 2] 2)
  ⟨⟨by decide, h.1 9 (Vector.withElems [1, 2, 9] 4) () (by decide)⟩,
    ⟨by decide, h.2.2.1 1 9 (Vector.withElems [1, 9, 2] 4) 1 (by decide)⟩,
    ⟨by decide, h.2.2.2.2.1 (Vector.withElems [1] 2) () (by decide)⟩,
    ⟨by decide, h.2.2.2.2.2.1 0 (Vector.withElems [2] 2) 0 (by decide)⟩,
    ⟨by decide, h.2.2.2.2.2.2.1 5 (Vector.withElems [1, 2, 0, 0, 0] 5) () (by decide)⟩,
    ⟨by decide, h.2.2.2.2.2.2.2.1 5 (Vector.withElems [1, 2] 5) () (by decide)⟩,
    ⟨by decide, h.2.2.2.2.2.2.2.2.1 (Vector.withElems [7, 8, 9] 3)
      (Vector.withElems [7, 8, 9] 3) () (by decide)⟩⟩

/-- C13, counterexample: the element type's move assignment throws on the value 13.
`Erase(begin())` on `[1, 13, 3]` (position 0 < size - 1) fails in the first step of
the left shift: the exception reaches the caller, `PopBack` is not reached, the vector
is as before and its size is 3, not 2. -/
theorem C13_counterexample_size_kept :
    (Vector.withElems [1, 13, 3] 4).Holds [1, 13, 3] ∧
    throwingMoveAssign.moveAssignThrows 13 = true ∧
    ∃ v1, Vector.Erase throwingMoveAssign (Vector.withElems [1, 13, 3] 4) 0 = .throws v1 [] ∧
      v1 = Vector.withElems [1, 13, 3] 4 ∧ v1.size_ = 3 ∧
      v1.size_ ≠ (Vector.withElems [1, 13, 3] 4).size_ - 1 :=
  ⟨by decide, rfl, Vector.withElems [1, 13, 3] 4, by decide, rfl, rfl, by decide⟩

/-- C13, amended: for a vector holding `s = a ++ y :: (xs ++ z :: rest)` and the
position `i = |a|` (so `0 ≤ i < size - 1`), if during the left shift of
`Erase(begin + i)` the move assignment from `z` is the first to fail, the exception
reaches the caller and `PopBack` is not reached: the size after the failed call is the
old size, the capacity is unchanged, no slot is destroyed, and the vector holds
`a ++ xs ++ [w] ++ z :: rest`, where `w` is the moved-from last element of `xs` (or `y`
when `xs` is empty). -/
theorem C13_Erase_failure_keeps_size (t : Traits α) (v : Vector α) (s : List α)
    (hv : v.Holds s) (a xs rest : List α) (y z : α) (hs : s = a ++ y :: (xs ++ z :: rest))
    (hxs : ∀ x ∈ xs, t.moveAssignThrows x = false) (hz : t.moveAssignThrows z = true) :
    ∃ v1, Vector.Erase t v a.length = .throws v1 [] ∧ v1.size_ = v.size_ ∧
      v1.Capacity = v.Capacity ∧
      v1.Holds (a ++ (xs ++ (xs.getLast?.map t.movedFrom).getD y :: z :: rest)) := by
  subst hs
  have h := Erase_raised t a xs rest y z v.data_.capacity_ hxs hz hv.size_le
  rw [← hv.eq_withElems] at h
  have hlen : (a ++ (xs ++ (xs.getLast?.map t.movedFrom).getD y :: z :: rest)).length
      = (a ++ y :: (xs ++ z :: rest)).length := by
    simp only [List.length_append, List.length_cons]
    omega
  refine ⟨_, h, ?_, rfl, Vector.holds_withElems _ _ (hlen ▸ hv.size_le)⟩
  simp only [Vector.withElems, hlen, hv.size_eq]

/-- Witness of the amended C13: `Erase(begin())` on `[1, 2, 13, 4]` with a move
assignment that throws on 13. -/
theorem C13_Erase_failure_keeps_size_witness :
    (Vector.withElems [1, 2, 13, 4] 4).Holds [1, 2, 13, 4] ∧
    (∀ x ∈ [2], throwingMoveAssign.moveAssignThrows x = false) ∧
    throwingMoveAssign.moveAssignThrows 13 = true ∧
    ∃ v1, Vector.Erase throwingMoveAssign (Vector.withElems [1, 2, 13, 4] 4) 0
        = .throws v1 [] ∧ v1.size_ = 4 ∧ v1.Capacity = 4 ∧ v1.Holds [2, 2, 13, 4] :=
  ⟨by decide, by decide, rfl,
    C13_Erase_failure_keeps_size throwingMoveAssign (Vector.withElems [1, 2, 13, 4] 4)
      [1, 2, 13, 4] (by decide) [] [2] [4] 1 13 rfl (by decide) rfl⟩

/-- C14, counterexample: after `dst = std::move(src)` with `dst = [1, 2, 3]` of
capacity 4 and `src = [7, 8]`, the source has size 0 but capacity 4 and a non-null
buffer, the one `dst` held before. -/
theorem C14_counterexample_source_keeps_buffer :
    (Vector.moveAssign (Vector.withElems [1, 2, 3] 4) (Vector.withElems [7, 8] 2)).2.size_ = 0 ∧
    (Vector.moveAssign (Vector.withElems [1, 2, 3] 4) (Vector.withElems [7, 8] 2)).2.Capacity
      = 4 ∧
    (Vector.moveAssign (Vector.withElems [1, 2, 3] 4) (Vector.withElems [7, 8] 2)).2.data_.buffer_
      ≠ none ∧
    (Vector.moveConstruct (Vector.withElems [7, 8] 2)).2.data_ = ⟨none, 0⟩ :=
  ⟨rfl, rfl, by decide, rfl⟩

/-- C14, amended: after the move assignment `dst = std::move(src)`, whatever `dst` held
before, `src` has size 0 and has given its buffer to `dst`, and `src` owns the buffer
`dst` held before: the capacity and the buffer address of `src` are the former ones of
`dst`, hence 0 and null exactly when `dst` had no buffer. -/
theorem C14_moveAssign_source_state (dst src : Vector α) :
    (Vector.moveAssign dst src).2.size_ = 0 ∧
    (Vector.moveAssign dst src).1.data_ = src.data_ ∧
    (Vector.moveAssign dst src).2.data_ = dst.data_ ∧
    (Vector.moveAssign dst src).2.Capacity = dst.Capacity ∧
    ((Vector.moveAssign dst src).2.data_.buffer_ = none ↔ dst.data_.buffer_ = none) ∧
    ((Vector.moveAssign dst src).2.Capacity = 0 ↔ dst.Capacity = 0) :=
  ⟨rfl, rfl, rfl, rfl, Iff.rfl, Iff.rfl⟩

/-- C16: the code at two failing inputs. The move assignment `dst = std::move(src)`
with `dst = [1, 2, 3]` leaves `src` with size 0 while the slots 0, 1, 2 of its buffer
still hold the constructed former elements of `dst`; the copy assignment of `[7, 8]`
into `[1]` of capacity 2 returns with size 2 and slot 1 raw. Both calls start from
vectors that satisfy the slot-liveness invariant and both return normally. -/
theorem C16_liveness_broken_by_assignments :
    (Vector.withElems [1, 2, 3] 4).Liveness ∧ (Vector.withElems [7, 8] 2).Liveness ∧
    (Vector.moveAssign (Vector.withElems [1, 2, 3] 4) (Vector.withElems [7, 8] 2)).2.size_ = 0 ∧
    (Vector.moveAssign (Vector.withElems [1, 2, 3] 4) (Vector.withElems [7, 8] 2)).2.data_.cells
      = [some 1, some 2, some 3, none] ∧
    ¬ (Vector.moveAssign (Vector.withElems [1, 2, 3] 4) (Vector.withElems [7, 8] 2)).2.Liveness ∧
    (Vector.withElems [1] 2).Liveness ∧
    ∃ v1, Vector.copyAssign plainTraits (Vector.withElems [1] 2) (Vector.withElems [7, 8] 2)
        = .ok v1 () ∧ v1.size_ = 2 ∧ v1.data_.cells = [some 8, none] ∧ ¬ v1.Liveness :=
  ⟨by decide, by decide, rfl, rfl, by decide, by decide,
    ⟨⟨some [some 8, none], 2⟩, 2⟩, by decide, rfl, rfl, by decide⟩

/-- C18: the code at the failing input. The element type's move assignment throws on
the value 13. `Emplace(begin(), 9)` on `[1, 13, 3]` of capacity 4 (size < capacity,
position < size) meets the exception in the backward shift; the handler destroys the
slot at `end()`, the exception is swallowed, the call goes on and returns normally with
size 4 while slot 3 is raw: the slots `[0, size)` are not all constructed. -/
theorem C18_Emplace_shift_failure_leaves_raw_slot :
    (Vector.withElems [1, 13, 3] 4).Holds [1, 13, 3] ∧
    throwingMoveAssign.moveAssignThrows 13 = true ∧
    ∃ v1, Vector.Emplace throwingMoveAssign (Vector.withElems [1, 13, 3] 4) 0 9 = .ok v1 0 ∧
      v1.size_ = 4 ∧ v1.data_.cells = [some 9, some 13, some 3, none] ∧
      v1.constructed 3 = false ∧ ¬ v1.Liveness :=
  ⟨by decide, rfl, ⟨⟨some [some 9, some 13, some 3, none], 4⟩, 4⟩, by decide, rfl, rfl, rfl,
    by decide⟩

/-- C19: the code at the failing inputs. The assertion of `Erase` accepts the
one-past-the-end position of `[1, 2, 3]` and the position `begin()` of an empty vector:
neither call ends in the failed assertion, both run into the shift loop, which leaves
the constructed elements; only a position beyond `end()` is rejected. -/
theorem C19_Erase_assert_accepts_end :
    (Vector.withElems [1, 2, 3] 4).size_ = 3 ∧
    Vector.Erase plainTraits (Vector.withElems [1, 2, 3] 4) 3 = .undefined ∧
    Vector.Erase plainTraits (Vector.withElems [1, 2, 3] 4) 3 ≠ .assertFails ∧
    Vector.Erase plainTraits ({} : Vector Nat) 0 = .undefined ∧
    Vector.Erase plainTraits ({} : Vector Nat) 0 ≠ .assertFails ∧
    Vector.Erase plainTraits (Vector.withElems [1, 2, 3] 4) 4 = .assertFails :=
  ⟨rfl, by decide, by decide, by decide, by decide, by decide⟩

/-- C20: the Raw Buffer invariant (address null exactly when the capacity is 0) holds
after default construction and after construction with any capacity `n`, `Allocate(n)`
being null exactly for `n = 0`, for an element type of any size; move construction, move
assignment and `Swap` keep it
for both objects; move construction and move assignment leave their source exactly
`(null, 0)` and give the destination the former address and capacity of the source. -/
theorem C20_RawMemory_invariant (t : Traits α) (n : Nat) (m other : RawMemory α) (hm : m.Inv)
    (ho : other.Inv) :
    ({} : RawMemory α).Inv ∧ (RawMemory.create t n).Inv ∧
    (RawMemory.Allocate t n = none ↔ n = 0) ∧
    (RawMemory.moveConstruct other).1 = other ∧
    (RawMemory.moveConstruct other).2 = ⟨none, 0⟩ ∧
    (RawMemory.moveConstruct other).1.Inv ∧ (RawMemory.moveConstruct other).2.Inv ∧
    (RawMemory.moveAssign m other).1 = other ∧
    (RawMemory.moveAssign m other).2 = ⟨none, 0⟩ ∧
    (RawMemory.moveAssign m other).1.Inv ∧ (RawMemory.moveAssign m other).2.Inv ∧
    (RawMemory.Swap m other).1 = other ∧ (RawMemory.Swap m other).2 = m ∧
    (RawMemory.Swap m other).1.Inv ∧ (RawMemory.Swap m other).2.Inv := by
  have hnull : (⟨none, 0⟩ : RawMemory α).Inv := ⟨fun _ => rfl, fun _ => rfl⟩
  have halloc : RawMemory.Allocate t n = none ↔ n = 0 := by
    unfold RawMemory.Allocate
    by_cases h0 : n = 0 <;> simp [h0]
  exact ⟨hnull, halloc, halloc, rfl, rfl, ho, hnull, rfl, rfl, ho, hnull, rfl, rfl, ho, hm⟩

/-- Witness of C20: a buffer of capacity 3 and an empty one. -/
theorem C20_RawMemory_invariant_witness :
    (RawMemory.create plainTraits 3).Inv ∧ (RawMemory.create plainTraits 0).Inv ∧
    (RawMemory.moveAssign (RawMemory.create plainTraits 3) (RawMemory.create plainTraits 0)).1
      = RawMemory.create plainTraits 0 ∧
    (RawMemory.moveAssign (RawMemory.create plainTraits 3) (RawMemory.create plainTraits 0)).2
      = ⟨none, 0⟩ ∧
    (RawMemory.Swap (RawMemory.create plainTraits 3) (RawMemory.create plainTraits 0)).2.Inv :=
  have h := C20_RawMemory_invariant plainTraits 3 (RawMemory.create plainTraits 3)
    (RawMemory.create plainTraits 0) (by decide) (by decide)
  ⟨by decide, by decide, h.2.2.2.2.2.2.2.1, h.2.2.2.2.2.2.2.2.1, h.2.2.2.2.2.2.2.2.2.2.2.2.2.2⟩

/-- C15, counterexample: the element type has a `noexcept` copy constructor and no move
constructor, so it is nothrow-move-constructible and both sites take the branch of
`std::uninitialized_move_n`. `Reserve(7)` and `Emplace(begin() + 1, 9)` on the full
vector `[1, 2, 3]` return normally and relocate the 3 elements by 3 copy constructions
and no move construction, not by 3 move constructions and no copy construction. -/
theorem C15_counterexample_copy_only :
    (Vector.withElems [1, 2, 3] 3).Holds [1, 2, 3] ∧
    copyOnlyNoexcept.is_nothrow_move_constructible = true ∧
    copyOnlyNoexcept.has_move_constructor = false ∧
    Vector.Reserve copyOnlyNoexcept (Vector.withElems [1, 2, 3] 3) 7
      = .ok (Vector.withElems [1, 2, 3] 7) () ∧
    Vector.Reserve_counted copyOnlyNoexcept (Vector.withElems [1, 2, 3] 3) 7
      = ⟨.ok (Vector.withElems [1, 2, 3] 7) (), ⟨0, 3⟩⟩ ∧
    Vector.Emplace copyOnlyNoexcept (Vector.withElems [1, 2, 3] 3) 1 9
      = .ok (Vector.withElems [1, 9, 2, 3] 6) 1 ∧
    Vector.Emplace_counted copyOnlyNoexcept (Vector.withElems [1, 2, 3] 3) 1 9
      = ⟨.ok (Vector.withElems [1, 9, 2, 3] 6) 1, ⟨0, 3⟩⟩ ∧
    (Vector.Reserve_counted copyOnlyNoexcept (Vector.withElems [1, 2, 3] 3) 7).tally
      ≠ ⟨3, 0⟩ ∧
    (Vector.Emplace_counted copyOnlyNoexcept (Vector.withElems [1, 2, 3] 3) 1 9).tally
      ≠ ⟨3, 0⟩ :=
  ⟨by decide, rfl, rfl, by decide, by decide, by decide, by decide, by decide, by decide⟩

/-- C15, amended: for a vector holding the `n` elements `s`, when no relocation of an
element of `s` fails and the byte size of the new buffer is a value of `size_t`,
`Reserve(k)` with `k > capacity` and `Emplace` at `size == capacity` return normally,
and the probe run of each call gives the same result with this tally: when the element
type is nothrow-move-constructible or not copy-constructible, each of the `n` elements
is built from an rvalue of the old element, which is `n` move constructions and no copy
construction for a type that has a move constructor, and `n` copy constructions and no
move construction for a type that has none; otherwise `n` copy constructions and no
move construction. Both sites branch on the same condition, and the probe runs of
`Reserve` and `Emplace` have the results of `Reserve` and `Emplace` on every input. -/
theorem C15_relocation_tally (t : Traits α) (v : Vector α) (s : List α)
    (hv : v.Holds s) (hrel : ∀ z ∈ s, t.relocationThrows z = false) :
    (∀ k, v.Capacity < k → t.Fits k →
      ∃ v1, Vector.Reserve t v k = .ok v1 () ∧ v1.Holds s ∧
        Vector.Reserve_counted t v k
          = ⟨.ok v1 (),
              if t.is_nothrow_move_constructible || !t.is_copy_constructible then
                (if t.has_move_constructor then ⟨v.size_, 0⟩ else ⟨0, v.size_⟩)
              else ⟨0, v.size_⟩⟩) ∧
    (∀ i x, i ≤ v.size_ → v.size_ = v.Capacity → t.ctorThrows x = false →
      t.Fits (max 1 (2 * v.size_)) →
      ∃ v1, Vector.Emplace t v i x = .ok v1 i ∧ v1.Holds (s.take i ++ x :: s.drop i) ∧
        Vector.Emplace_counted t v i x
          = ⟨.ok v1 i,
              if t.is_nothrow_move_constructible || !t.is_copy_constructible then
                (if t.has_move_constructor then ⟨v.size_, 0⟩ else ⟨0, v.size_⟩)
              else ⟨0, v.size_⟩⟩) ∧
    (∀ k, (Vector.Reserve_counted t v k).result = Vector.Reserve t v k) ∧
    (∀ i x, (Vector.Emplace_counted t v i x).result = Vector.Emplace t v i x) := by
  have hsz := hv.size_eq
  have hcap := hv.size_le
  have hveq := hv.eq_withElems
  refine ⟨?_, ?_, fun k => Reserve_counted_result t v k,
    fun i x => Emplace_counted_result t v i x⟩
  · intro k hk hfit
    have hk1 : v.data_.capacity_ < k := hk
    have h := Reserve_withElems_of_relocation t s v.data_.capacity_ k hrel hcap (fun _ => hfit)
    rw [← hveq] at h
    refine ⟨_, h, Vector.holds_withElems _ _ (Nat.le_trans hcap (Nat.le_max_left _ _)), ?_⟩
    exact Counted.eq_mk _ _ _ ((Reserve_counted_result t v k).trans h)
      (Reserve_counted_tally t v _ k () hk h)
  · intro i x hi hfull hx hfit
    have hfull1 : v.data_.capacity_ = s.length := by
      have : v.size_ = v.data_.capacity_ := hfull
      omega
    have hfit1 : t.Fits (if s.length = 0 then 1 else s.length * 2) := (hsz ▸ hfit).double
    have h := Emplace_at_capacity t s i (hsz ▸ hi) x hx hrel hfit1
    rw [← hfull1, ← hveq] at h
    have hle : (s.take i ++ x :: s.drop i).length ≤ (if s.length = 0 then 1 else s.length * 2) := by
      have hi1 : i ≤ s.length := hsz ▸ hi
      simp only [List.length_append, List.length_take, List.length_cons, List.length_drop]
      split <;> omega
    refine ⟨_, h, Vector.holds_withElems _ _ (by rw [hfull1]; exact hle), ?_⟩
    exact Counted.eq_mk _ _ _ ((Emplace_counted_result t v i x).trans h)
      (Emplace_counted_tally t v _ i x i hfull h)

/-- Witness of the amended C15 on the full vector `[1, 2, 3]`: for a type relocated by
copy, `Reserve(7)` and `Emplace(begin() + 1, 9)` make 3 copy constructions and no move
construction; for a type like `int`, relocated by move, `Reserve(7)` makes 3 move
constructions and no copy construction. -/
theorem C15_relocation_tally_witness :
    (Vector.withElems [1, 2, 3] 3).Holds [1, 2, 3] ∧
    (∀ z ∈ [1, 2, 3], throwingCopy.relocationThrows z = false) ∧
    (∀ z ∈ [1, 2, 3], plainTraits.relocationThrows z = false) ∧
    (∃ v1, Vector.Reserve throwingCopy (Vector.withElems [1, 2, 3] 3) 7 = .ok v1 () ∧
      v1.Holds [1, 2, 3] ∧
      Vector.Reserve_counted throwingCopy (Vector.withElems [1, 2, 3] 3) 7
        = ⟨.ok v1 (), ⟨0, 3⟩⟩) ∧
    (∃ v1, Vector.Emplace throwingCopy (Vector.withElems [1, 2, 3] 3) 1 9 = .ok v1 1 ∧
      v1.Holds [1, 9, 2, 3] ∧
      Vector.Emplace_counted throwingCopy (Vector.withElems [1, 2, 3] 3) 1 9
        = ⟨.ok v1 1, ⟨0, 3⟩⟩) ∧
    (∃ v1, Vector.Reserve plainTraits (Vector.withElems [1, 2, 3] 3) 7 = .ok v1 () ∧
      v1.Holds [1, 2, 3] ∧
      Vector.Reserve_counted plainTraits (Vector.withElems [1, 2, 3] 3) 7
        = ⟨.ok v1 (), ⟨3, 0⟩⟩) :=
  have h := C15_relocation_tally throwingCopy (Vector.withElems [1, 2, 3] 3)
    [1, 2, 3] (by decide) (by decide)
  have hp := C15_relocation_tally plainTraits (Vector.withElems [1, 2, 3] 3)
    [1, 2, 3] (by decide) (by decide)
  ⟨by decide, by decide, by decide, h.1 7 (by decide) (by decide),
    h.2.1 1 9 (by decide) rfl rfl (by decide), hp.1 7 (by decide) (by decide)⟩

/-- C17: the size bound `0 ≤ size ≤ capacity` holds for the vector of every
constructor (default, `Vector(n)`, copy, move, and the moved-from source), and every
public operation on vectors that satisfy it leaves every vector it touches satisfying
it, whether the operation returns normally or an exception leaves it: `Emplace`,
`Insert`, `PushBack`, `EmplaceBack`, `PopBack`, `Erase`, `Resize`, `Reserve`, copy
assignment, move assignment and `Swap`; `Insert` and `PushBack` in both of their
overloads. -/
theorem C17_size_bound_invariant (t : Traits α) (v w : Vector α) (hv : v.SizeOk)
    (hw : w.SizeOk) :
    ({} : Vector α).SizeOk ∧
    (∀ n, (Vector.create t n).builds Vector.SizeOk) ∧
    (Vector.copyConstruct t v).builds Vector.SizeOk ∧
    (Vector.moveConstruct v).1.SizeOk ∧ (Vector.moveConstruct v).2.SizeOk ∧
    (∀ pos x, (Vector.Emplace t v pos x).leaves Vector.SizeOk) ∧
    (∀ pos x, (Vector.Insert t v pos x).leaves Vector.SizeOk) ∧
    (∀ x, (Vector.PushBack t v x).leaves Vector.SizeOk) ∧
    (∀ x, (Vector.EmplaceBack t v x).leaves Vector.SizeOk) ∧
    (Vector.PopBack v).leaves Vector.SizeOk ∧
    (∀ pos, (Vector.Erase t v pos).leaves Vector.SizeOk) ∧
    (∀ n, (Vector.Resize t v n).leaves Vector.SizeOk) ∧
    (∀ k, (Vector.Reserve t v k).leaves Vector.SizeOk) ∧
    (Vector.copyAssign t v w).leaves Vector.SizeOk ∧
    (Vector.moveAssign v w).1.SizeOk ∧ (Vector.moveAssign v w).2.SizeOk ∧
    (Vector.Swap v w).1.SizeOk ∧ (Vector.Swap v w).2.SizeOk ∧
    (∀ pos x, (Vector.InsertRvalue t v pos x).leaves Vector.SizeOk) ∧
    (∀ x, (Vector.PushBackRvalue t v x).leaves Vector.SizeOk) := by
  have hv1 : v.size_ ≤ v.Capacity := hv
  have hw1 : w.size_ ≤ w.Capacity := hw
  have h0 : ∀ u : Vector α, u.size_ = 0 → u.SizeOk := fun u hu => by
    show u.size_ ≤ u.Capacity
    omega
  have hem : ∀ (t : Traits α) pos x, (Vector.Emplace t v pos x).leaves Vector.SizeOk := by
    intro t pos x
    cases h : Vector.Emplace t v pos x with
    | ok v1 r =>
      obtain ⟨_, _, hs, hc⟩ := Emplace_ok_shape t v pos x v1 r h
      show v1.size_ ≤ v1.Capacity
      rw [hs, hc]
      split
      · split <;> omega
      · omega
    | throws v1 b =>
      obtain ⟨hs, hc⟩ := Emplace_throws_shape t v pos x v1 b h
      show v1.size_ ≤ v1.Capacity
      omega
    | assertFails => trivial
    | undefined => trivial
  refine ⟨Nat.le_refl _, ?_, ?_, hv, h0 _ rfl, hem t, hem t.copyArg, ?_, fun x => hem t _ x,
    ?_, ?_, ?_, ?_, ?_, hw, h0 _ rfl, hw, hv, hem t.moveArg, ?_⟩
  · intro n
    cases h : Vector.create t n with
    | ok u v1 =>
      obtain ⟨hs, hc⟩ := create_ok_shape t n u v1 h
      show v1.size_ ≤ v1.Capacity
      omega
    | throws _ _ => trivial
    | assertFails => trivial
    | undefined => trivial
  · cases h : Vector.copyConstruct t v with
    | ok u v1 =>
      obtain ⟨hs, hc⟩ := copyConstruct_ok_shape t v u v1 h
      show v1.size_ ≤ v1.Capacity
      omega
    | throws _ _ => trivial
    | assertFails => trivial
    | undefined => trivial
  · intro x
    cases h : Vector.PushBack t v x with
    | ok v1 r =>
      obtain ⟨hs, hc⟩ := PushBack_ok_shape t v x v1 r h
      show v1.size_ ≤ v1.Capacity
      rw [hs, hc]
      split
      · split <;> omega
      · omega
    | throws v1 b =>
      obtain ⟨hs, hc⟩ := PushBack_throws_shape t v x v1 b h
      show v1.size_ ≤ v1.Capacity
      omega
    | assertFails => trivial
    | undefined => trivial
  · cases h : Vector.PopBack v with
    | ok v1 r =>
      obtain ⟨_, hs, hc⟩ := PopBack_ok_shape v v1 r h
      show v1.size_ ≤ v1.Capacity
      omega
    | throws v1 b => exact absurd h (PopBack_not_throws v v1 b)
    | assertFails => trivial
    | undefined => trivial
  · intro pos
    cases h : Vector.Erase t v pos with
    | ok v1 r =>
      obtain ⟨_, _, _, hs, hc⟩ := Erase_ok_shape t v pos v1 r h
      show v1.size_ ≤ v1.Capacity
      omega
    | throws v1 b =>
      obtain ⟨hs, hc⟩ := Erase_throws_shape t v pos v1 b h
      show v1.size_ ≤ v1.Capacity
      omega
    | assertFails => trivial
    | undefined => trivial
  · intro n
    cases h : Vector.Resize t v n with
    | ok v1 r =>
      obtain ⟨hs, hc⟩ := Resize_ok_shape t v n v1 r h
      show v1.size_ ≤ v1.Capacity
      rw [hs, hc]
      split
      · exact Nat.le_max_right _ _
      · omega
    | throws v1 b =>
      obtain ⟨hs, hc, _⟩ := Resize_throws_shape t v n v1 b h
      show v1.size_ ≤ v1.Capacity
      omega
    | assertFails => trivial
    | undefined => trivial
  · intro k
    cases h : Vector.Reserve t v k with
    | ok v1 r =>
      obtain ⟨hs, hc⟩ := Reserve_ok_shape t v k v1 r h
      show v1.size_ ≤ v1.Capacity
      rw [hs, hc]
      exact Nat.le_trans hv1 (Nat.le_max_left _ _)
    | throws v1 b =>
      obtain ⟨hs, hc⟩ := Reserve_throws_shape t v k v1 b h
      show v1.size_ ≤ v1.Capacity
      omega
    | assertFails => trivial
    | undefined => trivial
  · cases h : Vector.copyAssign t v w with
    | ok v1 r =>
      obtain ⟨hs, hc, _⟩ := copyAssign_ok_shape t v w v1 r h
      show v1.size_ ≤ v1.Capacity
      rw [hs, hc]
      split
      · exact Nat.le_refl _
      · omega
    | throws v1 b =>
      obtain ⟨hs, hc, _⟩ := copyAssign_throws_shape t v w v1 b h
      show v1.size_ ≤ v1.Capacity
      omega
    | assertFails => trivial
    | undefined => trivial
  · intro x
    cases h : Vector.PushBackRvalue t v x with
    | ok v1 r =>
      obtain ⟨hs, hc⟩ := PushBackRvalue_ok_shape t v x v1 r h
      show v1.size_ ≤ v1.Capacity
      rw [hs, hc]
      split
      · split <;> omega
      · omega
    | throws v1 b =>
      obtain ⟨hs, hc⟩ := PushBackRvalue_throws_shape t v x v1 b h
      show v1.size_ ≤ v1.Capacity
      omega
    | assertFails => trivial
    | undefined => trivial

/-- Witness of C17 on `[1, 2]` of capacity 2 and `[7, 8, 9]` of capacity 4. -/
theorem C17_size_bound_invariant_witness :
    (Vector.withElems [1, 2] 2).SizeOk ∧ (Vector.withElems [7, 8, 9] 4).SizeOk ∧
    (Vector.Emplace plainTraits (Vector.withElems [1, 2] 2) 1 9).leaves Vector.SizeOk ∧
    (Vector.copyAssign plainTraits (Vector.withElems [1, 2] 2)
      (Vector.withElems [7, 8, 9] 4)).leaves Vector.SizeOk ∧
    (Vector.moveAssign (Vector.withElems [1, 2] 2) (Vector.withElems [7, 8, 9] 4)).2.SizeOk :=
  have h := C17_size_bound_invariant plainTraits (Vector.withElems [1, 2] 2)
    (Vector.withElems [7, 8, 9] 4) (by decide) (by decide)
  ⟨by decide, by decide, h.2.2.2.2.2.1 1 9, h.2.2.2.2.2.2.2.2.2.2.2.2.2.1,
    h.2.2.2.2.2.2.2.2.2.2.2.2.2.2.2.1⟩

end Claims

end AdvancedVector
